import Mathlib

/-!
# SubFors: the discovery orchestrator and the brute-force worker pool

A shallow embedding of `cmd/subfors/main.go` (`processDomain`,
`processDomainList`), of `core/brute.go` (`BruteSubdomains`, `worker`,
`checkSubdomain`, `loadWordlist`), of `core/favicon.go` (`dnsLookup`,
`generateSubdomains`, `findMatchingSubdomains`, `GetSubsFromFavicon`), of
`core/wayback.go` (`processURL`), of `core/resolver.go` (`CrawlDomain`,
`extractSubdomains`, `extractLinks`, `extractRootDomain`), of `core/google.go`
(`extractSubdomains`), of `core/certs.go` (`GetSubsFromCRT`) and of
`output/exporter.go` (`SaveResults`).

Goroutines are embedded as an interleaving model.  A state records what every
goroutine still has to do and the contents of the channels; an event is one
atomic action of one goroutine; a schedule is a list of events.  An event that
is not enabled in the current state (a goroutine that is blocked) leaves the
state unchanged.  External collaborators (the search functions, the file
system, the DNS resolver, the web, the regexp engine) are parameters.
`strings.ToLower` is the simple lower-case mapping of the Unicode Character
Database, given as a table of ranges.
-/

namespace SubFors

/-! ## Go library functions used by the code -/

namespace unicode

/-- The simple lower-case mappings of the Unicode Character Database above
U+007F, which Go `unicode.ToLower` applies through `unicode.CaseRanges`
(Unicode 15.0.0): an entry `(lo, hi, step, to)` maps the code points
`lo`, `lo + step`, ... up to `hi` to `to`, `to + step`, ... -/
def lowerRanges : List (Nat × Nat × Nat × Nat) :=
  [(0xC0, 0xD6, 1, 0xE0), (0xD8, 0xDE, 1, 0xF8), (0x100, 0x12E, 2, 0x101),
   (0x130, 0x130, 1, 0x69), (0x132, 0x136, 2, 0x133), (0x139, 0x147, 2, 0x13A),
   (0x14A, 0x176, 2, 0x14B), (0x178, 0x178, 1, 0xFF), (0x179, 0x17D, 2, 0x17A),
   (0x181, 0x181, 1, 0x253), (0x182, 0x184, 2, 0x183), (0x186, 0x186, 1, 0x254),
   (0x187, 0x187, 1, 0x188), (0x189, 0x18A, 1, 0x256), (0x18B, 0x18B, 1, 0x18C),
   (0x18E, 0x18E, 1, 0x1DD), (0x18F, 0x18F, 1, 0x259), (0x190, 0x190, 1, 0x25B),
   (0x191, 0x191, 1, 0x192), (0x193, 0x193, 1, 0x260), (0x194, 0x194, 1, 0x263),
   (0x196, 0x196, 1, 0x269), (0x197, 0x197, 1, 0x268), (0x198, 0x198, 1, 0x199),
   (0x19C, 0x19C, 1, 0x26F), (0x19D, 0x19D, 1, 0x272), (0x19F, 0x19F, 1, 0x275),
   (0x1A0, 0x1A4, 2, 0x1A1), (0x1A6, 0x1A6, 1, 0x280), (0x1A7, 0x1A7, 1, 0x1A8),
   (0x1A9, 0x1A9, 1, 0x283), (0x1AC, 0x1AC, 1, 0x1AD), (0x1AE, 0x1AE, 1, 0x288),
   (0x1AF, 0x1AF, 1, 0x1B0), (0x1B1, 0x1B2, 1, 0x28A), (0x1B3, 0x1B5, 2, 0x1B4),
   (0x1B7, 0x1B7, 1, 0x292), (0x1B8, 0x1B8, 1, 0x1B9), (0x1BC, 0x1BC, 1, 0x1BD),
   (0x1C4, 0x1C4, 1, 0x1C6), (0x1C5, 0x1C5, 1, 0x1C6), (0x1C7, 0x1C7, 1, 0x1C9),
   (0x1C8, 0x1C8, 1, 0x1C9), (0x1CA, 0x1CA, 1, 0x1CC), (0x1CB, 0x1DB, 2, 0x1CC),
   (0x1DE, 0x1EE, 2, 0x1DF), (0x1F1, 0x1F1, 1, 0x1F3), (0x1F2, 0x1F4, 2, 0x1F3),
   (0x1F6, 0x1F6, 1, 0x195), (0x1F7, 0x1F7, 1, 0x1BF), (0x1F8, 0x21E, 2, 0x1F9),
   (0x220, 0x220, 1, 0x19E), (0x222, 0x232, 2, 0x223), (0x23A, 0x23A, 1, 0x2C65),
   (0x23B, 0x23B, 1, 0x23C), (0x23D, 0x23D, 1, 0x19A), (0x23E, 0x23E, 1, 0x2C66),
   (0x241, 0x241, 1, 0x242), (0x243, 0x243, 1, 0x180), (0x244, 0x244, 1, 0x289),
   (0x245, 0x245, 1, 0x28C), (0x246, 0x24E, 2, 0x247), (0x370, 0x372, 2, 0x371),
   (0x376, 0x376, 1, 0x377), (0x37F, 0x37F, 1, 0x3F3), (0x386, 0x386, 1, 0x3AC),
   (0x388, 0x38A, 1, 0x3AD), (0x38C, 0x38C, 1, 0x3CC), (0x38E, 0x38F, 1, 0x3CD),
   (0x391, 0x3A1, 1, 0x3B1), (0x3A3, 0x3AB, 1, 0x3C3), (0x3CF, 0x3CF, 1, 0x3D7),
   (0x3D8, 0x3EE, 2, 0x3D9), (0x3F4, 0x3F4, 1, 0x3B8), (0x3F7, 0x3F7, 1, 0x3F8),
   (0x3F9, 0x3F9, 1, 0x3F2), (0x3FA, 0x3FA, 1, 0x3FB), (0x3FD, 0x3FF, 1, 0x37B),
   (0x400, 0x40F, 1, 0x450), (0x410, 0x42F, 1, 0x430), (0x460, 0x480, 2, 0x461),
   (0x48A, 0x4BE, 2, 0x48B), (0x4C0, 0x4C0, 1, 0x4CF), (0x4C1, 0x4CD, 2, 0x4C2),
   (0x4D0, 0x52E, 2, 0x4D1), (0x531, 0x556, 1, 0x561), (0x10A0, 0x10C5, 1, 0x2D00),
   (0x10C7, 0x10C7, 1, 0x2D27), (0x10CD, 0x10CD, 1, 0x2D2D), (0x13A0, 0x13EF, 1, 0xAB70),
   (0x13F0, 0x13F5, 1, 0x13F8), (0x1C90, 0x1CBA, 1, 0x10D0), (0x1CBD, 0x1CBF, 1, 0x10FD),
   (0x1E00, 0x1E94, 2, 0x1E01), (0x1E9E, 0x1E9E, 1, 0xDF), (0x1EA0, 0x1EFE, 2, 0x1EA1),
   (0x1F08, 0x1F0F, 1, 0x1F00), (0x1F18, 0x1F1D, 1, 0x1F10), (0x1F28, 0x1F2F, 1, 0x1F20),
   (0x1F38, 0x1F3F, 1, 0x1F30), (0x1F48, 0x1F4D, 1, 0x1F40), (0x1F59, 0x1F5F, 2, 0x1F51),
   (0x1F68, 0x1F6F, 1, 0x1F60), (0x1F88, 0x1F8F, 1, 0x1F80), (0x1F98, 0x1F9F, 1, 0x1F90),
   (0x1FA8, 0x1FAF, 1, 0x1FA0), (0x1FB8, 0x1FB9, 1, 0x1FB0), (0x1FBA, 0x1FBB, 1, 0x1F70),
   (0x1FBC, 0x1FBC, 1, 0x1FB3), (0x1FC8, 0x1FCB, 1, 0x1F72), (0x1FCC, 0x1FCC, 1, 0x1FC3),
   (0x1FD8, 0x1FD9, 1, 0x1FD0), (0x1FDA, 0x1FDB, 1, 0x1F76), (0x1FE8, 0x1FE9, 1, 0x1FE0),
   (0x1FEA, 0x1FEB, 1, 0x1F7A), (0x1FEC, 0x1FEC, 1, 0x1FE5), (0x1FF8, 0x1FF9, 1, 0x1F78),
   (0x1FFA, 0x1FFB, 1, 0x1F7C), (0x1FFC, 0x1FFC, 1, 0x1FF3), (0x2126, 0x2126, 1, 0x3C9),
   (0x212A, 0x212A, 1, 0x6B), (0x212B, 0x212B, 1, 0xE5), (0x2132, 0x2132, 1, 0x214E),
   (0x2160, 0x216F, 1, 0x2170), (0x2183, 0x2183, 1, 0x2184), (0x24B6, 0x24CF, 1, 0x24D0),
   (0x2C00, 0x2C2F, 1, 0x2C30), (0x2C60, 0x2C60, 1, 0x2C61), (0x2C62, 0x2C62, 1, 0x26B),
   (0x2C63, 0x2C63, 1, 0x1D7D), (0x2C64, 0x2C64, 1, 0x27D), (0x2C67, 0x2C6B, 2, 0x2C68),
   (0x2C6D, 0x2C6D, 1, 0x251), (0x2C6E, 0x2C6E, 1, 0x271), (0x2C6F, 0x2C6F, 1, 0x250),
   (0x2C70, 0x2C70, 1, 0x252), (0x2C72, 0x2C72, 1, 0x2C73), (0x2C75, 0x2C75, 1, 0x2C76),
   (0x2C7E, 0x2C7F, 1, 0x23F), (0x2C80, 0x2CE2, 2, 0x2C81), (0x2CEB, 0x2CED, 2, 0x2CEC),
   (0x2CF2, 0x2CF2, 1, 0x2CF3), (0xA640, 0xA66C, 2, 0xA641), (0xA680, 0xA69A, 2, 0xA681),
   (0xA722, 0xA72E, 2, 0xA723), (0xA732, 0xA76E, 2, 0xA733), (0xA779, 0xA77B, 2, 0xA77A),
   (0xA77D, 0xA77D, 1, 0x1D79), (0xA77E, 0xA786, 2, 0xA77F), (0xA78B, 0xA78B, 1, 0xA78C),
   (0xA78D, 0xA78D, 1, 0x265), (0xA790, 0xA792, 2, 0xA791), (0xA796, 0xA7A8, 2, 0xA797),
   (0xA7AA, 0xA7AA, 1, 0x266), (0xA7AB, 0xA7AB, 1, 0x25C), (0xA7AC, 0xA7AC, 1, 0x261),
   (0xA7AD, 0xA7AD, 1, 0x26C), (0xA7AE, 0xA7AE, 1, 0x26A), (0xA7B0, 0xA7B0, 1, 0x29E),
   (0xA7B1, 0xA7B1, 1, 0x287), (0xA7B2, 0xA7B2, 1, 0x29D), (0xA7B3, 0xA7B3, 1, 0xAB53),
   (0xA7B4, 0xA7C2, 2, 0xA7B5), (0xA7C4, 0xA7C4, 1, 0xA794), (0xA7C5, 0xA7C5, 1, 0x282),
   (0xA7C6, 0xA7C6, 1, 0x1D8E), (0xA7C7, 0xA7C9, 2, 0xA7C8), (0xA7D0, 0xA7D0, 1, 0xA7D1),
   (0xA7D6, 0xA7D8, 2, 0xA7D7), (0xA7F5, 0xA7F5, 1, 0xA7F6), (0xFF21, 0xFF3A, 1, 0xFF41),
   (0x10400, 0x10427, 1, 0x10428), (0x104B0, 0x104D3, 1, 0x104D8),
   (0x10570, 0x1057A, 1, 0x10597), (0x1057C, 0x1058A, 1, 0x105A3),
   (0x1058C, 0x10592, 1, 0x105B3), (0x10594, 0x10595, 1, 0x105BB),
   (0x10C80, 0x10CB2, 1, 0x10CC0), (0x118A0, 0x118BF, 1, 0x118C0),
   (0x16E40, 0x16E5F, 1, 0x16E60), (0x1E900, 0x1E921, 1, 0x1E922)]

/-- The code point `n` is one of those an entry maps. -/
def inRange (n : Nat) (r : Nat × Nat × Nat × Nat) : Bool :=
  Nat.ble r.1 n && Nat.ble n r.2.1 && Nat.beq ((n - r.1) % r.2.2.1) 0

/-- Go `unicode.To(unicode.LowerCase, r)` on a code point above U+007F. -/
def lowerNat (n : Nat) : Nat :=
  match lowerRanges.find? (inRange n) with
  | some r => r.2.2.2 + (n - r.1)
  | none => n

/-- Go `unicode.ToLower`. -/
def ToLower (c : Char) : Char :=
  if c.toNat ≤ 0x7F then c.toLower else Char.ofNat (lowerNat c.toNat)

/-- The code points an entry maps to are Unicode scalar values, and those up
to U+007F among them are no capital letters. -/
def targetsValid (r : Nat × Nat × Nat × Nat) : Bool :=
  (Nat.ble (r.2.2.2 + (r.2.1 - r.1)) 0xD7FF ||
    (Nat.ble 0xE000 r.2.2.2 && Nat.ble (r.2.2.2 + (r.2.1 - r.1)) 0x10FFFF)) &&
  (Nat.ble 0x80 r.2.2.2 || (Nat.ble 91 r.2.2.2 && Nat.ble (r.2.2.2 + (r.2.1 - r.1)) 0x7F))

/-- No code point the entry `r` maps to is mapped by the entry `s`: the two
sets lie apart, or they differ in parity. -/
def targetsFree (r s : Nat × Nat × Nat × Nat) : Bool :=
  Nat.blt (r.2.2.2 + (r.2.1 - r.1)) s.1 || Nat.blt s.2.1 r.2.2.2 ||
  (Nat.beq s.2.2.1 2 && (Nat.beq r.2.2.1 2 || Nat.beq r.1 r.2.1) &&
    Nat.beq ((r.2.2.2 + s.1) % 2) 1)

/-- The check that every code point an entry maps to is left as it is by
`ToLower`. -/
def targetsFixed : Bool :=
  lowerRanges.all (fun r => targetsValid r && lowerRanges.all (targetsFree r))

end unicode

namespace strings

/-- Go `strings.HasSuffix`. -/
def HasSuffix (s suffix : String) : Bool :=
  suffix.data.isSuffixOf s.data

/-- Go `unicode.IsSpace`: the code points with the Unicode White_Space property. -/
def isSpace (c : Char) : Bool :=
  let n := c.toNat
  (9 ≤ n && n ≤ 13) || n == 32 || n == 0x85 || n == 0xA0 || n == 0x1680 ||
  (0x2000 ≤ n && n ≤ 0x200A) || n == 0x2028 || n == 0x2029 || n == 0x202F ||
  n == 0x205F || n == 0x3000

/-- Go `strings.TrimSpace`: removes leading and trailing white space. -/
def TrimSpace (s : String) : String :=
  String.mk ((s.data.dropWhile isSpace).reverse.dropWhile isSpace).reverse

/-- Go `strings.ToLower`: `unicode.ToLower` on every code point. -/
def ToLower (s : String) : String :=
  String.mk (s.data.map unicode.ToLower)

end strings

/-! ## `processDomain` (cmd/subfors/main.go) -/

/-- Behaviour of one call `searchFn(domain)`: it returns the pair
`(subs, err)`, where `none` is the nil error, or it never returns. -/
inductive Call where
  | returns (subs : List String) (err : Option String)
  | hangs
deriving DecidableEq, Repr

/-- One entry of the `searchers` table: a name and a search function
(`none` is the nil function value). -/
structure Searcher where
  name : String
  search : Option (String → Call)

/-- Capacity of the `results` channel: `make(chan string, 1000)`. -/
def resultsCap : Nat := 1000

/-- Control state of one source goroutine (main.go:143-168). -/
inductive Task where
  /-- launched; `searchFn(domain)` has not returned yet -/
  | running (call : Call)
  /-- in the loop `for _, sub := range subs`, with `rest` still to be sent;
  `sending []` is a goroutine that has returned -/
  | sending (rest : List String)
deriving DecidableEq, Repr

/-- The goroutine has returned, so its `wg.Done()` has run. -/
def Task.done : Task → Bool
  | .sending [] => true
  | _ => false

/-- Hostnames the goroutine may still publish. -/
def Task.pending : Task → List String
  | .running (.returns subs none) => subs
  | .running _ => []
  | .sending rest => rest

/-- State of one run of `processDomain`. -/
structure RunState where
  /-- one task per entry of `searchers`, in table order -/
  tasks : List Task
  /-- buffered contents of the `results` channel, oldest first -/
  results : List String
  /-- keys of the `uniqueSubs` map, in order of first insertion -/
  uniqueSubs : List String
  /-- whether `ctx.Done()` is closed (the 10 minute deadline has passed) -/
  ctxDone : Bool
deriving DecidableEq, Repr

/-- Atomic actions of the goroutines of `processDomain`. -/
inductive Event where
  /-- `searchFn(domain)` of goroutine `i` returns -/
  | ret (i : Nat)
  /-- the `select` of goroutine `i` takes the case `results <- sub` -/
  | send (i : Nat)
  /-- the `select` of goroutine `i` takes the case `<-ctx.Done()` -/
  | abandon (i : Nat)
  /-- the collector receives one value and stores it -/
  | recv
  /-- the deadline of `ctx` passes -/
  | timeout
deriving DecidableEq, Repr

/-- The call `uniqueSubs.Store(sub, true)` on the key list of the map. -/
def Store (keys : List String) (sub : String) : List String :=
  if sub ∈ keys then keys else keys ++ [sub]

/-- State of the goroutine started for one table entry: a nil `searchFn`
makes it return at once (main.go:146-148). -/
def launch (domain : String) (s : Searcher) : Task :=
  match s.search with
  | none => .sending []
  | some searchFn => .running (searchFn domain)

/-- State after the collector and all source goroutines are started. -/
def initState (searchers : List Searcher) (domain : String) : RunState :=
  ⟨searchers.map (launch domain), [], [], false⟩

/-- One atomic action.  A disabled event leaves the state unchanged. -/
def step (st : RunState) : Event → RunState
  | .ret i =>
    match st.tasks[i]? with
    | some (.running (.returns subs err)) =>
      -- `if err != nil { return }`, otherwise enter the loop over `subs`
      ⟨st.tasks.set i (.sending (if err.isSome then [] else subs)),
        st.results, st.uniqueSubs, st.ctxDone⟩
    | _ => st
  | .send i =>
    match st.tasks[i]? with
    | some (.sending (sub :: rest)) =>
      if st.results.length < resultsCap then
        ⟨st.tasks.set i (.sending rest), st.results ++ [sub], st.uniqueSubs, st.ctxDone⟩
      else st
    | _ => st
  | .abandon i =>
    match st.tasks[i]? with
    | some (.sending (_ :: _)) =>
      if st.ctxDone then
        ⟨st.tasks.set i (.sending []), st.results, st.uniqueSubs, st.ctxDone⟩
      else st
    | _ => st
  | .recv =>
    match st.results with
    | sub :: rest => ⟨st.tasks, rest, Store st.uniqueSubs sub, st.ctxDone⟩
    | [] => st
  | .timeout => ⟨st.tasks, st.results, st.uniqueSubs, true⟩

/-- Runs a schedule from a state. -/
def exec (st : RunState) (sched : List Event) : RunState :=
  sched.foldl step st

/-- After `wg.Wait()` and `close(results)` the collector drains what is still
buffered (`resultsWg.Wait()`), then `Range` lists the keys. -/
def snapshot (st : RunState) : List String :=
  st.results.foldl Store st.uniqueSubs

/-- The slice `subdomains` built by `processDomain(domain)` under a schedule of
its goroutines; `none` when `wg.Wait()` has not returned under that schedule. -/
def processDomain (searchers : List Searcher) (domain : String)
    (sched : List Event) : Option (List String) :=
  let st := exec (initState searchers domain) sched
  if st.tasks.all Task.done then some (snapshot st) else none

/-- The schedule in which goroutine `i` returns from its search and every
value it sends is received at once, for `n` values. -/
def serveTask (i n : Nat) : List Event :=
  Event.ret i :: (List.replicate n [Event.send i, Event.recv]).flatten

/-- Everything that is stored, buffered or still to be sent. -/
def pool (st : RunState) : List String :=
  st.uniqueSubs ++ (st.results ++ st.tasks.flatMap Task.pending)

/-- Hostname `x` is in the slice that the search function of some table entry
returns for `domain` together with a nil error. -/
def Returned (searchers : List Searcher) (domain x : String) : Prop :=
  ∃ s ∈ searchers, ∃ searchFn subs,
    s.search = some searchFn ∧ searchFn domain = Call.returns subs none ∧ x ∈ subs

/-- Serves the tasks of a table one after the other, the first having index `i`. -/
def serveAll : Nat → List Task → List Event
  | _, [] => []
  | i, t :: ts => serveTask i t.pending.length ++ serveAll (i + 1) ts

/-- A schedule under which every goroutine runs to its end, one at a time. -/
def fullSchedule (searchers : List Searcher) (domain : String) : List Event :=
  serveAll 0 (searchers.map (launch domain))

/-- No search function of the table hangs on `domain`. -/
def AllReturn (searchers : List Searcher) (domain : String) : Prop :=
  ∀ s ∈ searchers, ∀ searchFn, s.search = some searchFn → searchFn domain ≠ Call.hangs

/-! ## `loadWordlist` (core/brute.go) -/

namespace bufio

/-- Go `bufio.MaxScanTokenSize`. -/
def MaxScanTokenSize : Nat := 64 * 1024

/-- Text of Go `bufio.ErrTooLong`. -/
def ErrTooLong : String := "bufio.Scanner: token too long"

/-- Length in bytes of the UTF-8 encoding. -/
def byteLen (cs : List Char) : Nat :=
  (cs.map Char.utf8Size).sum

/-- Go `dropCR`, on a line kept in reverse: drops one final carriage return. -/
def dropCR : List Char → List Char
  | '\r' :: cs => cs
  | cs => cs

/-- The tokens that `Scanner.Scan` with the default split function `ScanLines`
delivers for the given remaining input, and the final `Scanner.Err()`.
`cur` is the current line read so far, in reverse.  A line of
`MaxScanTokenSize` bytes or more fills the buffer before its end is found, and
scanning stops with `ErrTooLong`. -/
def scanLines (cur : List Char) : List Char → List String × Option String
  | [] =>
    if cur.isEmpty then ([], none)
    else if MaxScanTokenSize ≤ byteLen cur then ([], some ErrTooLong)
    else ([String.mk (dropCR cur).reverse], none)
  | c :: cs =>
    if c = '\n' then
      if MaxScanTokenSize ≤ byteLen cur then ([], some ErrTooLong)
      else
        let r := scanLines [] cs
        (String.mk (dropCR cur).reverse :: r.1, r.2)
    else scanLines (c :: cur) cs

end bufio

/-- The files the program can open: `os.Open(path)` gives the contents or
fails with an error text. -/
abbrev FileSystem := String → Except String String

/-- Function `loadWordlist` of core/brute.go: the pair `(words, err)`. -/
def loadWordlist (fs : FileSystem) (path : String) : List String × Option String :=
  match fs path with
  | .error e => ([], some ("error opening wordlist: " ++ e))
  | .ok content =>
    let r := bufio.scanLines [] content.data
    (r.1.map strings.TrimSpace, r.2)

/-! ## `BruteSubdomains` (core/brute.go) -/

/-- Constant `defaultWorkers`. -/
def defaultWorkers : Nat := 200

/-- Failure of a DNS lookup. -/
inductive DNSError where
  | timeout
  | noSuchHost
  | other (msg : String)
deriving DecidableEq, Repr

/-- The upstream resolver: `LookupHost` gives addresses or fails. -/
abbrev Resolver := String → Except DNSError (List String)

/-- Function `checkSubdomain`: `err == nil` of the single `LookupHost` call. -/
def checkSubdomain (resolver : Resolver) (subdomain : String) : Bool :=
  match resolver subdomain with
  | .ok _ => true
  | .error _ => false

/-- State of the worker pool of `BruteSubdomains`. -/
structure PoolState where
  /-- words the loop `for _, word := range words` has not sent yet; after
  the last one `jobs` is closed -/
  toFeed : List String
  /-- buffered contents of the `jobs` channel, oldest first -/
  jobs : List String
  /-- workers blocked in `results <- subdomain`, with the value they send -/
  blocked : List (Nat × String)
  /-- the slice `subs` of the collector -/
  subs : List String
  /-- log of receptions from `jobs`: worker and word -/
  received : List (Nat × String)
  /-- log of `LookupHost` calls: the hostname looked up -/
  lookups : List String
deriving DecidableEq, Repr

/-- Atomic actions of the goroutines of `BruteSubdomains`. -/
inductive PoolEvent where
  /-- the main goroutine sends the next word: `jobs <- word` -/
  | feed
  /-- worker `w` receives a word from `jobs` and runs the loop body up to
  the send on `results` or to the next receive -/
  | work (w : Nat)
  /-- the send `results <- subdomain` of worker `w` meets the receive of the
  collector, which appends the value to `subs` -/
  | deliver (w : Nat)
deriving DecidableEq, Repr

/-- Worker `w` is not blocked on a send. -/
def PoolState.free (st : PoolState) (w : Nat) : Bool :=
  st.blocked.all (fun p => p.1 != w)

/-- Takes worker `w` out of the blocked senders: the value it sends and the
senders that stay blocked. -/
def unblock (w : Nat) : List (Nat × String) → Option (String × List (Nat × String))
  | [] => none
  | p :: ps =>
    if p.1 = w then some (p.2, ps)
    else (unblock w ps).map (fun r => (r.1, p :: r.2))

/-- One atomic action.  A disabled event leaves the state unchanged. -/
def poolStep (domain : String) (resolver : Resolver) (st : PoolState) :
    PoolEvent → PoolState
  | .feed =>
    match st.toFeed with
    | word :: rest =>
      ⟨rest, st.jobs ++ [word], st.blocked, st.subs, st.received, st.lookups⟩
    | [] => st
  | .work w =>
    if w < defaultWorkers && st.free w then
      match st.jobs with
      | word :: rest =>
        -- `fmt.Sprintf("%s.%s", word, domain)`
        let subdomain := word ++ "." ++ domain
        ⟨st.toFeed, rest,
          if checkSubdomain resolver subdomain then st.blocked ++ [(w, subdomain)]
          else st.blocked,
          st.subs, st.received ++ [(w, word)], st.lookups ++ [subdomain]⟩
      | [] => st
    else st
  | .deliver w =>
    match unblock w st.blocked with
    | some (subdomain, others) =>
      ⟨st.toFeed, st.jobs, others, st.subs ++ [subdomain], st.received, st.lookups⟩
    | none => st

/-- Runs a schedule from a state. -/
def poolExec (domain : String) (resolver : Resolver) (st : PoolState)
    (sched : List PoolEvent) : PoolState :=
  sched.foldl (poolStep domain resolver) st

/-- State after the collector and the workers are started: nothing fed yet. -/
def poolInit (words : List String) : PoolState :=
  ⟨words, [], [], [], [], []⟩

/-- The queue is closed and drained and no worker is blocked on a send: every
worker leaves its loop, `wg.Wait()` returns, `results` is closed and the
collector closes `done`, none of which changes `subs`. -/
def PoolState.finished (st : PoolState) : Bool :=
  st.toFeed.isEmpty && st.jobs.isEmpty && st.blocked.isEmpty

/-- What one call of `BruteSubdomains` does: the returned pair and the
activity of the pool. -/
structure BruteRun where
  subs : List String
  err : Option String
  /-- number of `go worker(...)` statements executed -/
  workersStarted : Nat
  received : List (Nat × String)
  lookups : List String
deriving DecidableEq, Repr

/-- Function `BruteSubdomains` under a schedule of its goroutines; `none`
when the call has not returned under that schedule. -/
def BruteSubdomains (fs : FileSystem) (resolver : Resolver)
    (domain wordlistPath : String) (sched : List PoolEvent) : Option BruteRun :=
  match loadWordlist fs wordlistPath with
  | (_, some err) => some ⟨[], some err, 0, [], []⟩
  | (words, none) =>
    let st := poolExec domain resolver (poolInit words) sched
    if st.finished then some ⟨st.subs, none, defaultWorkers, st.received, st.lookups⟩
    else none

/-- The schedule that feeds `n` words and lets worker 0 handle them in turn. -/
def poolSchedule (n : Nat) : List PoolEvent :=
  List.replicate n PoolEvent.feed ++
    (List.replicate n [PoolEvent.work 0, PoolEvent.deliver 0]).flatten

/-- The hostname built by a worker: `fmt.Sprintf("%s.%s", word, domain)`. -/
def hostOf (domain word : String) : String :=
  word ++ "." ++ domain

/-- The hostnames of the given words that the resolver reports as existing. -/
def resolving (resolver : Resolver) (domain : String) (ws : List String) : List String :=
  (ws.map (hostOf domain)).filter (checkSubdomain resolver)

/-- Hostnames collected, in flight, or still to be produced. -/
def poolAccount (resolver : Resolver) (domain : String) (st : PoolState) : List String :=
  st.subs ++ (st.blocked.map Prod.snd ++
    (resolving resolver domain st.jobs ++ resolving resolver domain st.toFeed))

/-- Words received, queued, or still to be fed. -/
def wordAccount (st : PoolState) : List String :=
  st.received.map Prod.snd ++ (st.jobs ++ st.toFeed)

/-! ## The table `searchers` of `processDomain` (main.go:87-115) -/

/-- What `processDomain` takes from outside: the flags, the file system, the
resolver, the schedule of the brute-force pool, and the search functions of
package `core`, each given by what its call does. -/
structure Env where
  wordlist : String
  vtAPIKey : String
  dnAPIKey : String
  fs : FileSystem
  resolver : Resolver
  bruteSched : List PoolEvent
  GetSubsFromCRT : String → Call
  GetSubsFromArchive : String → Call
  GetSubsFromCrawling : String → Call
  GetSubsFromJS : String → Call
  GoogleDork : String → Call
  BingDork : String → Call
  DuckDork : String → Call
  GetSubsFromHeaders : String → Call
  GetSubsFromFavicon : String → Call
  GetSubsFromVirusTotal : String → String → Call
  GetSubsFromDNSDumpster : String → String → Call

/-- The closure of the entry "Brute Force" (main.go:91-93). -/
def bruteForceEntry (env : Env) (d : String) : Call :=
  match BruteSubdomains env.fs env.resolver d env.wordlist env.bruteSched with
  | some run => Call.returns run.subs run.err
  | none => Call.hangs

/-- The closure of the entry "VirusTotal" (main.go:103-108): what the call
does, and how many times it invokes `GetSubsFromVirusTotal`. -/
def virusTotalEntry (env : Env) (d : String) : Call × Nat :=
  if env.vtAPIKey = "" then (Call.returns [] none, 0)
  else (env.GetSubsFromVirusTotal d env.vtAPIKey, 1)

/-- The closure of the entry "DNSDumpster" (main.go:109-114): what the call
does, and how many times it invokes `GetSubsFromDNSDumpster`. -/
def dnsDumpsterEntry (env : Env) (d : String) : Call × Nat :=
  if env.dnAPIKey = "" then (Call.returns [] none, 0)
  else (env.GetSubsFromDNSDumpster d env.dnAPIKey, 1)

/-- The table `searchers`. -/
def searchers (env : Env) : List Searcher :=
  [ ⟨"Brute Force", some (bruteForceEntry env)⟩,
    ⟨"Certificate Transparency", some env.GetSubsFromCRT⟩,
    ⟨"Web Archives", some env.GetSubsFromArchive⟩,
    ⟨"Website Crawler", some env.GetSubsFromCrawling⟩,
    ⟨"JavaScript Analysis", some env.GetSubsFromJS⟩,
    ⟨"Google Dork", some env.GoogleDork⟩,
    ⟨"Bing Dork", some env.BingDork⟩,
    ⟨"DuckDuckGo Dork", some env.DuckDork⟩,
    ⟨"Headers Analysis", some env.GetSubsFromHeaders⟩,
    ⟨"Favicon Matching", some env.GetSubsFromFavicon⟩,
    ⟨"VirusTotal", some (fun d => (virusTotalEntry env d).1)⟩,
    ⟨"DNSDumpster", some (fun d => (dnsDumpsterEntry env d).1)⟩ ]

/-! ## Concrete inputs -/

/-- A file system holding three word lists. -/
def sampleFs : FileSystem := fun path =>
  if path = "words.txt" then .ok "www\nmail\n"
  else if path = "blank.txt" then .ok "www\n\nmail\n"
  else .error ("open " ++ path ++ ": no such file or directory")

/-- A resolver that knows `www.example.com` only. -/
def sampleResolver : Resolver := fun host =>
  if host = "www.example.com" then .ok ["93.184.216.34"] else .error DNSError.noSuchHost

/-- A search function that finds nothing. -/
def findsNothing : String → Call := fun _ => Call.returns [] none

/-- An environment without API keys in which the word list cannot be opened
and every other source finds nothing. -/
def quietEnv : Env where
  wordlist := "./db/wordlist.txt"
  vtAPIKey := ""
  dnAPIKey := ""
  fs := sampleFs
  resolver := sampleResolver
  bruteSched := []
  GetSubsFromCRT := findsNothing
  GetSubsFromArchive := findsNothing
  GetSubsFromCrawling := findsNothing
  GetSubsFromJS := findsNothing
  GoogleDork := findsNothing
  BingDork := findsNothing
  DuckDork := findsNothing
  GetSubsFromHeaders := findsNothing
  GetSubsFromFavicon := findsNothing
  GetSubsFromVirusTotal := fun _ _ => Call.hangs
  GetSubsFromDNSDumpster := fun _ _ => Call.hangs

/-- Two sources that both return `a.example.com`, the second also `b.example.com`. -/
def twoSources : List Searcher :=
  [ ⟨"first", some (fun _ => Call.returns ["a.example.com"] none)⟩,
    ⟨"second", some (fun _ => Call.returns ["a.example.com", "b.example.com"] none)⟩ ]

/-- The environment `quietEnv` with a DNSDumpster key, where the DNSDumpster
answer lists a host of another domain. -/
def strayEnv : Env :=
  { quietEnv with
    dnAPIKey := "key"
    GetSubsFromDNSDumpster := fun _ _ => Call.returns ["mail.example.org"] none }

/-- The environment `quietEnv` where the response headers name one host in two
spellings. -/
def mixedCaseEnv : Env :=
  { quietEnv with
    GetSubsFromHeaders := fun _ => Call.returns ["API.example.com", "api.example.com"] none }

/-- The schedule in which the twelve searches return in table order, then
goroutine `i` sends `n` values, each received at once. -/
def afterAllReturn (i n : Nat) : List Event :=
  (List.range 12).map Event.ret ++ (List.replicate n [Event.send i, Event.recv]).flatten

/-- A source that fails after it has collected one hostname, as
`GetSubsFromVirusTotal` does when its quota runs out on a later page. -/
def quotaSource : Searcher :=
  ⟨"quota", some (fun _ =>
    Call.returns ["x.example.com"] (some "API quota exceeded (captured 1 subs)"))⟩

/-- A search function that fails. -/
def failsRequest : String → Call := fun _ => Call.returns [] (some "request failed")

/-- An environment with both API keys in which every source fails, VirusTotal
after it has collected one hostname. -/
def offlineEnv : Env where
  wordlist := "./db/wordlist.txt"
  vtAPIKey := "vt-key"
  dnAPIKey := "dn-key"
  fs := sampleFs
  resolver := sampleResolver
  bruteSched := []
  GetSubsFromCRT := failsRequest
  GetSubsFromArchive := failsRequest
  GetSubsFromCrawling := failsRequest
  GetSubsFromJS := failsRequest
  GoogleDork := failsRequest
  BingDork := failsRequest
  DuckDork := failsRequest
  GetSubsFromHeaders := failsRequest
  GetSubsFromFavicon := failsRequest
  GetSubsFromVirusTotal := fun _ _ =>
    Call.returns ["x.example.com"] (some "API quota exceeded (captured 1 subs)")
  GetSubsFromDNSDumpster := fun _ _ => Call.returns [] (some "API request failed")

/-- Function `dnsLookup`: the pair `(err == nil, err)` of the single
`LookupIPAddr` call. -/
def dnsLookup (resolver : Resolver) (host : String) : Bool × Option DNSError :=
  match resolver host with
  | .ok _ => (true, none)
  | .error e => (false, some e)

/-- A resolver whose answer may change from one lookup to the next: the
answer depends on the lookups made before. -/
abbrev LiveResolver := List String → Resolver

/-- Function `checkSubdomain` against a live resolver: the result, and the log
of lookups extended by the lookups of this call. -/
def checkSubdomainLogged (live : LiveResolver) (log : List String) (subdomain : String) :
    Bool × List String :=
  (checkSubdomain (live log) subdomain, log ++ [subdomain])

/-- Function `dnsLookup` against a live resolver: the returned pair, and the
log of lookups extended by the lookups of this call. -/
def dnsLookupLogged (live : LiveResolver) (log : List String) (host : String) :
    (Bool × Option DNSError) × List String :=
  (dnsLookup (live log) host, log ++ [host])

/-- A resolver that times out on the first lookup and answers afterwards. -/
def slowStartResolver : LiveResolver := fun log _ =>
  if log.isEmpty then .error DNSError.timeout else .ok ["93.184.216.34"]

/-- The environment `quietEnv` where the certificate search never returns. -/
def hangEnv : Env :=
  { quietEnv with GetSubsFromCRT := fun _ => Call.hangs }

/-- The schedule in which, from index `i` on, every search returns and every
goroutine then takes the case `<-ctx.Done()` of its `select`. -/
def abandonAll : Nat → List Task → List Event
  | _, [] => []
  | i, _ :: ts => Event.ret i :: Event.abandon i :: abandonAll (i + 1) ts

/-! ## `processDomain`: the main goroutine and the collector around a run -/

/-- State of a run of `processDomain` together with the steps of the main
goroutine after the launch loop and the end of the collector. -/
structure MainState where
  /-- the source goroutines, the `results` channel, the map, the deadline -/
  run : RunState
  /-- log of the values that source goroutines have sent on `results` -/
  sent : List String
  /-- `close(results)` has been executed (main.go:172) -/
  closed : Bool
  /-- a send has been executed on the closed channel, a panic in Go -/
  sentOnClosed : Bool
  /-- the collector has left its loop `for sub := range results` -/
  collected : Bool
  /-- the slice `subdomains` built by `uniqueSubs.Range` (main.go:176-180) -/
  subdomains : Option (List String)

/-- Atomic actions of `processDomain` with its main goroutine. -/
inductive MainEvent where
  /-- an action of a source goroutine or of the collector, or the deadline -/
  | run (e : Event)
  /-- `wg.Wait()` returns and the main goroutine executes `close(results)` -/
  | close
  /-- the collector finds the channel closed and empty and returns -/
  | collectorExit
  /-- `resultsWg.Wait()` returns and the main goroutine runs `uniqueSubs.Range` -/
  | range
deriving DecidableEq, Repr

/-- One atomic action.  A disabled event leaves the state unchanged. -/
def mainStep (st : MainState) : MainEvent → MainState
  | .run (.send i) =>
    match st.run.tasks[i]? with
    | some (.sending (sub :: _)) =>
      if st.closed then
        ⟨st.run, st.sent, st.closed, true, st.collected, st.subdomains⟩
      else if st.run.results.length < resultsCap then
        ⟨step st.run (.send i), st.sent ++ [sub], st.closed, st.sentOnClosed,
          st.collected, st.subdomains⟩
      else st
    | _ => st
  | .run .recv =>
    if st.collected then st
    else ⟨step st.run .recv, st.sent, st.closed, st.sentOnClosed, st.collected, st.subdomains⟩
  | .run (.ret i) =>
    ⟨step st.run (.ret i), st.sent, st.closed, st.sentOnClosed, st.collected, st.subdomains⟩
  | .run (.abandon i) =>
    ⟨step st.run (.abandon i), st.sent, st.closed, st.sentOnClosed, st.collected,
      st.subdomains⟩
  | .run .timeout =>
    ⟨step st.run .timeout, st.sent, st.closed, st.sentOnClosed, st.collected, st.subdomains⟩
  | .close =>
    if st.run.tasks.all Task.done && !st.closed then
      ⟨st.run, st.sent, true, st.sentOnClosed, st.collected, st.subdomains⟩
    else st
  | .collectorExit =>
    if st.closed && st.run.results.isEmpty && !st.collected then
      ⟨st.run, st.sent, st.closed, st.sentOnClosed, true, st.subdomains⟩
    else st
  | .range =>
    if st.collected && st.subdomains.isNone then
      ⟨st.run, st.sent, st.closed, st.sentOnClosed, st.collected, some st.run.uniqueSubs⟩
    else st

/-- Runs a schedule from a state. -/
def mainExec (st : MainState) (sched : List MainEvent) : MainState :=
  sched.foldl mainStep st

/-- State after the collector and all source goroutines are started. -/
def mainInit (searchers : List Searcher) (domain : String) : MainState :=
  ⟨initState searchers domain, [], false, false, false, none⟩

/-- The event of the run that an event with the main goroutine stands for. -/
def MainEvent.toRun : MainEvent → Option Event
  | .run e => some e
  | _ => none

/-- What holds in every state of `processDomain` with its main goroutine. -/
def MainInv (st : MainState) : Prop :=
  st.sentOnClosed = false ∧
  (st.closed = true → st.run.tasks.all Task.done = true) ∧
  (st.collected = true → st.closed = true ∧ st.run.results = []) ∧
  (∀ out, st.subdomains = some out → st.collected = true ∧ out = st.run.uniqueSubs) ∧
  (∀ x ∈ st.sent, x ∈ st.run.results ∨ x ∈ st.run.uniqueSubs)

/-- The schedule that lets the main goroutine finish after a run: close, the
collector drains `n` values and returns, `Range`. -/
def finishMain (n : Nat) : List MainEvent :=
  MainEvent.close :: (List.replicate n (MainEvent.run Event.recv) ++
    [MainEvent.collectorExit, MainEvent.range])

/-! ## `BruteSubdomains`: the channels and the main goroutine around the pool -/

/-- Where the main goroutine of `BruteSubdomains` stands. -/
inductive BrutePc where
  /-- in the loop `for _, word := range words` (brute.go:49-51) -/
  | feeding
  /-- after `close(jobs)`, in `wg.Wait()` -/
  | waiting
  /-- after `close(results)`, in `<-done` -/
  | draining
  /-- at `return subs, nil` -/
  | returned
deriving DecidableEq, Repr

/-- State of a call of `BruteSubdomains` on a loaded wordlist, with the steps
of the main goroutine and the end of the workers. -/
structure BruteMain where
  /-- the feeding loop, the `jobs` buffer, the blocked senders, the collector -/
  pool : PoolState
  /-- capacity of `jobs`: `make(chan string, len(words))` -/
  capacity : Nat
  pc : BrutePc
  /-- a send `jobs <- word` has found the buffer full -/
  feedBlocked : Bool
  /-- number of times `close(jobs)` has been executed -/
  jobsClosed : Nat
  /-- workers that have left their loop: their `wg.Done()` has run -/
  exited : List Nat
  /-- number of times `close(results)` has been executed -/
  resultsClosed : Nat
  /-- a send has been executed on a closed channel, a panic in Go -/
  sentOnClosed : Bool

/-- Atomic actions of `BruteSubdomains` with its main goroutine. -/
inductive BruteEvent where
  /-- an action of the feeding loop, of a worker or of the collector -/
  | pool (e : PoolEvent)
  /-- the main goroutine leaves the feeding loop and executes `close(jobs)` -/
  | closeJobs
  /-- worker `w` finds `jobs` closed and empty and returns -/
  | exit (w : Nat)
  /-- `wg.Wait()` returns and the main goroutine executes `close(results)` -/
  | closeResults
  /-- the collector leaves its loop, closes `done`, and `<-done` returns -/
  | done
deriving DecidableEq, Repr

/-- Every worker of the pool has returned. -/
def allExited (exited : List Nat) : Bool :=
  (List.range defaultWorkers).all (fun w => decide (w ∈ exited))

/-- One atomic action.  A disabled event leaves the state unchanged. -/
def bruteStep (domain : String) (resolver : Resolver) (st : BruteMain) :
    BruteEvent → BruteMain
  | .pool .feed =>
    match st.pool.toFeed with
    | [] => st
    | _ :: _ =>
      if st.pc = BrutePc.feeding then
        if 0 < st.jobsClosed then
          ⟨st.pool, st.capacity, st.pc, st.feedBlocked, st.jobsClosed, st.exited,
            st.resultsClosed, true⟩
        else if st.pool.jobs.length < st.capacity then
          ⟨poolStep domain resolver st.pool .feed, st.capacity, st.pc, st.feedBlocked,
            st.jobsClosed, st.exited, st.resultsClosed, st.sentOnClosed⟩
        else
          ⟨st.pool, st.capacity, st.pc, true, st.jobsClosed, st.exited, st.resultsClosed,
            st.sentOnClosed⟩
      else st
  | .pool (.work w) =>
    if w ∈ st.exited then st
    else
      ⟨poolStep domain resolver st.pool (.work w), st.capacity, st.pc, st.feedBlocked,
        st.jobsClosed, st.exited, st.resultsClosed, st.sentOnClosed⟩
  | .pool (.deliver w) =>
    match unblock w st.pool.blocked with
    | some _ =>
      if 0 < st.resultsClosed then
        ⟨st.pool, st.capacity, st.pc, st.feedBlocked, st.jobsClosed, st.exited,
          st.resultsClosed, true⟩
      else
        ⟨poolStep domain resolver st.pool (.deliver w), st.capacity, st.pc, st.feedBlocked,
          st.jobsClosed, st.exited, st.resultsClosed, st.sentOnClosed⟩
    | none => st
  | .closeJobs =>
    if st.pc = BrutePc.feeding ∧ st.pool.toFeed = [] then
      ⟨st.pool, st.capacity, BrutePc.waiting, st.feedBlocked, st.jobsClosed + 1, st.exited,
        st.resultsClosed, st.sentOnClosed⟩
    else st
  | .exit w =>
    if w < defaultWorkers ∧ w ∉ st.exited ∧ st.pool.free w = true ∧ st.pool.jobs = [] ∧
        0 < st.jobsClosed then
      ⟨st.pool, st.capacity, st.pc, st.feedBlocked, st.jobsClosed, w :: st.exited,
        st.resultsClosed, st.sentOnClosed⟩
    else st
  | .closeResults =>
    if st.pc = BrutePc.waiting ∧ allExited st.exited = true then
      ⟨st.pool, st.capacity, BrutePc.draining, st.feedBlocked, st.jobsClosed, st.exited,
        st.resultsClosed + 1, st.sentOnClosed⟩
    else st
  | .done =>
    if st.pc = BrutePc.draining then
      ⟨st.pool, st.capacity, BrutePc.returned, st.feedBlocked, st.jobsClosed, st.exited,
        st.resultsClosed, st.sentOnClosed⟩
    else st

/-- Runs a schedule from a state. -/
def bruteExec (domain : String) (resolver : Resolver) (st : BruteMain)
    (sched : List BruteEvent) : BruteMain :=
  sched.foldl (bruteStep domain resolver) st

/-- State after the collector and the workers are started on the loaded words. -/
def bruteInit (words : List String) : BruteMain :=
  ⟨poolInit words, words.length, BrutePc.feeding, false, 0, [], 0, false⟩

/-- The event of the pool that an event with the main goroutine stands for. -/
def BruteEvent.toPool : BruteEvent → Option PoolEvent
  | .pool e => some e
  | _ => none

/-- What holds in every state of `BruteSubdomains` with its main goroutine. -/
def BruteInv (st : BruteMain) : Prop :=
  st.feedBlocked = false ∧
  st.sentOnClosed = false ∧
  st.pool.jobs.length + st.pool.toFeed.length ≤ st.capacity ∧
  ((st.pc = BrutePc.feeding ∧ st.jobsClosed = 0) ∨
    (st.pc ≠ BrutePc.feeding ∧ st.jobsClosed = 1 ∧ st.pool.toFeed = [])) ∧
  (st.exited ≠ [] → st.pool.jobs = [] ∧ st.pc ≠ BrutePc.feeding) ∧
  (∀ w ∈ st.exited, st.pool.free w = true) ∧
  (((st.pc = BrutePc.feeding ∨ st.pc = BrutePc.waiting) ∧ st.resultsClosed = 0) ∨
    ((st.pc = BrutePc.draining ∨ st.pc = BrutePc.returned) ∧ st.resultsClosed = 1 ∧
      allExited st.exited = true ∧ st.pool.blocked = [])) ∧
  (∀ p ∈ st.pool.blocked, p.1 < defaultWorkers)

/-- The schedule under which a call on `n` loaded words returns: the words are
fed and handled by worker 0, `jobs` is closed, the workers return in turn,
`results` is closed, the collector ends. -/
def bruteSchedule (n : Nat) : List BruteEvent :=
  (poolSchedule n).map BruteEvent.pool ++
    (BruteEvent.closeJobs :: ((List.range defaultWorkers).map BruteEvent.exit ++
      [BruteEvent.closeResults, BruteEvent.done]))

/-! ## `processURL` (core/wayback.go) -/

namespace strings

/-- Go `strings.HasPrefix`. -/
def HasPrefix (s start : String) : Bool :=
  start.data.isPrefixOf s.data

/-- Go `strings.TrimPrefix`. -/
def TrimPrefix (s start : String) : String :=
  if HasPrefix s start then String.mk (s.data.drop start.data.length) else s

/-- The pieces between the occurrences of a non-empty separator, from left to
right without overlap; `skip` counts the characters of the occurrence being
passed, `cur` is the current piece in reverse. -/
def splitAux (sep : List Char) : Nat → List Char → List Char → List (List Char)
  | _, cur, [] => [cur.reverse]
  | skip + 1, cur, _ :: cs => splitAux sep skip cur cs
  | 0, cur, c :: cs =>
    if sep.isPrefixOf (c :: cs) then cur.reverse :: splitAux sep (sep.length - 1) [] cs
    else splitAux sep 0 (c :: cur) cs

/-- Go `strings.Split`. -/
def Split (s sep : String) : List String :=
  if sep.data.isEmpty then s.data.map (fun c => String.mk [c])
  else (splitAux sep.data 0 [] s.data).map String.mk

/-- Go `strings.Join`. -/
def Join (elems : List String) (sep : String) : String :=
  sep.intercalate elems

end strings

namespace url

/-- Go `ishex`. -/
def ishex (c : Char) : Bool :=
  ('0' ≤ c && c ≤ '9') || ('a' ≤ c && c ≤ 'f') || ('A' ≤ c && c ≤ 'F')

/-- Go `unhex`. -/
def unhex (c : Char) : Nat :=
  if '0' ≤ c && c ≤ '9' then c.toNat - '0'.toNat
  else if 'a' ≤ c && c ≤ 'f' then c.toNat - 'a'.toNat + 10
  else if 'A' ≤ c && c ≤ 'F' then c.toNat - 'A'.toNat + 10
  else 0

/-- Decoding of query escapes: `%XY` gives the byte `XY`, `+` gives a space;
`none` is the `EscapeError` for a `%` not followed by two hex digits.  A
decoded byte is represented by the character of the same code, which is exact
for the bytes below 128. -/
def unescape : List Char → Option (List Char)
  | [] => some []
  | '%' :: a :: b :: cs =>
    if ishex a && ishex b then
      (unescape cs).map (fun r => Char.ofNat (16 * unhex a + unhex b) :: r)
    else none
  | '%' :: _ => none
  | '+' :: cs => (unescape cs).map (fun r => ' ' :: r)
  | c :: cs => (unescape cs).map (fun r => c :: r)

/-- Go `url.QueryUnescape`; `none` when it returns an error. -/
def QueryUnescape (s : String) : Option String :=
  (unescape s.data).map String.mk

end url

/-- Function `processURL` of core/wayback.go. -/
def processURL (rawURL domain : String) : String :=
  let rawURL := strings.TrimPrefix rawURL "http://"
  let rawURL := strings.TrimPrefix rawURL "https://"
  let host := (strings.Split rawURL "/").headD ""
  if !strings.HasSuffix host domain then ""
  else
    match url.QueryUnescape host with
    | none => host
    | some decodedHost => decodedHost

/-! ## `GetSubsFromFavicon` (core/favicon.go) -/

/-- Constant `faviconConcurrency`. -/
def faviconConcurrency : Nat := 50

/-- Variable `faviconPaths`. -/
def faviconPaths : List String :=
  ["/favicon.ico", "/favicon.png", "/static/favicon.ico", "/img/favicon.ico",
    "/assets/favicon.ico"]

/-- Variable `commonSubdomains`. -/
def commonSubdomains : List String :=
  ["www", "mail", "dev", "test", "api", "blog", "admin", "portal", "static", "assets", "cdn",
    "login", "auth", "payment", "checkout"]

/-- The cloud prefixes listed in `generateSubdomains`. -/
def cloudPrefixes : List String :=
  ["aws", "azure", "gcp", "lb", "alb"]

/-- Function `generateSubdomains`. -/
def generateSubdomains (domain : String) : List String :=
  commonSubdomains.map (fun sub => sub ++ "." ++ domain) ++
    cloudPrefixes.flatMap (fun start => [start ++ "-" ++ domain, start ++ "." ++ domain])

/-- The favicons of the web: the murmur3 sum of the body that `fetchFavicon`
returns for a URL, `none` when it returns an error. -/
abbrev FaviconWeb := String → Option Nat

/-- The URLs tried for a host, in the order of the two nested loops: every
path of `faviconPaths`, with `https` and then `http`. -/
def faviconURLs (host : String) : List String :=
  faviconPaths.flatMap (fun path =>
    ["https", "http"].map (fun scheme => scheme ++ "://" ++ host ++ path))

/-- Function `getTargetFaviconHash`: the sum of the first favicon fetched,
`none` for the error "no favicon found". -/
def getTargetFaviconHash (web : FaviconWeb) (domain : String) : Option Nat :=
  (faviconURLs domain).findSome? web

/-- State of the pool of `findMatchingSubdomains`. -/
structure FaviconState where
  /-- candidates the feeding goroutine has not looked up yet; after the last
  one `jobs` is closed -/
  toCheck : List String
  /-- buffered contents of the `jobs` channel, oldest first -/
  jobs : List String
  /-- workers inside `verifyFaviconMatch`: the worker, the candidate and the
  URLs its loops have not tried yet -/
  busy : List (Nat × String × List String)
  /-- the slice `results` -/
  results : List String
  /-- whether the context of `faviconTimeout` is done -/
  ctxDone : Bool
deriving DecidableEq, Repr

/-- Atomic actions of the goroutines of `findMatchingSubdomains`. -/
inductive FaviconEvent where
  /-- the timeout of the context passes -/
  | timeout
  /-- the feeding goroutine looks up its next candidate and, when it exists,
  sends it on `jobs` -/
  | feed
  /-- worker `w` receives a candidate from `jobs` -/
  | take (w : Nat)
  /-- worker `w` makes one pass of the inner loop of `verifyFaviconMatch` -/
  | probe (w : Nat)
deriving DecidableEq, Repr

/-- Takes the entry of worker `w` out of a list of busy workers. -/
def takeOut {α : Type} (w : Nat) : List (Nat × α) → Option (α × List (Nat × α))
  | [] => none
  | p :: ps =>
    if p.1 = w then some (p.2, ps)
    else (takeOut w ps).map (fun r => (r.1, p :: r.2))

/-- One atomic action.  A disabled event leaves the state unchanged. -/
def faviconStep (web : FaviconWeb) (resolver : Resolver) (targetHash : Nat)
    (st : FaviconState) : FaviconEvent → FaviconState
  | .timeout => ⟨st.toCheck, st.jobs, st.busy, st.results, true⟩
  | .feed =>
    match st.toCheck with
    | sub :: rest =>
      -- `if exists, _ := dnsLookup(sub); exists { jobs <- sub }`
      ⟨rest, if (dnsLookup resolver sub).1 then st.jobs ++ [sub] else st.jobs, st.busy,
        st.results, st.ctxDone⟩
    | [] => st
  | .take w =>
    if w < faviconConcurrency && st.busy.all (fun p => p.1 != w) then
      match st.jobs with
      | sub :: rest => ⟨st.toCheck, rest, st.busy ++ [(w, sub, faviconURLs sub)], st.results,
          st.ctxDone⟩
      | [] => st
    else st
  | .probe w =>
    match takeOut w st.busy with
    | some ((sub, urls), others) =>
      match urls with
      | [] => ⟨st.toCheck, st.jobs, others, st.results, st.ctxDone⟩
      | u :: more =>
        if st.ctxDone then ⟨st.toCheck, st.jobs, others, st.results, st.ctxDone⟩
        else if web u = some targetHash then
          ⟨st.toCheck, st.jobs, others, st.results ++ [sub], st.ctxDone⟩
        else ⟨st.toCheck, st.jobs, others ++ [(w, sub, more)], st.results, st.ctxDone⟩
    | none => st

/-- Runs a schedule from a state. -/
def faviconExec (web : FaviconWeb) (resolver : Resolver) (targetHash : Nat)
    (st : FaviconState) (sched : List FaviconEvent) : FaviconState :=
  sched.foldl (faviconStep web resolver targetHash) st

/-- Function `findMatchingSubdomains` under a schedule of its goroutines;
`none` when `wg.Wait()` has not returned under that schedule: the workers
leave their loops when every candidate is looked up, `jobs` is closed and
empty, and no worker is inside `verifyFaviconMatch`. -/
def findMatchingSubdomains (web : FaviconWeb) (resolver : Resolver)
    (subdomains : List String) (targetHash : Nat) (sched : List FaviconEvent) :
    Option (List String) :=
  let st := faviconExec web resolver targetHash ⟨subdomains, [], [], [], false⟩ sched
  if st.toCheck.isEmpty && st.jobs.isEmpty && st.busy.isEmpty then some st.results else none

/-- Function `GetSubsFromFavicon` under a schedule of the goroutines of
`findMatchingSubdomains`: the returned pair, `none` when the call has not
returned. -/
def GetSubsFromFavicon (web : FaviconWeb) (resolver : Resolver) (domain : String)
    (sched : List FaviconEvent) : Option (List String × Option String) :=
  match getTargetFaviconHash web domain with
  | none => some ([], some "favicon error: no favicon found")
  | some targetHash =>
    (findMatchingSubdomains web resolver (generateSubdomains domain) targetHash sched).map
      (fun results => (results, none))

/-- Everything the pool of `findMatchingSubdomains` holds. -/
def faviconHeld (st : FaviconState) : List String :=
  st.toCheck ++ (st.jobs ++ (st.busy.map (fun p => p.2.1) ++ st.results))

/-- A web in which `example.com` and `aws-example.com` serve the same icon. -/
def sampleFaviconWeb : FaviconWeb := fun u =>
  if u = "https://example.com/favicon.ico" then some 1768237852
  else if u = "https://aws-example.com/favicon.ico" then some 1768237852
  else none

/-- A resolver that knows `aws-example.com` only. -/
def cloudResolver : Resolver := fun host =>
  if host = "aws-example.com" then .ok ["203.0.113.7"] else .error DNSError.noSuchHost

/-! ## `CrawlDomain` (core/resolver.go) -/

namespace regexp

/-- The characters that Go `regexp.QuoteMeta` escapes. -/
def special (c : Char) : Bool :=
  c = '\\' || c = '.' || c = '+' || c = '*' || c = '?' || c = '(' || c = ')' || c = '|' ||
  c = '[' || c = ']' || c = '\x7b' || c = '\x7d' || c = '^' || c = '$'

/-- Go `regexp.QuoteMeta`. -/
def QuoteMeta (s : String) : String :=
  String.mk (s.data.flatMap (fun c => if special c then ['\\', c] else [c]))

end regexp

/-- Function `extractRootDomain`. -/
def extractRootDomain (domain : String) : String :=
  let parts := strings.Split domain "."
  if parts.length < 2 then domain
  else strings.Join (parts.drop (parts.length - 2)) "."

/-- What the crawler takes from the Go library and from the network. -/
structure WebLib where
  /-- `regexp.MustCompile(pattern).FindAllStringSubmatch(content, -1)`, for a
  pattern and a content -/
  FindAllStringSubmatch : String → String → List (List String)
  /-- for a base URL and a reference: `base.ResolveReference(parsed).String()`
  where `parsed` is `url.Parse` of the reference, `none` when that fails -/
  resolveReference : String → String → Option String
  /-- the body of the page at a URL, `none` when the request cannot be built
  or fails, the status is not 200, or the body cannot be read -/
  fetch : String → Option String

/-- Type `WebCrawler`, without the fields the crawl does not read. -/
structure WebCrawler where
  MaxDepth : Nat
  MaxConcurrency : Nat
deriving DecidableEq, Repr

/-- Function `NewWebCrawler`. -/
def NewWebCrawler : WebCrawler := ⟨2, 20⟩

namespace WebCrawler

/-- The pattern compiled by `extractSubdomains`. -/
def subdomainPattern (rootDomain : String) : String :=
  "(?i)(?:https?://)?([a-zA-Z0-9\\-\\.]+\\." ++ regexp.QuoteMeta rootDomain ++ ")"

/-- The first submatch of a match, lower-cased, when `len(match) > 1`. -/
def lowerSubmatch : List String → Option String
  | _ :: sub :: _ => some (strings.ToLower sub)
  | _ => none

/-- Method `extractSubdomains`: the keys of the map `unique`, listed in the
order of their first insertion. -/
def extractSubdomains (lib : WebLib) (content rootDomain : String) : List String :=
  ((lib.FindAllStringSubmatch (subdomainPattern rootDomain) content).filterMap
    lowerSubmatch).foldl Store []

/-- The pattern compiled by `extractLinks`. -/
def linkPattern : String := "(href|src)=\"(.*?)\""

/-- The link of a match: skipped when `len(match) < 3` or when `url.Parse`
fails, otherwise resolved against the base. -/
def resolvedLink (lib : WebLib) (baseURL : String) : List String → Option String
  | _ :: _ :: ref :: _ => lib.resolveReference baseURL ref
  | _ => none

/-- Method `extractLinks`. -/
def extractLinks (lib : WebLib) (content baseURL : String) : List String :=
  (lib.FindAllStringSubmatch linkPattern content).filterMap (resolvedLink lib baseURL)

end WebCrawler

/-- Capacity of the channel `queue` of `CrawlDomain`. -/
def queueCap : Nat := 1000

/-- Capacity of the channel `results` of `CrawlDomain`. -/
def crawlResultsCap : Nat := 10000

/-- Where a worker stands inside `processPage`: the subdomains still to send,
the links still to look at, and the link that `LoadOrStore` has just reported
as new and that is to be sent on `queue`. -/
structure PageState where
  subs : List String
  links : List String
  pending : Option String
deriving DecidableEq, Repr

/-- The call of `processPage` has nothing left to do. -/
def PageState.finished (p : PageState) : Bool :=
  p.subs.isEmpty && p.links.isEmpty && p.pending.isNone

/-- State of one call of `CrawlDomain`. -/
structure CrawlState where
  /-- whether the context of `w.Timeout` is done -/
  ctxDone : Bool
  /-- buffered contents of the channel `queue`, oldest first -/
  queue : List String
  /-- buffered contents of the channel `results`, oldest first -/
  results : List String
  /-- keys of the map `discovered` -/
  discovered : List String
  /-- keys of the map `subdomains` -/
  subdomains : List String
  /-- seed URLs the seeding goroutine has not sent yet -/
  seeds : List String
  /-- the seed just sent, before its `discovered.Store(u, true)` -/
  seedToStore : Option String
  /-- workers inside `processPage` -/
  busy : List (Nat × PageState)
  /-- workers that have returned: their `wg.Done()` has run -/
  exited : List Nat
  /-- log of the sends on `queue` -/
  enqueued : List String
deriving DecidableEq, Repr

/-- Atomic actions of the goroutines of `CrawlDomain`. -/
inductive CrawlEvent where
  /-- the timeout of the context passes -/
  | timeout
  /-- the `select` of the seeding goroutine takes `queue <- u` -/
  | seedSend
  /-- the seeding goroutine executes `discovered.Store(u, true)` -/
  | seedStore
  /-- the `select` of the seeding goroutine takes `<-ctx.Done()` -/
  | seedCancel
  /-- the `select` of worker `w` takes the receive from `queue`; the worker
  fetches the page and extracts its subdomains and links -/
  | take (w : Nat)
  /-- the `select` of worker `w` takes `<-ctx.Done()`: the worker returns -/
  | quit (w : Nat)
  /-- worker `w` sends its next subdomain on `results` -/
  | sendSub (w : Nat)
  /-- worker `w` executes `discovered.LoadOrStore` on its next link -/
  | loadOrStore (w : Nat)
  /-- worker `w` sends the link reported as new on `queue` -/
  | sendLink (w : Nat)
  /-- a `select` of `processPage` in worker `w` takes `<-ctx.Done()` -/
  | cancel (w : Nat)
  /-- the collector receives one value and stores it -/
  | collect
deriving DecidableEq, Repr

/-- Puts a worker back among the busy ones unless its page is finished. -/
def settle (w : Nat) (p : PageState) (others : List (Nat × PageState)) :
    List (Nat × PageState) :=
  if p.finished then others else others ++ [(w, p)]

/-- Worker `w` is in its loop, at the `select`. -/
def CrawlState.atSelect (c : WebCrawler) (st : CrawlState) (w : Nat) : Bool :=
  decide (w < c.MaxConcurrency) && decide (w ∉ st.exited) && st.busy.all (fun p => p.1 != w)

/-- One atomic action.  A disabled event leaves the state unchanged. -/
def crawlStep (lib : WebLib) (c : WebCrawler) (rootDomain : String) (st : CrawlState) :
    CrawlEvent → CrawlState
  | .timeout =>
    ⟨true, st.queue, st.results, st.discovered, st.subdomains, st.seeds, st.seedToStore,
      st.busy, st.exited, st.enqueued⟩
  | .seedSend =>
    match st.seedToStore, st.seeds with
    | none, u :: rest =>
      if st.queue.length < queueCap then
        ⟨st.ctxDone, st.queue ++ [u], st.results, st.discovered, st.subdomains, rest, some u,
          st.busy, st.exited, st.enqueued ++ [u]⟩
      else st
    | _, _ => st
  | .seedStore =>
    match st.seedToStore with
    | some u =>
      ⟨st.ctxDone, st.queue, st.results, Store st.discovered u, st.subdomains, st.seeds, none,
        st.busy, st.exited, st.enqueued⟩
    | none => st
  | .seedCancel =>
    match st.seedToStore, st.seeds with
    | none, _ :: _ =>
      if st.ctxDone then
        ⟨st.ctxDone, st.queue, st.results, st.discovered, st.subdomains, [], none,
          st.busy, st.exited, st.enqueued⟩
      else st
    | _, _ => st
  | .take w =>
    if st.atSelect c w then
      match st.queue with
      | u :: rest =>
        -- the request carries the context: once it is done the request fails
        match (if st.ctxDone then none else lib.fetch u) with
        | some content =>
          ⟨st.ctxDone, rest, st.results, st.discovered, st.subdomains, st.seeds,
            st.seedToStore,
            settle w ⟨WebCrawler.extractSubdomains lib content rootDomain,
              WebCrawler.extractLinks lib content u, none⟩ st.busy,
            st.exited, st.enqueued⟩
        | none =>
          ⟨st.ctxDone, rest, st.results, st.discovered, st.subdomains, st.seeds,
            st.seedToStore, st.busy, st.exited, st.enqueued⟩
      | [] => st
    else st
  | .quit w =>
    if st.atSelect c w && st.ctxDone then
      ⟨st.ctxDone, st.queue, st.results, st.discovered, st.subdomains, st.seeds,
        st.seedToStore, st.busy, w :: st.exited, st.enqueued⟩
    else st
  | .sendSub w =>
    match takeOut w st.busy with
    | some (⟨sub :: subs, links, none⟩, others) =>
      if st.results.length < crawlResultsCap then
        ⟨st.ctxDone, st.queue, st.results ++ [sub], st.discovered, st.subdomains, st.seeds,
          st.seedToStore, settle w ⟨subs, links, none⟩ others, st.exited, st.enqueued⟩
      else st
    | _ => st
  | .loadOrStore w =>
    match takeOut w st.busy with
    | some (⟨[], link :: links, none⟩, others) =>
      if link ∈ st.discovered then
        ⟨st.ctxDone, st.queue, st.results, st.discovered, st.subdomains, st.seeds,
          st.seedToStore, settle w ⟨[], links, none⟩ others, st.exited, st.enqueued⟩
      else
        ⟨st.ctxDone, st.queue, st.results, st.discovered ++ [link], st.subdomains, st.seeds,
          st.seedToStore, others ++ [(w, ⟨[], links, some link⟩)], st.exited, st.enqueued⟩
    | _ => st
  | .sendLink w =>
    match takeOut w st.busy with
    | some (⟨[], links, some link⟩, others) =>
      if st.queue.length < queueCap then
        ⟨st.ctxDone, st.queue ++ [link], st.results, st.discovered, st.subdomains, st.seeds,
          st.seedToStore, settle w ⟨[], links, none⟩ others, st.exited,
          st.enqueued ++ [link]⟩
      else st
    | _ => st
  | .cancel w =>
    match takeOut w st.busy with
    | some (p, others) =>
      if st.ctxDone && (!p.subs.isEmpty || p.pending.isSome) then
        ⟨st.ctxDone, st.queue, st.results, st.discovered, st.subdomains, st.seeds,
          st.seedToStore, others, st.exited, st.enqueued⟩
      else st
    | none => st
  | .collect =>
    match st.results with
    | sub :: rest =>
      ⟨st.ctxDone, st.queue, rest, st.discovered, Store st.subdomains sub, st.seeds,
        st.seedToStore, st.busy, st.exited, st.enqueued⟩
    | [] => st

/-- Runs a schedule from a state. -/
def crawlExec (lib : WebLib) (c : WebCrawler) (rootDomain : String) (st : CrawlState)
    (sched : List CrawlEvent) : CrawlState :=
  sched.foldl (crawlStep lib c rootDomain) st

/-- The slice `initialURLs` of the seeding goroutine. -/
def initialURLs (domain : String) : List String :=
  ["https://" ++ domain, "http://" ++ domain, "https://www." ++ domain,
    "http://www." ++ domain]

/-- State after the workers, the collector and the seeding goroutine are started. -/
def crawlInit (domain : String) : CrawlState :=
  ⟨false, [], [], [], [], initialURLs domain, none, [], [], []⟩

/-- What a returned call of `CrawlDomain` leaves: the returned slice (the
error is nil), the URLs still buffered in `queue`, and the log of the sends on
`queue`.  No close of `queue` is recorded because the code has none. -/
structure CrawlRun where
  subs : List String
  queueLeft : List String
  enqueued : List String
deriving DecidableEq, Repr

/-- Method `CrawlDomain` under a schedule of its goroutines; `none` when
`wg.Wait()` has not returned under that schedule.  After `wg.Wait()` the
channel `results` is closed, the collector drains it, and the keys of
`subdomains` are returned. -/
def WebCrawler.CrawlDomain (lib : WebLib) (c : WebCrawler) (domain : String)
    (sched : List CrawlEvent) : Option CrawlRun :=
  let st := crawlExec lib c (extractRootDomain domain) (crawlInit domain) sched
  if (List.range c.MaxConcurrency).all (fun w => decide (w ∈ st.exited)) then
    some ⟨st.results.foldl Store st.subdomains, st.queue, st.enqueued⟩
  else none

/-- Function `GetSubsFromCrawling`. -/
def GetSubsFromCrawling (lib : WebLib) (domain : String) (sched : List CrawlEvent) :
    Option CrawlRun :=
  NewWebCrawler.CrawlDomain lib domain sched

/-- The schedule in which the workers below `n` return in turn. -/
def quitAll (n : Nat) : List CrawlEvent :=
  (List.range n).map CrawlEvent.quit

/-- A web with one page, at `https://example.com`, that links to
`http://example.com`. -/
def linkedWeb : WebLib where
  FindAllStringSubmatch := fun pattern content =>
    if pattern = WebCrawler.linkPattern ∧ content = "<a href=\"http://example.com\">home</a>" then
      [["href=\"http://example.com\"", "href", "http://example.com"]]
    else []
  resolveReference := fun _ ref => some ref
  fetch := fun u =>
    if u = "https://example.com" then some "<a href=\"http://example.com\">home</a>" else none

namespace strings

end strings

namespace strings

/-- Go `strings.Contains`. -/
def Contains (s substr : String) : Bool :=
  s.data.tails.any (fun t => substr.data.isPrefixOf t)

end strings

/-- The pattern compiled by the `extractSubdomains` of the search-engine
sources. -/
def searchPattern (domain : String) : String :=
  "(?:https?:\\/\\/)?([a-zA-Z0-9\\-\\.]+\\." ++ regexp.QuoteMeta domain ++ ")(?:\\/|\")"

/-- One turn of the loop over `matches` (google.go:159-171), on the keys of
the map `unique` and the slice `results`. -/
def extractMatch (domain : String) (st : List String × List String) :
    List String → List String × List String
  | _ :: m1 :: _ =>
    let sub := strings.TrimPrefix (strings.ToLower m1) "www."
    if strings.HasSuffix sub ("." ++ domain) && !decide (sub ∈ st.1) then
      (st.1 ++ [sub], st.2 ++ [sub])
    else st
  | _ => st

/-- The string that one match offers to `results`: none when
`len(match) < 2` or when the test `strings.HasSuffix(sub, "."+domain)` fails. -/
def matchedName (domain : String) : List String → Option String
  | _ :: m1 :: _ =>
    let sub := strings.TrimPrefix (strings.ToLower m1) "www."
    if strings.HasSuffix sub ("." ++ domain) then some sub else none
  | _ => none

/-- Function `extractSubdomains` of core/google.go, which `GoogleDork`,
`BingDork` and `DuckDork` call on the body of the result page. -/
def extractSubdomains (lib : WebLib) (content domain : String) : List String :=
  ((lib.FindAllStringSubmatch (searchPattern domain) content).foldl
    (extractMatch domain) ([], [])).2

/-- A regexp engine that finds four hostnames in the result page for
`example.com`, one in the page for `Ä.com` and one in the page for `ä.com`. -/
def resultPage : WebLib where
  FindAllStringSubmatch := fun pattern content =>
    if pattern = searchPattern "example.com" ∧ content = "page" then
      [["https://WWW.API.example.com/", "WWW.API.example.com"],
       ["api.example.com\"", "api.example.com"],
       ["www.example.com/", "www.example.com"],
       ["mail.example.com/", "mail.example.com"]]
    else if pattern = searchPattern "Ä.com" ∧ content = "page" then
      [["a.Ä.com/", "a.Ä.com"]]
    else if pattern = searchPattern "ä.com" ∧ content = "page" then
      [["A.ä.com/", "A.ä.com"]]
    else []
  resolveReference := fun _ _ => none
  fetch := fun _ => none

/-! ## `GetSubsFromCRT` (core/certs.go) -/

/-- An element of type `CRTResponse`. -/
structure CRTEntry where
  NameValue : String
deriving DecidableEq, Repr

/-- Type `CRTResponse`. -/
abbrev CRTResponse := List CRTEntry

namespace GetSubsFromCRT

/-- One turn of the loop over `names` (certs.go:76-91), on the keys of the map
`seen` and the slice `results`. -/
def name (domain : String) (st : List String × List String) (raw : String) :
    List String × List String :=
  let name := strings.TrimSpace raw
  if name = "" ∨ ¬ strings.Contains name domain then st
  else
    let name := if strings.HasPrefix name "*." then strings.TrimPrefix name "*." else name
    if name ∈ st.1 then st else (st.1 ++ [name], st.2 ++ [name])

/-- One turn of the loop over `data` (certs.go:74-92). -/
def entry (domain : String) (st : List String × List String) (e : CRTEntry) :
    List String × List String :=
  (strings.Split e.NameValue "\n").foldl (name domain) st

/-- The slice `results` that the processing of the decoded `data` builds
(certs.go:71-94). -/
def results (data : CRTResponse) (domain : String) : List String :=
  (data.foldl (entry domain) ([], [])).2

end GetSubsFromCRT

/-- What the request to crt.sh and the decoding give for a domain: the error
that `GetSubsFromCRT` returns before any entry is processed, or `data`. -/
abbrev CRTService := String → Except String CRTResponse

/-- Function `GetSubsFromCRT` of core/certs.go: the pair `(results, err)`. -/
def GetSubsFromCRT (crt : CRTService) (domain : String) : List String × Option String :=
  match crt domain with
  | .error e => ([], some e)
  | .ok data => (GetSubsFromCRT.results data domain, none)

/-- Specification of the names that `GetSubsFromCRT` collects, before
duplicates are removed: the pieces of every `name_value` between newlines,
trimmed, without those that are empty or do not contain the domain, each
without one leading `*.`. -/
def crtNames (data : CRTResponse) (domain : String) : List String :=
  (((data.flatMap (fun e => strings.Split e.NameValue "\n")).map strings.TrimSpace).filter
    (fun n => n != "" && strings.Contains n domain)).map (fun n => strings.TrimPrefix n "*.")

/-- A list without its repetitions: every string stays at its first
occurrence. -/
def firstOccurrences : List String → List String
  | [] => []
  | x :: xs => x :: (firstOccurrences xs).filter (fun y => y != x)

/-- Two certificates for `example.com`. -/
def sampleCerts : CRTResponse :=
  [⟨"*.a.example.com\na.example.com"⟩, ⟨" b.example.com \n\nexample.org\na.example.com"⟩]

/-! ## `SaveResults` (output/exporter.go) -/

/-- What the exporter takes from the operating system and from the encoders,
as operations on a state `σ` of the file system: each gives its error (`none`
is nil) and the state it leaves.  A file is named by its path. -/
structure Disk (σ : Type) where
  /-- `filepath.Dir(path)` -/
  Dir : String → String
  /-- `os.MkdirAll(dir, 0755)` -/
  MkdirAll : String → σ → Option String × σ
  /-- `os.Create(path)` -/
  Create : String → σ → Option String × σ
  /-- `file.WriteString(text)` on the file created at a path -/
  WriteString : String → String → σ → Option String × σ
  /-- `encoder.Encode(data)` of the indented JSON encoder on the file at a
  path, for the fields `Domain` and `Subdomains` of `data` -/
  EncodeJSON : String → String → List String → σ → Option String × σ
  /-- `encoder.Encode(output)` of the indented XML encoder on the file at a
  path, for the field `Domain` and the names of `Subdomains` -/
  EncodeXML : String → String → List String → σ → Option String × σ
  /-- the deferred `file.Close()` -/
  Close : String → σ → σ

section exporter

variable {σ : Type}

/-- Function `ensureDir`. -/
def ensureDir (disk : Disk σ) (path : String) (s : σ) : Option String × σ :=
  let dir := disk.Dir path
  if dir != "" then disk.MkdirAll dir s else (none, s)

/-- The loop of `saveText` over `subs`. -/
def writeLines (disk : Disk σ) (path : String) : List String → σ → Option String × σ
  | [], s => (none, s)
  | sub :: rest, s =>
    match disk.WriteString path (sub ++ "\n") s with
    | (some e, s1) => (some ("write error: " ++ e), s1)
    | (none, s1) => writeLines disk path rest s1

/-- Function `saveText`. -/
def saveText (disk : Disk σ) (path : String) (subs : List String) (s : σ) :
    Option String × σ :=
  match ensureDir disk path s with
  | (some e, s1) => (some e, s1)
  | (none, s1) =>
    match disk.Create path s1 with
    | (some e, s2) => (some ("failed to create text file: " ++ e), s2)
    | (none, s2) =>
      let r := writeLines disk path subs s2
      (r.1, disk.Close path r.2)

/-- Function `saveJSON`. -/
def saveJSON (disk : Disk σ) (path domain : String) (subs : List String) (s : σ) :
    Option String × σ :=
  match ensureDir disk path s with
  | (some e, s1) => (some e, s1)
  | (none, s1) =>
    match disk.Create path s1 with
    | (some e, s2) => (some ("failed to create JSON file: " ++ e), s2)
    | (none, s2) =>
      match disk.EncodeJSON path domain subs s2 with
      | (some e, s3) => (some ("JSON encoding error: " ++ e), disk.Close path s3)
      | (none, s3) => (none, disk.Close path s3)

/-- Go `xml.Header`. -/
def xmlHeader : String := "<?xml version=\"1.0\" encoding=\"UTF-8\"?>\n"

/-- Function `saveXML`. -/
def saveXML (disk : Disk σ) (path domain : String) (subs : List String) (s : σ) :
    Option String × σ :=
  match ensureDir disk path s with
  | (some e, s1) => (some e, s1)
  | (none, s1) =>
    match disk.Create path s1 with
    | (some e, s2) => (some ("failed to create XML file: " ++ e), s2)
    | (none, s2) =>
      match disk.WriteString path xmlHeader s2 with
      | (some e, s3) => (some ("XML header error: " ++ e), disk.Close path s3)
      | (none, s3) =>
        match disk.EncodeXML path domain subs s3 with
        | (some e, s4) => (some ("XML encoding error: " ++ e), disk.Close path s4)
        | (none, s4) => (none, disk.Close path s4)

/-- One of the three blocks of `SaveResults` that run a save when its path is
not empty and append the error it returns to `errors`; on the slice `errors`
and the state of the file system. -/
def saveIfSet (path : String) (save : σ → Option String × σ) (st : List String × σ) :
    List String × σ :=
  if path != "" then
    match save st.2 with
    | (some e, s1) => (st.1 ++ [e], s1)
    | (none, s1) => (st.1, s1)
  else st

/-- Function `SaveResults`: the error it returns and the state of the file
system it leaves. -/
def SaveResults (disk : Disk σ) (domain : String) (subs : List String)
    (textPath jsonPath xmlPath : String) (s : σ) : Option String × σ :=
  if subs.length = 0 then (some "no subdomains found to save", s)
  else
    let st := saveIfSet textPath (saveText disk textPath subs) ([], s)
    let st := saveIfSet jsonPath (saveJSON disk jsonPath domain subs) st
    let st := saveIfSet xmlPath (saveXML disk xmlPath domain subs) st
    if st.1.length > 0 then (some ("output errors: [" ++ " ".intercalate st.1 ++ "]"), st.2)
    else (none, st.2)

end exporter

/-- A file system recorded as the list of the operations done on it, the
latest first, in which every file can be written except `out.json`, which
cannot be created. -/
def sampleDisk : Disk (List String) where
  Dir := fun _ => "."
  MkdirAll := fun dir s => (none, ("mkdir " ++ dir) :: s)
  Create := fun path s =>
    if path = "out.json" then (some "open out.json: permission denied", s)
    else (none, ("create " ++ path) :: s)
  WriteString := fun path _ s => (none, ("write " ++ path) :: s)
  EncodeJSON := fun path _ _ s => (none, ("json " ++ path) :: s)
  EncodeXML := fun path _ _ s => (none, ("xml " ++ path) :: s)
  Close := fun path s => ("close " ++ path) :: s

/-! ## `processDomainList` (cmd/subfors/main.go) -/

theorem mem_flatMap_set_iff {α β : Type} (f : α → List β) (x : β) (t' : α) :
    ∀ (l : List α) (i : Nat) (t : α), l[i]? = some t →
      (x ∈ (l.set i t').flatMap f ∨ x ∈ f t ↔ x ∈ l.flatMap f ∨ x ∈ f t') := by
  intro l
  induction l with
  | nil => intro i t h; simp at h
  | cons a l ih =>
    intro i t h
    cases i with
    | zero =>
      simp only [List.getElem?_cons_zero, Option.some.injEq] at h
      subst h
      simp only [List.set_cons_zero, List.flatMap_cons, List.mem_append]
      tauto
    | succ i =>
      simp only [List.getElem?_cons_succ] at h
      have := ih i t h
      simp only [List.set_cons_succ, List.flatMap_cons, List.mem_append]
      tauto

theorem mem_flatMap_of_getElem? {α β : Type} (f : α → List β) (x : β)
    (l : List α) (i : Nat) (t : α) (h : l[i]? = some t) (hx : x ∈ f t) :
    x ∈ l.flatMap f :=
  List.mem_flatMap.mpr ⟨t, List.getElem?_mem h, hx⟩

theorem mem_flatMap_set_self {α β : Type} (f : α → List β) (x : β)
    (l : List α) (i : Nat) (t t' : α) (h : l[i]? = some t) (hx : x ∈ f t') :
    x ∈ (l.set i t').flatMap f := by
  apply mem_flatMap_of_getElem? f x (l.set i t') i t' _ hx
  have hlt : i < l.length := by
    rcases List.getElem?_eq_some.mp h with ⟨hlt, _⟩
    exact hlt
  rw [List.getElem?_set]
  simp [hlt]

theorem mem_Store (keys : List String) (sub x : String) :
    x ∈ Store keys sub ↔ x ∈ keys ∨ x = sub := by
  unfold Store
  split
  · constructor
    · intro h; exact Or.inl h
    · rintro (h | h)
      · exact h
      · subst h; assumption
  · simp

theorem nodup_Store (keys : List String) (sub : String) (h : keys.Nodup) :
    (Store keys sub).Nodup := by
  unfold Store
  split
  · exact h
  · rename_i hn
    rw [List.nodup_append]
    refine ⟨h, List.nodup_singleton _, ?_⟩
    intro a ha hb
    simp at hb
    subst hb
    exact hn ha

theorem step_pool_subset (st : RunState) (e : Event) (x : String)
    (h : x ∈ pool (step st e)) : x ∈ pool st := by
  cases e with
  | ret i =>
    simp only [step] at h
    split at h
    · rename_i subs err hi
      have key := mem_flatMap_set_iff Task.pending x
        (Task.sending (if err.isSome then [] else subs)) st.tasks i _ hi
      simp only [pool, List.mem_append] at h ⊢
      have key2 := mem_flatMap_of_getElem? Task.pending x st.tasks i _ hi
      cases err <;>
        simp only [Task.pending, Option.isSome_none, Option.isSome_some, if_true, if_false,
          Bool.false_eq_true, List.not_mem_nil] at key key2 h ⊢ <;> tauto
    · exact h
  | send i =>
    simp only [step] at h
    split at h
    · rename_i sub rest hi
      split at h
      · have key := mem_flatMap_set_iff Task.pending x (Task.sending rest) st.tasks i _ hi
        have key2 := mem_flatMap_of_getElem? Task.pending x st.tasks i _ hi
        simp only [pool, List.mem_append] at h ⊢
        simp only [Task.pending, List.mem_cons, List.mem_singleton, List.not_mem_nil] at key key2 h ⊢
        tauto
      · exact h
    · exact h
  | abandon i =>
    simp only [step] at h
    split at h
    · rename_i sub rest hi
      split at h
      · have key := mem_flatMap_set_iff Task.pending x (Task.sending []) st.tasks i _ hi
        have key2 := mem_flatMap_of_getElem? Task.pending x st.tasks i _ hi
        simp only [pool, List.mem_append] at h ⊢
        simp only [Task.pending, List.mem_cons, List.mem_singleton, List.not_mem_nil] at key key2 h ⊢
        tauto
      · exact h
    · exact h
  | recv =>
    simp only [step] at h
    split at h
    · rename_i sub rest hr
      simp only [pool, List.mem_append, mem_Store] at h ⊢
      rw [hr]
      simp only [List.mem_cons]
      tauto
    · exact h
  | timeout => exact h

theorem step_pool_superset (st : RunState) (e : Event) (x : String)
    (hc : st.ctxDone = false) (h : x ∈ pool st) : x ∈ pool (step st e) := by
  cases e with
  | ret i =>
    simp only [step]
    split
    · rename_i subs err hi
      have key := mem_flatMap_set_iff Task.pending x
        (Task.sending (if err.isSome then [] else subs)) st.tasks i _ hi
      have key2 := mem_flatMap_set_self Task.pending x st.tasks i _
        (Task.sending (if err.isSome then [] else subs)) hi
      simp only [pool, List.mem_append] at h ⊢
      cases err <;>
        simp only [Task.pending, Option.isSome_none, Option.isSome_some, if_true, if_false,
          Bool.false_eq_true, List.not_mem_nil] at key key2 h ⊢ <;> tauto
    · exact h
  | send i =>
    simp only [step]
    split
    · rename_i sub rest hi
      split
      · have key := mem_flatMap_set_iff Task.pending x (Task.sending rest) st.tasks i _ hi
        have key2 := mem_flatMap_set_self Task.pending x st.tasks i _ (Task.sending rest) hi
        simp only [pool, List.mem_append] at h ⊢
        simp only [Task.pending, List.mem_cons, List.mem_singleton, List.not_mem_nil] at key key2 h ⊢
        tauto
      · exact h
    · exact h
  | abandon i =>
    simp only [step]
    split
    · rw [hc]
      simpa using h
    · exact h
  | recv =>
    simp only [step]
    split
    · rename_i sub rest hr
      simp only [pool, List.mem_append, mem_Store] at h ⊢
      rw [hr] at h
      simp only [List.mem_cons] at h
      tauto
    · exact h
  | timeout => exact h

theorem step_ctxDone (st : RunState) (e : Event) (he : e ≠ Event.timeout)
    (hc : st.ctxDone = false) : (step st e).ctxDone = false := by
  cases e with
  | ret i => simp only [step]; split <;> exact hc
  | send i => simp only [step]; split <;> [split; skip] <;> exact hc
  | abandon i => simp only [step]; split <;> [split; skip] <;> exact hc
  | recv => simp only [step]; split <;> exact hc
  | timeout => exact absurd rfl he

theorem step_nodup (st : RunState) (e : Event) (h : st.uniqueSubs.Nodup) :
    (step st e).uniqueSubs.Nodup := by
  cases e with
  | ret i => simp only [step]; split <;> exact h
  | send i => simp only [step]; split <;> [split; skip] <;> exact h
  | abandon i => simp only [step]; split <;> [split; skip] <;> exact h
  | recv => simp only [step]; split <;> [exact nodup_Store _ _ h; exact h]
  | timeout => exact h

theorem exec_pool_subset (sched : List Event) :
    ∀ (st : RunState) (x : String), x ∈ pool (exec st sched) → x ∈ pool st := by
  induction sched with
  | nil => intro st x h; exact h
  | cons e es ih =>
    intro st x h
    exact step_pool_subset st e x (ih (step st e) x h)

theorem exec_pool_superset (sched : List Event) :
    ∀ (st : RunState) (x : String), Event.timeout ∉ sched → st.ctxDone = false →
      x ∈ pool st → x ∈ pool (exec st sched) := by
  induction sched with
  | nil => intro st x _ _ h; exact h
  | cons e es ih =>
    intro st x hs hc h
    have he : e ≠ Event.timeout := fun heq => hs (heq ▸ List.mem_cons_self _ _)
    have hes : Event.timeout ∉ es := fun hmem => hs (List.mem_cons_of_mem _ hmem)
    exact ih (step st e) x hes (step_ctxDone st e he hc) (step_pool_superset st e x hc h)

theorem exec_nodup (sched : List Event) :
    ∀ (st : RunState), st.uniqueSubs.Nodup → (exec st sched).uniqueSubs.Nodup := by
  induction sched with
  | nil => intro st h; exact h
  | cons e es ih => intro st h; exact ih (step st e) (step_nodup st e h)

theorem foldl_Store_nodup (buf : List String) :
    ∀ keys : List String, keys.Nodup → (buf.foldl Store keys).Nodup := by
  induction buf with
  | nil => intro keys h; exact h
  | cons b bs ih => intro keys h; exact ih (Store keys b) (nodup_Store keys b h)

theorem mem_foldl_Store (buf : List String) (x : String) :
    ∀ keys : List String, x ∈ buf.foldl Store keys ↔ x ∈ keys ∨ x ∈ buf := by
  induction buf with
  | nil => intro keys; simp
  | cons b bs ih =>
    intro keys
    simp only [List.foldl_cons, ih, mem_Store, List.mem_cons]
    tauto

theorem flatMap_pending_of_done (tasks : List Task) (h : tasks.all Task.done = true) :
    tasks.flatMap Task.pending = [] := by
  induction tasks with
  | nil => rfl
  | cons t ts ih =>
    simp only [List.all_cons, Bool.and_eq_true] at h
    rw [List.flatMap_cons, ih h.2]
    cases t with
    | running c => simp [Task.done] at h
    | sending rest =>
      cases rest with
      | nil => rfl
      | cons a as => simp [Task.done] at h

theorem mem_pool_initState (searchers : List Searcher) (domain x : String) :
    x ∈ pool (initState searchers domain) ↔ Returned searchers domain x := by
  simp only [pool, initState, List.nil_append, List.mem_flatMap, List.mem_map, Returned]
  constructor
  · rintro ⟨t, ⟨s, hs, rfl⟩, hx⟩
    refine ⟨s, hs, ?_⟩
    unfold launch at hx
    cases hsearch : s.search with
    | none => rw [hsearch] at hx; simp [Task.pending] at hx
    | some f =>
      rw [hsearch] at hx
      simp only at hx
      cases hf : f domain with
      | hangs => rw [hf] at hx; simp [Task.pending] at hx
      | returns subs err =>
        rw [hf] at hx
        cases err with
        | some e => simp [Task.pending] at hx
        | none => exact ⟨f, subs, rfl, hf, hx⟩
  · rintro ⟨s, hs, f, subs, hsearch, hf, hx⟩
    refine ⟨launch domain s, ⟨s, hs, rfl⟩, ?_⟩
    simp only [launch, hsearch, hf, Task.pending]
    exact hx

/-- Soundness of a finished run: no key twice, and only returned hostnames. -/
theorem processDomain_sound (searchers : List Searcher) (domain : String)
    (sched : List Event) (out : List String)
    (h : processDomain searchers domain sched = some out) :
    out.Nodup ∧ ∀ x ∈ out, Returned searchers domain x := by
  unfold processDomain at h
  simp only at h
  split at h
  · rename_i hdone
    simp only [Option.some.injEq] at h
    subst h
    constructor
    · exact foldl_Store_nodup _ _ (exec_nodup sched _ (by simp [initState]))
    · intro x hx
      rw [snapshot, mem_foldl_Store] at hx
      rw [← mem_pool_initState]
      apply exec_pool_subset sched
      simp only [pool, List.mem_append]
      tauto
  · simp at h

/-- Completeness of a finished run in which the deadline did not pass. -/
theorem processDomain_complete (searchers : List Searcher) (domain : String)
    (sched : List Event) (out : List String) (hs : Event.timeout ∉ sched)
    (h : processDomain searchers domain sched = some out) (x : String)
    (hx : Returned searchers domain x) : x ∈ out := by
  unfold processDomain at h
  simp only at h
  split at h
  · rename_i hdone
    simp only [Option.some.injEq] at h
    subst h
    rw [snapshot, mem_foldl_Store]
    have := exec_pool_superset sched (initState searchers domain) x hs rfl
      ((mem_pool_initState searchers domain x).mpr hx)
    simp only [pool, List.mem_append, flatMap_pending_of_done _ hdone, List.not_mem_nil,
      or_false] at this
    exact this
  · simp at h

theorem exec_append (st : RunState) (a b : List Event) :
    exec st (a ++ b) = exec (exec st a) b := by
  simp [exec, List.foldl_append]

theorem set_eq_self_of_getElem? {α : Type} (l : List α) (i : Nat) (t : α)
    (h : l[i]? = some t) : l.set i t = l := by
  rcases List.getElem?_eq_some.mp h with ⟨hlt, heq⟩
  apply List.ext_getElem?
  intro j
  rw [List.getElem?_set]
  by_cases hij : i = j
  · subst hij; simp [hlt, h]
  · simp [hij]

theorem getElem?_set_self_of {α : Type} (l : List α) (i : Nat) (t t' : α)
    (h : l[i]? = some t) : (l.set i t')[i]? = some t' := by
  rcases List.getElem?_eq_some.mp h with ⟨hlt, _⟩
  rw [List.getElem?_set]
  simp [hlt]

theorem exec_pairs (i : Nat) (rest : List String) :
    ∀ st : RunState, st.tasks[i]? = some (Task.sending rest) → st.results = [] →
      (exec st (List.replicate rest.length [Event.send i, Event.recv]).flatten).tasks
          = st.tasks.set i (Task.sending []) ∧
      (exec st (List.replicate rest.length [Event.send i, Event.recv]).flatten).results = [] := by
  induction rest with
  | nil =>
    intro st hi hr
    simp only [List.length_nil, List.replicate_zero, List.flatten_nil, exec, List.foldl_nil]
    exact ⟨(set_eq_self_of_getElem? _ _ _ hi).symm, hr⟩
  | cons sub rest ih =>
    intro st hi hr
    have h1 : step st (Event.send i)
        = ⟨st.tasks.set i (Task.sending rest), [sub], st.uniqueSubs, st.ctxDone⟩ := by
      simp [step, hi, hr, resultsCap]
    have h2 : step (step st (Event.send i)) Event.recv
        = ⟨st.tasks.set i (Task.sending rest), [], Store st.uniqueSubs sub, st.ctxDone⟩ := by
      rw [h1]; rfl
    have := ih (step (step st (Event.send i)) Event.recv)
      (by rw [h2]; exact getElem?_set_self_of _ _ _ _ hi) (by rw [h2])
    simp only [List.length_cons, List.replicate_succ, List.flatten_cons, List.cons_append,
      List.nil_append, exec, List.foldl_cons] at this ⊢
    rw [h2] at this ⊢
    simpa [List.set_set] using this

theorem exec_serveTask (i : Nat) (t : Task) (st : RunState)
    (hi : st.tasks[i]? = some t) (ht : t ≠ Task.running Call.hangs) (hr : st.results = []) :
    (exec st (serveTask i t.pending.length)).tasks = st.tasks.set i (Task.sending []) ∧
    (exec st (serveTask i t.pending.length)).results = [] := by
  have hcons : ∀ n, exec st (serveTask i n)
      = exec (step st (Event.ret i)) (List.replicate n [Event.send i, Event.recv]).flatten := by
    intro n; rfl
  rw [hcons]
  cases t with
  | running c =>
    cases c with
    | hangs => exact absurd rfl ht
    | returns subs err =>
      have h1 : step st (Event.ret i)
          = ⟨st.tasks.set i (Task.sending (if err.isSome then [] else subs)),
              st.results, st.uniqueSubs, st.ctxDone⟩ := by
        simp [step, hi]
      cases err with
      | none =>
        have := exec_pairs i subs (step st (Event.ret i))
          (by rw [h1]; exact getElem?_set_self_of _ _ _ _ hi) (by rw [h1]; exact hr)
        rw [h1] at this ⊢
        simpa [Task.pending, List.set_set] using this
      | some e =>
        rw [h1]
        simp [Task.pending, exec, hr]
  | sending rest =>
    have h1 : step st (Event.ret i) = st := by simp [step, hi]
    rw [h1]
    exact exec_pairs i rest st hi hr

theorem exec_serveAll (ts : List Task) :
    ∀ (pre : List Task) (st : RunState), st.tasks = pre ++ ts →
      (∀ t ∈ ts, t ≠ Task.running Call.hangs) → st.results = [] →
      (exec st (serveAll pre.length ts)).tasks
        = pre ++ ts.map (fun _ => Task.sending []) := by
  induction ts with
  | nil => intro pre st h _ _; simpa [serveAll, exec] using h
  | cons t ts ih =>
    intro pre st h hts hr
    have hi : st.tasks[pre.length]? = some t := by
      rw [h, List.getElem?_append_right (Nat.le_refl _)]; simp
    have ht : t ≠ Task.running Call.hangs := hts t (List.mem_cons_self _ _)
    obtain ⟨h1, h2⟩ := exec_serveTask pre.length t st hi ht hr
    have h3 : (exec st (serveTask pre.length t.pending.length)).tasks
        = (pre ++ [Task.sending []]) ++ ts := by
      rw [h1, h]; simp
    have := ih (pre ++ [Task.sending []]) _ h3
      (fun u hu => hts u (List.mem_cons_of_mem _ hu)) h2
    simp only [serveAll, exec_append]
    simp only [List.length_append, List.length_singleton] at this
    rw [this]
    simp

theorem timeout_not_mem_serveAll (ts : List Task) :
    ∀ i : Nat, Event.timeout ∉ serveAll i ts := by
  induction ts with
  | nil => intro i; simp [serveAll]
  | cons t ts ih =>
    intro i h
    simp only [serveAll, List.mem_append] at h
    rcases h with h | h
    · simp only [serveTask, List.mem_cons, List.mem_flatten, List.mem_replicate] at h
      rcases h with h | ⟨l, ⟨_, rfl⟩, hl⟩
      · cases h
      · simp at hl
    · exact ih (i + 1) h

/-- When no search function hangs, `processDomain` returns under the schedule
`fullSchedule`, in which the deadline does not pass. -/
theorem processDomain_fullSchedule (searchers : List Searcher) (domain : String)
    (h : AllReturn searchers domain) :
    (∃ out, processDomain searchers domain (fullSchedule searchers domain) = some out) ∧
    Event.timeout ∉ fullSchedule searchers domain := by
  refine ⟨?_, timeout_not_mem_serveAll _ 0⟩
  have hts : ∀ t ∈ searchers.map (launch domain), t ≠ Task.running Call.hangs := by
    intro t ht
    rcases List.mem_map.mp ht with ⟨s, hs, rfl⟩
    unfold launch
    cases hsearch : s.search with
    | none => simp
    | some f =>
      intro heq
      simp only [Task.running.injEq] at heq
      exact h s hs f hsearch heq
  have key := exec_serveAll (searchers.map (launch domain)) [] (initState searchers domain)
    rfl hts rfl
  simp only [List.length_nil, List.nil_append] at key
  unfold processDomain fullSchedule
  simp only [key]
  refine ⟨_, if_pos ?_⟩
  simp [Task.done]

theorem launch_ne_hangs (searchers : List Searcher) (domain : String)
    (h : AllReturn searchers domain) :
    ∀ t ∈ (initState searchers domain).tasks, t ≠ Task.running Call.hangs := by
  intro t ht
  rcases List.mem_map.mp ht with ⟨s, hs, rfl⟩
  unfold launch
  cases hsearch : s.search with
  | none => simp
  | some f =>
    intro heq
    simp only [Task.running.injEq] at heq
    exact h s hs f hsearch heq

theorem step_ne_hangs (st : RunState) (e : Event)
    (h : ∀ t ∈ st.tasks, t ≠ Task.running Call.hangs) :
    ∀ t ∈ (step st e).tasks, t ≠ Task.running Call.hangs := by
  have hset : ∀ (i : Nat) (rest : List String), ∀ t ∈ st.tasks.set i (Task.sending rest),
      t ≠ Task.running Call.hangs := by
    intro i rest t ht
    rcases List.mem_or_eq_of_mem_set ht with ht | rfl
    · exact h t ht
    · simp
  cases e with
  | ret i => simp only [step]; split <;> [exact hset i _; exact h]
  | send i => simp only [step]; split <;> [split; skip] <;> first | exact hset i _ | exact h
  | abandon i => simp only [step]; split <;> [split; skip] <;> first | exact hset i _ | exact h
  | recv => simp only [step]; split <;> exact h
  | timeout => exact h

theorem exec_ne_hangs (sched : List Event) :
    ∀ st : RunState, (∀ t ∈ st.tasks, t ≠ Task.running Call.hangs) →
      ∀ t ∈ (exec st sched).tasks, t ≠ Task.running Call.hangs := by
  induction sched with
  | nil => intro st h; exact h
  | cons e es ih => intro st h; exact ih (step st e) (step_ne_hangs st e h)

theorem exec_drain (buf : List String) :
    ∀ st : RunState, st.results = buf →
      (exec st (List.replicate buf.length Event.recv)).tasks = st.tasks ∧
      (exec st (List.replicate buf.length Event.recv)).results = [] := by
  induction buf with
  | nil => intro st h; exact ⟨rfl, h⟩
  | cons b bs ih =>
    intro st h
    have h1 : step st Event.recv = ⟨st.tasks, bs, Store st.uniqueSubs b, st.ctxDone⟩ := by
      simp [step, h]
    have := ih (step st Event.recv) (by rw [h1])
    simp only [List.length_cons, List.replicate_succ, exec, List.foldl_cons] at this ⊢
    rw [h1] at this ⊢
    exact this

/-- When no search function hangs, every run can be continued to its end
without the deadline passing: the goroutines never deadlock. -/
theorem processDomain_extends (searchers : List Searcher) (domain : String)
    (h : AllReturn searchers domain) (pre : List Event) :
    ∃ suf, Event.timeout ∉ suf ∧
      ∃ out, processDomain searchers domain (pre ++ suf) = some out := by
  let st := exec (initState searchers domain) pre
  have hst : ∀ t ∈ st.tasks, t ≠ Task.running Call.hangs :=
    exec_ne_hangs pre _ (launch_ne_hangs searchers domain h)
  obtain ⟨hd1, hd2⟩ := exec_drain st.results st rfl
  refine ⟨List.replicate st.results.length Event.recv ++ serveAll 0 st.tasks, ?_, ?_⟩
  · intro hmem
    rcases List.mem_append.mp hmem with hm | hm
    · have := (List.mem_replicate.mp hm).2
      cases this
    · exact timeout_not_mem_serveAll _ 0 hm
  · have key := exec_serveAll st.tasks []
      (exec st (List.replicate st.results.length Event.recv)) hd1 hst hd2
    simp only [List.length_nil, List.nil_append] at key
    unfold processDomain
    simp only [exec_append]
    refine ⟨_, if_pos ?_⟩
    show ((exec (exec st (List.replicate st.results.length Event.recv))
      (serveAll 0 st.tasks)).tasks.all Task.done) = true
    rw [key]
    simp [Task.done]

theorem step_running_hangs (st : RunState) (e : Event) (i : Nat)
    (h : st.tasks[i]? = some (Task.running Call.hangs)) :
    (step st e).tasks[i]? = some (Task.running Call.hangs) := by
  have hset : ∀ (j : Nat) (t : Task), j ≠ i →
      (st.tasks.set j t)[i]? = some (Task.running Call.hangs) := by
    intro j t hj
    rw [List.getElem?_set_ne hj]
    exact h
  have hne : ∀ (j : Nat) (t : Task), st.tasks[j]? = some t → t ≠ Task.running Call.hangs →
      j ≠ i := by
    intro j t hj ht hji
    subst hji
    rw [h] at hj
    simp only [Option.some.injEq] at hj
    exact ht hj.symm
  cases e with
  | ret j =>
    simp only [step]
    split
    · rename_i subs err hj
      exact hset j _ (hne j _ hj (by simp))
    · exact h
  | send j =>
    simp only [step]
    split
    · rename_i sub rest hj
      split
      · exact hset j _ (hne j _ hj (by simp))
      · exact h
    · exact h
  | abandon j =>
    simp only [step]
    split
    · rename_i sub rest hj
      split
      · exact hset j _ (hne j _ hj (by simp))
      · exact h
    · exact h
  | recv => simp only [step]; split <;> exact h
  | timeout => exact h

theorem exec_running_hangs (sched : List Event) :
    ∀ (st : RunState) (i : Nat), st.tasks[i]? = some (Task.running Call.hangs) →
      (exec st sched).tasks[i]? = some (Task.running Call.hangs) := by
  induction sched with
  | nil => intro st i h; exact h
  | cons e es ih => intro st i h; exact ih (step st e) i (step_running_hangs st e i h)

/-- With a search function that never returns, `wg.Wait()` never returns. -/
theorem processDomain_hangs (searchers : List Searcher) (domain : String)
    (h : ¬ AllReturn searchers domain) (sched : List Event) :
    processDomain searchers domain sched = none := by
  simp only [AllReturn, not_forall, Classical.not_imp, Decidable.not_not] at h
  obtain ⟨s, hs, f, hf, hcall⟩ := h
  obtain ⟨i, hi, hget⟩ := List.getElem_of_mem hs
  have h0 : (initState searchers domain).tasks[i]? = some (Task.running Call.hangs) := by
    simp only [initState, List.getElem?_map]
    rw [List.getElem?_eq_getElem hi, hget]
    simp [launch, hf, hcall]
  have h1 := exec_running_hangs sched _ i h0
  unfold processDomain
  simp only
  rw [if_neg]
  intro hall
  rw [List.all_eq_true] at hall
  have := hall _ (List.getElem?_mem h1)
  simp [Task.done] at this

theorem step_ctxDone_true (st : RunState) (e : Event) (h : st.ctxDone = true) :
    (step st e).ctxDone = true := by
  cases e with
  | ret i => simp only [step]; split <;> exact h
  | send i => simp only [step]; split <;> [split; skip] <;> exact h
  | abandon i => simp only [step]; split <;> [split; skip] <;> exact h
  | recv => simp only [step]; split <;> exact h
  | timeout => rfl

theorem exec_ctxDone_true (sched : List Event) :
    ∀ st : RunState, (st.ctxDone = true ∨ Event.timeout ∈ sched) →
      (exec st sched).ctxDone = true := by
  induction sched with
  | nil =>
    intro st h
    rcases h with h | h
    · exact h
    · simp at h
  | cons e es ih =>
    intro st h
    apply ih (step st e)
    rcases h with h | h
    · exact Or.inl (step_ctxDone_true st e h)
    · rcases List.mem_cons.mp h with h | h
      · subst h; exact Or.inl rfl
      · exact Or.inr h

theorem exec_ret_abandon (i : Nat) (t : Task) (st : RunState)
    (hi : st.tasks[i]? = some t) (ht : t ≠ Task.running Call.hangs)
    (hc : st.ctxDone = true) :
    exec st [Event.ret i, Event.abandon i]
      = ⟨st.tasks.set i (Task.sending []), st.results, st.uniqueSubs, st.ctxDone⟩ := by
  have habandon : ∀ (s : RunState) (rest : List String), s.ctxDone = true →
      s.tasks[i]? = some (Task.sending rest) →
      step s (Event.abandon i)
        = ⟨s.tasks.set i (Task.sending []), s.results, s.uniqueSubs, s.ctxDone⟩ := by
    intro s rest hs hget
    cases rest with
    | nil =>
      cases s
      simp only at hget hs ⊢
      simp [step, hget, set_eq_self_of_getElem? _ _ _ hget]
    | cons x xs => simp [step, hget, hs]
  cases t with
  | running c =>
    cases c with
    | hangs => exact absurd rfl ht
    | returns subs err =>
      have h1 : step st (Event.ret i)
          = ⟨st.tasks.set i (Task.sending (if err.isSome then [] else subs)),
              st.results, st.uniqueSubs, st.ctxDone⟩ := by
        simp [step, hi]
      have h2 := habandon (step st (Event.ret i)) (if err.isSome then [] else subs)
        (by rw [h1]; exact hc) (by rw [h1]; exact getElem?_set_self_of _ _ _ _ hi)
      simp only [exec, List.foldl_cons, List.foldl_nil]
      rw [h2, h1]
      simp [List.set_set]
  | sending rest =>
    have h1 : step st (Event.ret i) = st := by simp [step, hi]
    simp only [exec, List.foldl_cons, List.foldl_nil]
    rw [h1]
    exact habandon st rest hc hi

theorem exec_abandonAll (ts : List Task) :
    ∀ (pre : List Task) (st : RunState), st.tasks = pre ++ ts →
      (∀ t ∈ ts, t ≠ Task.running Call.hangs) → st.ctxDone = true →
      exec st (abandonAll pre.length ts)
        = ⟨pre ++ ts.map (fun _ => Task.sending []), st.results, st.uniqueSubs,
            st.ctxDone⟩ := by
  induction ts with
  | nil =>
    intro pre st h _ _
    cases st
    simp only at h
    simp [abandonAll, exec, h]
  | cons t ts ih =>
    intro pre st h hts hc
    have hi : st.tasks[pre.length]? = some t := by
      rw [h, List.getElem?_append_right (Nat.le_refl _)]; simp
    have ht : t ≠ Task.running Call.hangs := hts t (List.mem_cons_self _ _)
    have h1 := exec_ret_abandon pre.length t st hi ht hc
    have hsplit : abandonAll pre.length (t :: ts)
        = [Event.ret pre.length, Event.abandon pre.length]
            ++ abandonAll (pre ++ [Task.sending []]).length ts := by
      simp [abandonAll]
    rw [hsplit, exec_append, h1]
    have h2 := ih (pre ++ [Task.sending []])
      ⟨st.tasks.set pre.length (Task.sending []), st.results, st.uniqueSubs, st.ctxDone⟩
      (by simp [h]) (fun u hu => hts u (List.mem_cons_of_mem _ hu)) hc
    rw [h2]
    simp

theorem abandonAll_events (ts : List Task) :
    ∀ (i : Nat), ∀ e ∈ abandonAll i ts, ∃ j, e = Event.ret j ∨ e = Event.abandon j := by
  induction ts with
  | nil => intro i e he; simp [abandonAll] at he
  | cons t ts ih =>
    intro i e he
    simp only [abandonAll, List.mem_cons] at he
    rcases he with rfl | rfl | he
    · exact ⟨i, Or.inl rfl⟩
    · exact ⟨i, Or.inr rfl⟩
    · exact ih (i + 1) e he

/-! ## Lemmas on the worker pool -/

theorem resolving_append (resolver : Resolver) (domain : String) (a b : List String) :
    resolving resolver domain (a ++ b)
      = resolving resolver domain a ++ resolving resolver domain b := by
  simp [resolving]

theorem resolving_cons (resolver : Resolver) (domain word : String) (ws : List String) :
    resolving resolver domain (word :: ws)
      = (if checkSubdomain resolver (hostOf domain word) then [hostOf domain word] else [])
          ++ resolving resolver domain ws := by
  simp only [resolving, List.map_cons, List.filter_cons]
  split <;> rfl

theorem unblock_perm (w : Nat) (sub : String) :
    ∀ (l others : List (Nat × String)), unblock w l = some (sub, others) →
      (l.map Prod.snd).Perm (sub :: others.map Prod.snd) := by
  intro l
  induction l with
  | nil => intro others h; simp [unblock] at h
  | cons p ps ih =>
    intro others h
    simp only [unblock] at h
    split at h
    · simp only [Option.some.injEq, Prod.mk.injEq] at h
      obtain ⟨rfl, rfl⟩ := h
      exact List.Perm.refl _
    · cases hu : unblock w ps with
      | none => simp [hu] at h
      | some r =>
        simp only [hu, Option.map_some', Option.some.injEq, Prod.mk.injEq] at h
        obtain ⟨rfl, rfl⟩ := h
        have := ih r.2 hu
        simp only [List.map_cons]
        exact (List.Perm.cons _ this).trans (List.Perm.swap _ _ _)

theorem poolStep_account (resolver : Resolver) (domain : String) (st : PoolState)
    (e : PoolEvent) :
    (poolAccount resolver domain (poolStep domain resolver st e)).Perm
      (poolAccount resolver domain st) := by
  cases e with
  | feed =>
    simp only [poolStep]
    split
    · rename_i word rest h
      simp only [poolAccount, h, resolving_append, resolving_cons, List.append_assoc]
      simp [resolving]
    · exact List.Perm.refl _
  | work w =>
    simp only [poolStep]
    split
    · split
      · rename_i word rest h
        simp only [poolAccount, h, resolving_cons, hostOf]
        split
        · rw [← Multiset.coe_eq_coe]
          simp only [List.map_append, ← Multiset.coe_add, List.map_cons, List.map_nil]
          abel
        · simp
      · exact List.Perm.refl _
    · exact List.Perm.refl _
  | deliver w =>
    simp only [poolStep]
    split
    · rename_i sub others h
      have hperm := unblock_perm w sub st.blocked others h
      simp only [poolAccount, List.append_assoc, List.singleton_append]
      exact List.Perm.append_left _ (List.Perm.append_right _ hperm.symm)
    · exact List.Perm.refl _

theorem poolStep_words (resolver : Resolver) (domain : String) (st : PoolState)
    (e : PoolEvent) :
    (wordAccount (poolStep domain resolver st e)).Perm (wordAccount st) := by
  cases e with
  | feed =>
    simp only [poolStep]
    split
    · rename_i word rest h
      simp [wordAccount, h]
    · exact List.Perm.refl _
  | work w =>
    simp only [poolStep]
    split
    · split
      · rename_i word rest h
        simp [wordAccount, h]
      · exact List.Perm.refl _
    · exact List.Perm.refl _
  | deliver w =>
    simp only [poolStep]
    split <;> exact List.Perm.refl _

theorem poolStep_lookups (resolver : Resolver) (domain : String) (st : PoolState)
    (e : PoolEvent) (h : st.lookups = st.received.map (fun p => hostOf domain p.2)) :
    (poolStep domain resolver st e).lookups
      = (poolStep domain resolver st e).received.map (fun p => hostOf domain p.2) := by
  cases e with
  | feed => simp only [poolStep]; split <;> exact h
  | work w =>
    simp only [poolStep]
    split
    · split
      · simp [h, hostOf]
      · exact h
    · exact h
  | deliver w => simp only [poolStep]; split <;> exact h

theorem poolStep_workers (resolver : Resolver) (domain : String) (st : PoolState)
    (e : PoolEvent) (h : ∀ p ∈ st.received, p.1 < defaultWorkers) :
    ∀ p ∈ (poolStep domain resolver st e).received, p.1 < defaultWorkers := by
  cases e with
  | feed => simp only [poolStep]; split <;> exact h
  | work w =>
    simp only [poolStep]
    split
    · rename_i hw
      split
      · intro p hp
        simp only [List.mem_append, List.mem_singleton] at hp
        rcases hp with hp | rfl
        · exact h p hp
        · simp only [Bool.and_eq_true, decide_eq_true_eq] at hw
          exact hw.1
      · exact h
    · exact h
  | deliver w => simp only [poolStep]; split <;> exact h

/-- The invariants of the pool, carried along a schedule. -/
theorem poolExec_invariants (resolver : Resolver) (domain : String) (sched : List PoolEvent) :
    ∀ st : PoolState,
      (poolAccount resolver domain (poolExec domain resolver st sched)).Perm
        (poolAccount resolver domain st) ∧
      (wordAccount (poolExec domain resolver st sched)).Perm (wordAccount st) ∧
      (st.lookups = st.received.map (fun p => hostOf domain p.2) →
        (poolExec domain resolver st sched).lookups
          = (poolExec domain resolver st sched).received.map (fun p => hostOf domain p.2)) ∧
      ((∀ p ∈ st.received, p.1 < defaultWorkers) →
        ∀ p ∈ (poolExec domain resolver st sched).received, p.1 < defaultWorkers) := by
  induction sched with
  | nil => intro st; exact ⟨List.Perm.refl _, List.Perm.refl _, id, id⟩
  | cons e es ih =>
    intro st
    obtain ⟨h1, h2, h3, h4⟩ := ih (poolStep domain resolver st e)
    exact ⟨h1.trans (poolStep_account resolver domain st e),
      h2.trans (poolStep_words resolver domain st e),
      fun h => h3 (poolStep_lookups resolver domain st e h),
      fun h => h4 (poolStep_workers resolver domain st e h)⟩

theorem finished_iff (st : PoolState) :
    st.finished = true ↔ st.toFeed = [] ∧ st.jobs = [] ∧ st.blocked = [] := by
  simp [PoolState.finished, List.isEmpty_iff, and_assoc]

theorem poolExec_append (resolver : Resolver) (domain : String) (st : PoolState)
    (a b : List PoolEvent) :
    poolExec domain resolver st (a ++ b)
      = poolExec domain resolver (poolExec domain resolver st a) b := by
  simp [poolExec, List.foldl_append]

theorem poolExec_feed (resolver : Resolver) (domain : String) (ws : List String) :
    ∀ st : PoolState, st.toFeed = ws →
      poolExec domain resolver st (List.replicate ws.length PoolEvent.feed)
        = ⟨[], st.jobs ++ ws, st.blocked, st.subs, st.received, st.lookups⟩ := by
  induction ws with
  | nil =>
    intro st h
    cases st
    simp only at h
    simp [poolExec, h]
  | cons word rest ih =>
    intro st h
    have h1 : poolStep domain resolver st PoolEvent.feed
        = ⟨rest, st.jobs ++ [word], st.blocked, st.subs, st.received, st.lookups⟩ := by
      simp [poolStep, h]
    have := ih (poolStep domain resolver st PoolEvent.feed) (by rw [h1])
    simp only [List.length_cons, List.replicate_succ, poolExec, List.foldl_cons] at this ⊢
    rw [this, h1]
    simp

theorem poolExec_work (resolver : Resolver) (domain : String) (js : List String) :
    ∀ st : PoolState, st.jobs = js → st.toFeed = [] → st.blocked = [] →
      (poolExec domain resolver st
        (List.replicate js.length [PoolEvent.work 0, PoolEvent.deliver 0]).flatten).finished
        = true := by
  induction js with
  | nil =>
    intro st hj hf hb
    simp [poolExec, PoolState.finished, hj, hf, hb]
  | cons word rest ih =>
    intro st hj hf hb
    simp only [List.length_cons, List.replicate_succ, List.flatten_cons, List.cons_append,
      List.nil_append, poolExec, List.foldl_cons]
    apply ih
    · by_cases hc : checkSubdomain resolver (word ++ "." ++ domain) = true <;>
        simp [poolStep, PoolState.free, defaultWorkers, hj, hb, hc, unblock]
    · by_cases hc : checkSubdomain resolver (word ++ "." ++ domain) = true <;>
        simp [poolStep, PoolState.free, defaultWorkers, hj, hb, hc, unblock, hf]
    · by_cases hc : checkSubdomain resolver (word ++ "." ++ domain) = true <;>
        simp [poolStep, PoolState.free, defaultWorkers, hj, hb, hc, unblock]

/-- Under `poolSchedule` the pool of a loaded wordlist runs to its end. -/
theorem poolSchedule_finished (resolver : Resolver) (domain : String) (words : List String) :
    (poolExec domain resolver (poolInit words) (poolSchedule words.length)).finished = true := by
  rw [poolSchedule, poolExec_append, poolExec_feed resolver domain words (poolInit words) rfl]
  exact poolExec_work resolver domain words _ (by simp [poolInit]) rfl (by simp [poolInit])

/-- What a returned call of `BruteSubdomains` on a loaded wordlist satisfies. -/
theorem BruteSubdomains_loaded (fs : FileSystem) (resolver : Resolver)
    (domain path : String) (words : List String) (sched : List PoolEvent) (run : BruteRun)
    (hload : loadWordlist fs path = (words, none))
    (hrun : BruteSubdomains fs resolver domain path sched = some run) :
    run.err = none ∧
    run.subs.Perm (resolving resolver domain words) ∧
    (run.received.map Prod.snd).Perm words ∧
    run.lookups = run.received.map (fun p => hostOf domain p.2) ∧
    (∀ p ∈ run.received, p.1 < defaultWorkers) := by
  unfold BruteSubdomains at hrun
  rw [hload] at hrun
  simp only at hrun
  split at hrun
  · rename_i hfin
    simp only [Option.some.injEq] at hrun
    subst hrun
    obtain ⟨h1, h2, h3, h4⟩ := poolExec_invariants resolver domain sched (poolInit words)
    obtain ⟨hf, hj, hb⟩ := (finished_iff _).mp hfin
    have e1 : poolAccount resolver domain (poolInit words) = resolving resolver domain words := by
      simp [poolAccount, poolInit, resolving]
    have e2 : wordAccount (poolInit words) = words := by
      simp [wordAccount, poolInit]
    rw [e1] at h1
    rw [e2] at h2
    simp only [poolAccount, hf, hj, hb, resolving, List.map_nil, List.filter_nil,
      List.append_nil] at h1
    simp only [wordAccount, hf, hj, List.append_nil] at h2
    exact ⟨rfl, h1, h2, h3 rfl, h4 (by simp [poolInit])⟩
  · simp at hrun

/-- A call of `BruteSubdomains` on a loaded wordlist returns under `poolSchedule`. -/
theorem BruteSubdomains_returns (fs : FileSystem) (resolver : Resolver)
    (domain path : String) (words : List String)
    (hload : loadWordlist fs path = (words, none)) :
    ∃ run, BruteSubdomains fs resolver domain path (poolSchedule words.length) = some run := by
  unfold BruteSubdomains
  rw [hload]
  simp only [poolSchedule_finished, if_true]
  exact ⟨_, rfl⟩

theorem poolExec_unblock (resolver : Resolver) (domain : String)
    (bl : List (Nat × String)) :
    ∀ st : PoolState, st.blocked = bl →
      (poolExec domain resolver st (bl.map (fun p => PoolEvent.deliver p.1))).toFeed
        = st.toFeed ∧
      (poolExec domain resolver st (bl.map (fun p => PoolEvent.deliver p.1))).jobs
        = st.jobs ∧
      (poolExec domain resolver st (bl.map (fun p => PoolEvent.deliver p.1))).blocked = [] := by
  induction bl with
  | nil => intro st h; exact ⟨rfl, rfl, h⟩
  | cons p ps ih =>
    intro st h
    have h1 : poolStep domain resolver st (PoolEvent.deliver p.1)
        = ⟨st.toFeed, st.jobs, ps, st.subs ++ [p.2], st.received, st.lookups⟩ := by
      simp [poolStep, h, unblock]
    have := ih (poolStep domain resolver st (PoolEvent.deliver p.1)) (by rw [h1])
    simp only [List.map_cons, poolExec, List.foldl_cons] at this ⊢
    rw [h1] at this ⊢
    exact this

/-- The schedule that brings the pool from the given state to its end. -/
theorem poolExec_extends (resolver : Resolver) (domain : String) (st : PoolState) :
    ∃ suf, (poolExec domain resolver st suf).finished = true := by
  let s1 := poolExec domain resolver st (List.replicate st.toFeed.length PoolEvent.feed)
  have e1 : s1 = ⟨[], st.jobs ++ st.toFeed, st.blocked, st.subs, st.received, st.lookups⟩ :=
    poolExec_feed resolver domain st.toFeed st rfl
  let s2 := poolExec domain resolver s1 (s1.blocked.map (fun p => PoolEvent.deliver p.1))
  obtain ⟨hf, hj, hb⟩ := poolExec_unblock resolver domain s1.blocked s1 rfl
  have hfin := poolExec_work resolver domain s2.jobs s2 rfl
    (by show s2.toFeed = []; rw [hf, e1]) hb
  refine ⟨List.replicate st.toFeed.length PoolEvent.feed ++
    (s1.blocked.map (fun p => PoolEvent.deliver p.1) ++
      (List.replicate s2.jobs.length [PoolEvent.work 0, PoolEvent.deliver 0]).flatten), ?_⟩
  rw [poolExec_append, poolExec_append]
  exact hfin

/-- A call of `BruteSubdomains` on a loaded wordlist can be continued to its
return from any point: the pool never deadlocks. -/
theorem BruteSubdomains_extends (fs : FileSystem) (resolver : Resolver)
    (domain path : String) (words : List String)
    (hload : loadWordlist fs path = (words, none)) (pre : List PoolEvent) :
    ∃ suf run, BruteSubdomains fs resolver domain path (pre ++ suf) = some run := by
  obtain ⟨suf, hsuf⟩ := poolExec_extends resolver domain
    (poolExec domain resolver (poolInit words) pre)
  refine ⟨suf, ?_⟩
  unfold BruteSubdomains
  rw [hload]
  simp only [poolExec_append, hsuf, if_true]
  exact ⟨_, rfl⟩

/-! ## Claims on `processDomain` -/

/-- C1: when every search function of the table returns a nil error on the
domain, `processDomain` returns (the run can be continued to its end from any
point without the deadline passing), and in every finished run in which the
deadline does not pass the final list has no string twice and its elements are
exactly the strings of the lists the sources returned. -/
theorem C1_processDomain_union (searchers : List Searcher) (domain : String)
    (hnil : ∀ s ∈ searchers, ∀ searchFn, s.search = some searchFn →
      ∃ subs, searchFn domain = Call.returns subs none) :
    (∀ pre, ∃ suf, Event.timeout ∉ suf ∧
      ∃ out, processDomain searchers domain (pre ++ suf) = some out) ∧
    ∀ sched out, Event.timeout ∉ sched →
      processDomain searchers domain sched = some out →
      out.Nodup ∧
      ∀ x, x ∈ out ↔ ∃ s ∈ searchers, ∃ searchFn subs,
        s.search = some searchFn ∧ searchFn domain = Call.returns subs none ∧ x ∈ subs := by
  have hret : AllReturn searchers domain := by
    intro s hs f hf heq
    obtain ⟨subs, hsubs⟩ := hnil s hs f hf
    rw [hsubs] at heq
    cases heq
  refine ⟨processDomain_extends searchers domain hret, ?_⟩
  intro sched out hs hrun
  obtain ⟨hnd, hsound⟩ := processDomain_sound searchers domain sched out hrun
  exact ⟨hnd, fun x => ⟨hsound x, processDomain_complete searchers domain sched out hs hrun x⟩⟩

/-- C1 at the two sources of the example: the merged list is exactly
`a.example.com`, `b.example.com`. -/
theorem C1_processDomain_union_witness :
    processDomain twoSources "example.com"
        [Event.ret 1, Event.ret 0, Event.send 1, Event.send 0, Event.recv, Event.send 1,
          Event.recv, Event.recv]
      = some ["a.example.com", "b.example.com"] ∧
    ((∀ pre, ∃ suf, Event.timeout ∉ suf ∧
      ∃ out, processDomain twoSources "example.com" (pre ++ suf) = some out) ∧
    ∀ sched out, Event.timeout ∉ sched →
      processDomain twoSources "example.com" sched = some out →
      out.Nodup ∧
      ∀ x, x ∈ out ↔ ∃ s ∈ twoSources, ∃ searchFn subs,
        s.search = some searchFn ∧ searchFn "example.com" = Call.returns subs none ∧
          x ∈ subs) :=
  ⟨by decide, C1_processDomain_union twoSources "example.com" (by
    intro s hs f hf
    simp only [twoSources, List.mem_cons, List.mem_singleton, List.not_mem_nil, or_false] at hs
    rcases hs with rfl | rfl
    · simp only [Option.some.injEq] at hf
      subst hf
      exact ⟨_, rfl⟩
    · simp only [Option.some.injEq] at hf
      subst hf
      exact ⟨_, rfl⟩)⟩


/-- C2, as stated, fails: with a DNSDumpster answer that lists
`mail.example.org`, the final list for `example.com` holds that host, which
neither equals `example.com` nor ends with `.example.com`. -/
theorem C2_counterexample :
    processDomain (searchers strayEnv) "example.com" (afterAllReturn 11 1)
      = some ["mail.example.org"] ∧
    ¬ ("mail.example.org" = "example.com" ∨
        strings.HasSuffix "mail.example.org" ("." ++ "example.com") = true) := by
  decide

/-- C2, amended: every hostname in the final list is a string that some source
returned together with a nil error; so when every string so returned equals
the scanned domain or ends with "." followed by it, every hostname of the
final list does. -/
theorem C2_final_list_from_sources (searchers : List Searcher) (domain : String)
    (sched : List Event) (out : List String)
    (hrun : processDomain searchers domain sched = some out) :
    (∀ x ∈ out, ∃ s ∈ searchers, ∃ searchFn subs,
      s.search = some searchFn ∧ searchFn domain = Call.returns subs none ∧ x ∈ subs) ∧
    ((∀ s ∈ searchers, ∀ searchFn subs, s.search = some searchFn →
        searchFn domain = Call.returns subs none →
        ∀ x ∈ subs, x = domain ∨ strings.HasSuffix x ("." ++ domain) = true) →
      ∀ x ∈ out, x = domain ∨ strings.HasSuffix x ("." ++ domain) = true) := by
  have hsound := (processDomain_sound searchers domain sched out hrun).2
  refine ⟨hsound, ?_⟩
  intro hall x hx
  obtain ⟨s, hs, f, subs, hf, hcall, hmem⟩ := hsound x hx
  exact hall s hs f subs hf hcall x hmem

/-- C2, amended, at the two sources of the example. -/
theorem C2_final_list_from_sources_witness :
    processDomain twoSources "example.com"
        [Event.ret 0, Event.ret 1, Event.send 1, Event.send 1, Event.send 0]
      = some ["a.example.com", "b.example.com"] ∧
    ((∀ x ∈ ["a.example.com", "b.example.com"], ∃ s ∈ twoSources, ∃ searchFn subs,
      s.search = some searchFn ∧ searchFn "example.com" = Call.returns subs none ∧
        x ∈ subs) ∧
    ((∀ s ∈ twoSources, ∀ searchFn subs, s.search = some searchFn →
        searchFn "example.com" = Call.returns subs none →
        ∀ x ∈ subs, x = "example.com" ∨
          strings.HasSuffix x ("." ++ "example.com") = true) →
      ∀ x ∈ ["a.example.com", "b.example.com"], x = "example.com" ∨
        strings.HasSuffix x ("." ++ "example.com") = true)) :=
  ⟨by decide, C2_final_list_from_sources twoSources "example.com"
    [Event.ret 0, Event.ret 1, Event.send 1, Event.send 1, Event.send 0]
    ["a.example.com", "b.example.com"] (by decide)⟩

/-- C3, as stated, fails: when the response headers name `API.example.com` and
`api.example.com`, the final list holds both, and they are equal after
lower-casing. -/
theorem C3_counterexample :
    processDomain (searchers mixedCaseEnv) "example.com" (afterAllReturn 8 2)
      = some ["API.example.com", "api.example.com"] ∧
    ¬ (["API.example.com", "api.example.com"].map strings.ToLower).Nodup := by
  decide

/-- C3, amended: the final list holds no string twice, strings being compared
exactly as they were sent. -/
theorem C3_final_list_nodup (searchers : List Searcher) (domain : String)
    (sched : List Event) (out : List String)
    (hrun : processDomain searchers domain sched = some out) : out.Nodup :=
  (processDomain_sound searchers domain sched out hrun).1

/-- C3, amended, at a run in which the same string is sent twice. -/
theorem C3_final_list_nodup_witness :
    processDomain twoSources "example.com"
        [Event.ret 0, Event.ret 1, Event.send 0, Event.send 1, Event.recv, Event.recv,
          Event.send 1, Event.recv]
      = some ["a.example.com", "b.example.com"] ∧
    ["a.example.com", "b.example.com"].Nodup :=
  ⟨by decide, C3_final_list_nodup twoSources "example.com"
    [Event.ret 0, Event.ret 1, Event.send 0, Event.send 1, Event.recv, Event.recv,
      Event.send 1, Event.recv]
    ["a.example.com", "b.example.com"] (by decide)⟩

theorem Returned_remove_failing (before after : List Searcher) (bad : Searcher)
    (domain : String) (searchFn : String → Call) (subs : List String) (e : String)
    (hbad : bad.search = some searchFn) (herr : searchFn domain = Call.returns subs (some e))
    (x : String) :
    Returned (before ++ bad :: after) domain x ↔ Returned (before ++ after) domain x := by
  constructor
  · rintro ⟨s, hs, f, l, hf, hcall, hx⟩
    simp only [List.mem_append, List.mem_cons] at hs
    rcases hs with hs | rfl | hs
    · exact ⟨s, List.mem_append_left _ hs, f, l, hf, hcall, hx⟩
    · rw [hbad] at hf
      simp only [Option.some.injEq] at hf
      subst hf
      rw [herr] at hcall
      simp at hcall
    · exact ⟨s, List.mem_append_right _ hs, f, l, hf, hcall, hx⟩
  · rintro ⟨s, hs, rest⟩
    refine ⟨s, ?_, rest⟩
    simp only [List.mem_append, List.mem_cons] at hs ⊢
    tauto

/-- C4: a source that returns a non-nil error is isolated.  In every finished
run the final list holds only hostnames returned by the other sources, so the
failing source adds none, not even those it returned with its error; when the
deadline does not pass every hostname of every other source is in the list,
and the list has the same elements as that of a run without the failing
source; and the run comes to its end whenever the other sources return. -/
theorem C4_failing_source_isolated (before after : List Searcher) (bad : Searcher)
    (domain : String) (searchFn : String → Call) (subs : List String) (e : String)
    (hbad : bad.search = some searchFn)
    (herr : searchFn domain = Call.returns subs (some e)) :
    (∀ sched out, processDomain (before ++ bad :: after) domain sched = some out →
      ∀ x ∈ out, Returned (before ++ after) domain x) ∧
    (∀ sched out, Event.timeout ∉ sched →
      processDomain (before ++ bad :: after) domain sched = some out →
      ∀ x, Returned (before ++ after) domain x → x ∈ out) ∧
    (∀ sched out sched2 out2, Event.timeout ∉ sched → Event.timeout ∉ sched2 →
      processDomain (before ++ bad :: after) domain sched = some out →
      processDomain (before ++ after) domain sched2 = some out2 →
      ∀ x, x ∈ out ↔ x ∈ out2) ∧
    (AllReturn (before ++ after) domain → ∀ pre, ∃ suf, Event.timeout ∉ suf ∧
      ∃ out, processDomain (before ++ bad :: after) domain (pre ++ suf) = some out) := by
  have hiff := Returned_remove_failing before after bad domain searchFn subs e hbad herr
  have h1 : ∀ sched out, processDomain (before ++ bad :: after) domain sched = some out →
      ∀ x ∈ out, Returned (before ++ after) domain x := by
    intro sched out hrun x hx
    exact (hiff x).mp ((processDomain_sound _ domain sched out hrun).2 x hx)
  have h2 : ∀ sched out, Event.timeout ∉ sched →
      processDomain (before ++ bad :: after) domain sched = some out →
      ∀ x, Returned (before ++ after) domain x → x ∈ out := by
    intro sched out hs hrun x hx
    exact processDomain_complete _ domain sched out hs hrun x ((hiff x).mpr hx)
  refine ⟨h1, h2, ?_, ?_⟩
  · intro sched out sched2 out2 hs hs2 hrun hrun2 x
    constructor
    · intro hx
      exact processDomain_complete _ domain sched2 out2 hs2 hrun2 x (h1 sched out hrun x hx)
    · intro hx
      exact h2 sched out hs hrun x ((processDomain_sound _ domain sched2 out2 hrun2).2 x hx)
  · intro hret
    apply processDomain_extends
    intro s hs f hf
    simp only [List.mem_append, List.mem_cons] at hs
    rcases hs with hs | rfl | hs
    · exact hret s (List.mem_append_left _ hs) f hf
    · rw [hbad] at hf
      simp only [Option.some.injEq] at hf
      subst hf
      rw [herr]
      simp
    · exact hret s (List.mem_append_right _ hs) f hf

/-- C4 at a source that fails with one hostname collected, placed between the
two sources of the example: its hostname is not in the final list. -/
theorem C4_failing_source_isolated_witness :
    processDomain (twoSources.take 1 ++ quotaSource :: twoSources.drop 1) "example.com"
        [Event.ret 1, Event.ret 2, Event.send 2, Event.ret 0, Event.send 1, Event.send 0,
          Event.send 2, Event.recv]
      = some ["a.example.com", "b.example.com"] ∧
    ((∀ sched out,
      processDomain (twoSources.take 1 ++ quotaSource :: twoSources.drop 1) "example.com" sched
        = some out →
      ∀ x ∈ out, Returned (twoSources.take 1 ++ twoSources.drop 1) "example.com" x) ∧
    (∀ sched out, Event.timeout ∉ sched →
      processDomain (twoSources.take 1 ++ quotaSource :: twoSources.drop 1) "example.com" sched
        = some out →
      ∀ x, Returned (twoSources.take 1 ++ twoSources.drop 1) "example.com" x → x ∈ out) ∧
    (∀ sched out sched2 out2, Event.timeout ∉ sched → Event.timeout ∉ sched2 →
      processDomain (twoSources.take 1 ++ quotaSource :: twoSources.drop 1) "example.com" sched
        = some out →
      processDomain (twoSources.take 1 ++ twoSources.drop 1) "example.com" sched2 = some out2 →
      ∀ x, x ∈ out ↔ x ∈ out2) ∧
    (AllReturn (twoSources.take 1 ++ twoSources.drop 1) "example.com" →
      ∀ pre, ∃ suf, Event.timeout ∉ suf ∧ ∃ out,
        processDomain (twoSources.take 1 ++ quotaSource :: twoSources.drop 1) "example.com"
          (pre ++ suf) = some out)) :=
  ⟨by decide, C4_failing_source_isolated (twoSources.take 1) (twoSources.drop 1) quotaSource
    "example.com" _ ["x.example.com"] "API quota exceeded (captured 1 subs)" rfl rfl⟩


/-- C5: when every search function of the table returns a non-nil error,
`processDomain` returns (from any point the run can be continued to its end,
and it ends under the schedule `fullSchedule`), and the final list of every
finished run is empty. -/
theorem C5_all_sources_fail (searchers : List Searcher) (domain : String)
    (hall : ∀ s ∈ searchers, ∀ searchFn, s.search = some searchFn →
      ∃ subs e, searchFn domain = Call.returns subs (some e)) :
    (∀ pre, ∃ suf, ∃ out, processDomain searchers domain (pre ++ suf) = some out) ∧
    processDomain searchers domain (fullSchedule searchers domain) = some [] ∧
    ∀ sched out, processDomain searchers domain sched = some out → out = [] := by
  have hret : AllReturn searchers domain := by
    intro s hs f hf heq
    obtain ⟨subs, e, hcall⟩ := hall s hs f hf
    rw [hcall] at heq
    cases heq
  have hempty : ∀ sched out, processDomain searchers domain sched = some out → out = [] := by
    intro sched out hrun
    apply List.eq_nil_iff_forall_not_mem.mpr
    intro x hx
    obtain ⟨s, hs, f, l, hf, hcall, _⟩ := (processDomain_sound searchers domain sched out hrun).2 x hx
    obtain ⟨subs, e, hcall2⟩ := hall s hs f hf
    rw [hcall2] at hcall
    simp at hcall
  refine ⟨?_, ?_, hempty⟩
  · intro pre
    obtain ⟨suf, _, out, hout⟩ := processDomain_extends searchers domain hret pre
    exact ⟨suf, out, hout⟩
  · obtain ⟨⟨out, hout⟩, _⟩ := processDomain_fullSchedule searchers domain hret
    rw [hout, hempty _ out hout]

/-- C5 at the table of an environment in which every source fails. -/
theorem C5_all_sources_fail_witness :
    (∀ pre, ∃ suf, ∃ out,
      processDomain (searchers offlineEnv) "example.com" (pre ++ suf) = some out) ∧
    processDomain (searchers offlineEnv) "example.com"
      (fullSchedule (searchers offlineEnv) "example.com") = some [] ∧
    ∀ sched out, processDomain (searchers offlineEnv) "example.com" sched = some out →
      out = [] :=
  C5_all_sources_fail (searchers offlineEnv) "example.com" (by
    intro s hs f hf
    simp only [searchers, List.mem_cons, List.mem_singleton, List.not_mem_nil, or_false] at hs
    rcases hs with rfl | rfl | rfl | rfl | rfl | rfl | rfl | rfl | rfl | rfl | rfl | rfl <;>
      (simp only [Option.some.injEq] at hf; subst hf) <;>
      first
        | exact ⟨[], "request failed", rfl⟩
        | exact ⟨[], "error opening wordlist: open ./db/wordlist.txt: no such file or directory",
            by decide⟩
        | exact ⟨["x.example.com"], "API quota exceeded (captured 1 subs)", by decide⟩
        | exact ⟨[], "API request failed", by decide⟩)

/-- C6: the entries "VirusTotal" and "DNSDumpster" of the table are the two
closures below, and with an empty API key each returns an empty list and a nil
error for every domain, without a call of `GetSubsFromVirusTotal` or of
`GetSubsFromDNSDumpster`. -/
theorem C6_absent_credential (env : Env) (d : String) :
    (searchers env)[10]? = some ⟨"VirusTotal", some (fun d => (virusTotalEntry env d).1)⟩ ∧
    (searchers env)[11]? = some ⟨"DNSDumpster", some (fun d => (dnsDumpsterEntry env d).1)⟩ ∧
    (env.vtAPIKey = "" → virusTotalEntry env d = (Call.returns [] none, 0)) ∧
    (env.dnAPIKey = "" → dnsDumpsterEntry env d = (Call.returns [] none, 0)) := by
  refine ⟨rfl, rfl, ?_, ?_⟩
  · intro h; simp [virusTotalEntry, h]
  · intro h; simp [dnsDumpsterEntry, h]

/-- C6 at an environment without keys whose two API functions would hang. -/
theorem C6_absent_credential_witness :
    quietEnv.vtAPIKey = "" ∧ quietEnv.dnAPIKey = "" ∧
    virusTotalEntry quietEnv "example.com" = (Call.returns [] none, 0) ∧
    dnsDumpsterEntry quietEnv "example.com" = (Call.returns [] none, 0) :=
  ⟨rfl, rfl, (C6_absent_credential quietEnv "example.com").2.2.1 rfl,
    (C6_absent_credential quietEnv "example.com").2.2.2 rfl⟩

/-! ## Claims on `BruteSubdomains` and `loadWordlist` -/

/-- C7: on a loaded wordlist `BruteSubdomains` returns (from any point its run
can be continued to the return), with a nil error and a list that is a
permutation of the hostnames `word + "." + domain` of the wordlist entries,
with multiplicity, whose hostname the resolver reports as existing. -/
theorem C7_BruteSubdomains_permutation (fs : FileSystem) (resolver : Resolver)
    (domain path : String) (words : List String)
    (hload : loadWordlist fs path = (words, none)) :
    (∀ pre, ∃ suf run, BruteSubdomains fs resolver domain path (pre ++ suf) = some run) ∧
    ∀ sched run, BruteSubdomains fs resolver domain path sched = some run →
      run.err = none ∧
      run.subs.Perm
        ((words.map (fun word => word ++ "." ++ domain)).filter (checkSubdomain resolver)) := by
  refine ⟨BruteSubdomains_extends fs resolver domain path words hload, ?_⟩
  intro sched run hrun
  obtain ⟨h1, h2, _⟩ := BruteSubdomains_loaded fs resolver domain path words sched run hload hrun
  exact ⟨h1, h2⟩

/-- C7 at the example: domain `example.com`, words `www` and `mail`, a
resolver that knows `www.example.com` only; the result is exactly
`www.example.com`. -/
theorem C7_BruteSubdomains_permutation_witness :
    loadWordlist sampleFs "words.txt" = (["www", "mail"], none) ∧
    (BruteSubdomains sampleFs sampleResolver "example.com" "words.txt"
        [PoolEvent.feed, PoolEvent.work 7, PoolEvent.feed, PoolEvent.work 3,
          PoolEvent.deliver 7]).map BruteRun.subs
      = some ["www.example.com"] ∧
    ((∀ pre, ∃ suf run,
      BruteSubdomains sampleFs sampleResolver "example.com" "words.txt" (pre ++ suf)
        = some run) ∧
    ∀ sched run,
      BruteSubdomains sampleFs sampleResolver "example.com" "words.txt" sched = some run →
      run.err = none ∧
      run.subs.Perm
        ((["www", "mail"].map (fun word => word ++ "." ++ "example.com")).filter
          (checkSubdomain sampleResolver))) :=
  ⟨by decide, by decide,
    C7_BruteSubdomains_permutation sampleFs sampleResolver "example.com" "words.txt"
      ["www", "mail"] (by decide)⟩

/-- C8: `loadWordlist` keeps blank lines.  For the file `www`, empty line,
`mail` it returns the three entries `www`, the empty string and `mail`, and
`BruteSubdomains` then looks up `.example.com`. -/
theorem C8_loadWordlist_keeps_blank_lines :
    sampleFs "blank.txt" = .ok "www\n\nmail\n" ∧
    loadWordlist sampleFs "blank.txt" = (["www", "", "mail"], none) ∧
    (BruteSubdomains sampleFs sampleResolver "example.com" "blank.txt"
        (poolSchedule 3)).map BruteRun.lookups
      = some ["www.example.com", ".example.com", "mail.example.com"] :=
  ⟨rfl, by decide, by decide⟩

/-- C10: on a loaded wordlist of `J` entries, in every returned run of
`BruteSubdomains`, under any schedule of the workers, the words received from
the queue are a permutation of the wordlist (each word is received as many
times as it is listed), each by a worker of the pool, and the lookups made are
the `J` hostnames of the entries. -/
theorem C10_every_job_exactly_once (fs : FileSystem) (resolver : Resolver)
    (domain path : String) (words : List String)
    (hload : loadWordlist fs path = (words, none)) :
    (∀ pre, ∃ suf run, BruteSubdomains fs resolver domain path (pre ++ suf) = some run) ∧
    ∀ sched run, BruteSubdomains fs resolver domain path sched = some run →
      (run.received.map Prod.snd).Perm words ∧
      (∀ word, (run.received.map Prod.snd).count word = words.count word) ∧
      (∀ p ∈ run.received, p.1 < defaultWorkers) ∧
      run.received.length = words.length ∧
      run.lookups.length = words.length ∧
      run.lookups.Perm (words.map (fun word => word ++ "." ++ domain)) := by
  refine ⟨BruteSubdomains_extends fs resolver domain path words hload, ?_⟩
  intro sched run hrun
  obtain ⟨_, _, h3, h4, h5⟩ :=
    BruteSubdomains_loaded fs resolver domain path words sched run hload hrun
  have hlen : run.received.length = words.length := by
    simpa using h3.length_eq
  have hmap : run.lookups = (run.received.map Prod.snd).map (fun word => word ++ "." ++ domain) := by
    rw [h4, List.map_map]; rfl
  refine ⟨h3, fun word => h3.count_eq word, h5, hlen, ?_, ?_⟩
  · rw [h4, List.length_map, hlen]
  · rw [hmap]
    exact h3.map _

/-- C10 at the wordlist `www`, `mail` with two workers taking one word each. -/
theorem C10_every_job_exactly_once_witness :
    (BruteSubdomains sampleFs sampleResolver "example.com" "words.txt"
        [PoolEvent.feed, PoolEvent.feed, PoolEvent.work 199, PoolEvent.work 0,
          PoolEvent.work 200, PoolEvent.deliver 199]).map BruteRun.received
      = some [(199, "www"), (0, "mail")] ∧
    ((∀ pre, ∃ suf run,
      BruteSubdomains sampleFs sampleResolver "example.com" "words.txt" (pre ++ suf)
        = some run) ∧
    ∀ sched run,
      BruteSubdomains sampleFs sampleResolver "example.com" "words.txt" sched = some run →
      (run.received.map Prod.snd).Perm ["www", "mail"] ∧
      (∀ word, (run.received.map Prod.snd).count word = ["www", "mail"].count word) ∧
      (∀ p ∈ run.received, p.1 < defaultWorkers) ∧
      run.received.length = ["www", "mail"].length ∧
      run.lookups.length = ["www", "mail"].length ∧
      run.lookups.Perm (["www", "mail"].map (fun word => word ++ "." ++ "example.com"))) :=
  ⟨by decide,
    C10_every_job_exactly_once sampleFs sampleResolver "example.com" "words.txt"
      ["www", "mail"] (by decide)⟩

/-! ## Lemmas on the main goroutine of `processDomain` -/

theorem step_of_all_done (st : RunState) (h : st.tasks.all Task.done = true) (i : Nat) :
    step st (Event.ret i) = st ∧ step st (Event.send i) = st ∧
    step st (Event.abandon i) = st := by
  have hget : ∀ t, st.tasks[i]? = some t → t = Task.sending [] := by
    intro t ht
    have hd := (List.all_eq_true.mp h) t (List.getElem?_mem ht)
    cases t with
    | running c => simp [Task.done] at hd
    | sending rest =>
      cases rest with
      | nil => rfl
      | cons a as => simp [Task.done] at hd
  refine ⟨?_, ?_, ?_⟩ <;>
  · simp only [step]
    split
    · rename_i heq
      have := hget _ heq
      simp at this
    · rfl

theorem step_kept (st : RunState) (e : Event) (x : String)
    (h : x ∈ st.results ∨ x ∈ st.uniqueSubs) :
    x ∈ (step st e).results ∨ x ∈ (step st e).uniqueSubs := by
  cases e with
  | ret i => simp only [step]; split <;> exact h
  | send i =>
    simp only [step]
    split
    · split
      · simp only [List.mem_append]
        tauto
      · exact h
    · exact h
  | abandon i => simp only [step]; split <;> [split; skip] <;> exact h
  | recv =>
    simp only [step]
    split
    · rename_i sub rest hr
      rw [hr] at h
      simp only [mem_Store, List.mem_cons] at h ⊢
      tauto
    · exact h
  | timeout => exact h

theorem step_tasks_recv_timeout (st : RunState) :
    (step st Event.recv).tasks = st.tasks ∧ (step st Event.timeout).tasks = st.tasks := by
  constructor
  · simp only [step]; split <;> rfl
  · rfl

theorem mainStep_inv (st : MainState) (e : MainEvent) (h : MainInv st) :
    MainInv (mainStep st e) ∧
    (mainStep st e).run = (match e.toRun with
      | some e2 => step st.run e2
      | none => st.run) := by
  obtain ⟨h1, h2, h3, h4, h5⟩ := h
  have hnc : ∀ i, st.closed = true → step st.run (Event.ret i) = st.run ∧
      step st.run (Event.send i) = st.run ∧ step st.run (Event.abandon i) = st.run :=
    fun i hc => step_of_all_done st.run (h2 hc) i
  have hcollect : st.collected = false → st.subdomains = none := by
    intro hc
    cases hs : st.subdomains with
    | none => rfl
    | some out => have := (h4 out hs).1; rw [hc] at this; cases this
  cases e with
  | run ev =>
    cases ev with
    | ret i =>
      simp only [mainStep, MainEvent.toRun]
      refine ⟨⟨h1, ?_, ?_, ?_, ?_⟩, trivial⟩
      · intro hc; rw [(hnc i hc).1]; exact h2 hc
      · intro hc; rw [(hnc i (h3 hc).1).1]; exact h3 hc
      · intro out ho; rw [(hnc i (h3 (h4 out ho).1).1).1]; exact h4 out ho
      · intro x hx; exact step_kept _ _ x (h5 x hx)
    | abandon i =>
      simp only [mainStep, MainEvent.toRun]
      refine ⟨⟨h1, ?_, ?_, ?_, ?_⟩, trivial⟩
      · intro hc; rw [(hnc i hc).2.2]; exact h2 hc
      · intro hc; rw [(hnc i (h3 hc).1).2.2]; exact h3 hc
      · intro out ho; rw [(hnc i (h3 (h4 out ho).1).1).2.2]; exact h4 out ho
      · intro x hx; exact step_kept _ _ x (h5 x hx)
    | timeout =>
      simp only [mainStep, MainEvent.toRun]
      exact ⟨⟨h1, h2, h3, h4, h5⟩, trivial⟩
    | recv =>
      simp only [mainStep, MainEvent.toRun]
      by_cases hc : st.collected = true
      · rw [if_pos hc]
        refine ⟨⟨h1, h2, h3, h4, h5⟩, ?_⟩
        simp [step, (h3 hc).2]
      · rw [if_neg hc]
        have hcf : st.collected = false := by simpa using hc
        refine ⟨⟨h1, ?_, ?_, ?_, ?_⟩, rfl⟩
        · intro hcl; rw [(step_tasks_recv_timeout st.run).1]; exact h2 hcl
        · intro hcl; exact absurd hcl hc
        · intro out ho; rw [hcollect hcf] at ho; cases ho
        · intro x hx; exact step_kept _ _ x (h5 x hx)
    | send i =>
      simp only [mainStep, MainEvent.toRun]
      split
      · rename_i sub rest hi
        by_cases hc : st.closed = true
        · have := (hnc i hc).2
          exfalso
          have hd := (List.all_eq_true.mp (h2 hc)) _ (List.getElem?_mem hi)
          simp [Task.done] at hd
        · have hcf : st.closed = false := by simpa using hc
          simp only [hcf, Bool.false_eq_true, if_false]
          split
          · refine ⟨⟨h1, ?_, ?_, ?_, ?_⟩, rfl⟩
            · intro hcl; simp at hcl
            · intro hcl; exact absurd (h3 hcl).1 hc
            · intro out ho; exact absurd (h3 (h4 out ho).1).1 hc
            · intro x hx
              rcases List.mem_append.mp hx with hx | hx
              · exact step_kept _ _ x (h5 x hx)
              · simp only [List.mem_singleton] at hx
                subst hx
                left
                simp [step, hi, *]
          · rename_i hfull
            refine ⟨⟨h1, h2, h3, h4, h5⟩, ?_⟩
            simp [step, hi, hfull]
      · rename_i hno
        refine ⟨⟨h1, h2, h3, h4, h5⟩, ?_⟩
        simp only [step]
  | close =>
    simp only [mainStep, MainEvent.toRun]
    split
    · rename_i hg
      simp only [Bool.and_eq_true, Bool.not_eq_true'] at hg
      refine ⟨⟨h1, fun _ => hg.1, ?_, h4, h5⟩, rfl⟩
      intro hc
      exact ⟨rfl, (h3 hc).2⟩
    · exact ⟨⟨h1, h2, h3, h4, h5⟩, rfl⟩
  | collectorExit =>
    simp only [mainStep, MainEvent.toRun]
    split
    · rename_i hg
      simp only [Bool.and_eq_true, Bool.not_eq_true', List.isEmpty_iff] at hg
      exact ⟨⟨h1, h2, fun _ => ⟨hg.1.1, hg.1.2⟩, fun out ho => ⟨rfl, (h4 out ho).2⟩, h5⟩,
        rfl⟩
    · exact ⟨⟨h1, h2, h3, h4, h5⟩, rfl⟩
  | range =>
    simp only [mainStep, MainEvent.toRun]
    split
    · rename_i hg
      simp only [Bool.and_eq_true] at hg
      refine ⟨⟨h1, h2, h3, ?_, h5⟩, rfl⟩
      intro out ho
      simp only [Option.some.injEq] at ho
      exact ⟨hg.1, ho.symm⟩
    · exact ⟨⟨h1, h2, h3, h4, h5⟩, rfl⟩

theorem mainExec_inv (sched : List MainEvent) :
    ∀ st : MainState, MainInv st →
      MainInv (mainExec st sched) ∧
      (mainExec st sched).run = exec st.run (sched.filterMap MainEvent.toRun) := by
  induction sched with
  | nil => intro st h; exact ⟨h, rfl⟩
  | cons e es ih =>
    intro st h
    obtain ⟨hinv, hrun⟩ := mainStep_inv st e h
    obtain ⟨h1, h2⟩ := ih (mainStep st e) hinv
    refine ⟨h1, ?_⟩
    simp only [mainExec, List.foldl_cons] at h2 ⊢
    rw [h2, hrun]
    cases e <;> simp [MainEvent.toRun, exec]

theorem mainInit_inv (searchers : List Searcher) (domain : String) :
    MainInv (mainInit searchers domain) := by
  refine ⟨rfl, ?_, ?_, ?_, ?_⟩
  · intro h; cases h
  · intro h; cases h
  · intro out h; cases h
  · intro x hx; simp [mainInit] at hx

theorem mainExec_append (st : MainState) (a b : List MainEvent) :
    mainExec st (a ++ b) = mainExec (mainExec st a) b := by
  simp [mainExec, List.foldl_append]

theorem mainExec_open (sched : List Event) :
    ∀ st : MainState, st.closed = false → st.collected = false →
      (mainExec st (sched.map MainEvent.run)).run = exec st.run sched ∧
      (mainExec st (sched.map MainEvent.run)).closed = false ∧
      (mainExec st (sched.map MainEvent.run)).collected = false ∧
      (mainExec st (sched.map MainEvent.run)).subdomains = st.subdomains := by
  induction sched with
  | nil => intro st hc hk; exact ⟨rfl, hc, hk, rfl⟩
  | cons e es ih =>
    intro st hc hk
    have hstep : (mainStep st (MainEvent.run e)).run = step st.run e ∧
        (mainStep st (MainEvent.run e)).closed = false ∧
        (mainStep st (MainEvent.run e)).collected = false ∧
        (mainStep st (MainEvent.run e)).subdomains = st.subdomains := by
      cases e with
      | ret i => exact ⟨rfl, hc, hk, rfl⟩
      | abandon i => exact ⟨rfl, hc, hk, rfl⟩
      | timeout => exact ⟨rfl, hc, hk, rfl⟩
      | recv => simp [mainStep, hk, hc]
      | send i =>
        simp only [mainStep]
        split
        · rename_i sub rest hi
          simp only [hc, Bool.false_eq_true, if_false]
          split
          · exact ⟨rfl, rfl, hk, rfl⟩
          · rename_i hfull
            refine ⟨?_, hc, hk, rfl⟩
            simp [step, hi, hfull]
        · rename_i hno
          refine ⟨?_, hc, hk, rfl⟩
          simp only [step]
    obtain ⟨h1, h2, h3, h4⟩ := ih (mainStep st (MainEvent.run e)) hstep.2.1 hstep.2.2.1
    simp only [List.map_cons, mainExec, List.foldl_cons, exec] at h1 h2 h3 h4 ⊢
    rw [hstep.1] at h1
    rw [hstep.2.2.2] at h4
    exact ⟨h1, h2, h3, h4⟩

theorem mainExec_drain (buf : List String) :
    ∀ st : MainState, st.run.results = buf → st.collected = false →
      (mainExec st (List.replicate buf.length (MainEvent.run Event.recv)))
        = ⟨⟨st.run.tasks, [], buf.foldl Store st.run.uniqueSubs, st.run.ctxDone⟩,
            st.sent, st.closed, st.sentOnClosed, st.collected, st.subdomains⟩ := by
  induction buf with
  | nil =>
    intro st h hk
    cases st with
    | mk run sent closed sentOnClosed collected subdomains =>
      cases run
      simp only at h
      simp [mainExec, h]
  | cons b bs ih =>
    intro st h hk
    have h1 : mainStep st (MainEvent.run Event.recv)
        = ⟨⟨st.run.tasks, bs, Store st.run.uniqueSubs b, st.run.ctxDone⟩,
            st.sent, st.closed, st.sentOnClosed, st.collected, st.subdomains⟩ := by
      simp [mainStep, hk, step, h]
    have := ih (mainStep st (MainEvent.run Event.recv)) (by rw [h1]) (by rw [h1]; exact hk)
    simp only [List.length_cons, List.replicate_succ, mainExec, List.foldl_cons] at this ⊢
    rw [this, h1]

/-- After a finished run the main goroutine can close, the collector drain
and return, and `Range` give the list of `processDomain`. -/
theorem mainExec_finish (searchers : List Searcher) (domain : String)
    (sched : List Event) (out : List String)
    (h : processDomain searchers domain sched = some out) :
    (mainExec (mainInit searchers domain)
      (sched.map MainEvent.run ++
        finishMain (exec (initState searchers domain) sched).results.length)).subdomains
      = some out := by
  unfold processDomain at h
  simp only at h
  split at h
  · rename_i hdone
    simp only [Option.some.injEq] at h
    obtain ⟨h1, h2, h3, h4⟩ := mainExec_open sched (mainInit searchers domain) rfl rfl
    have hrun : (mainInit searchers domain).run = initState searchers domain := rfl
    rw [hrun] at h1
    rw [mainExec_append]
    generalize hm : mainExec (mainInit searchers domain) (sched.map MainEvent.run) = m at *
    have hclose : mainStep m MainEvent.close
        = ⟨m.run, m.sent, true, m.sentOnClosed, m.collected, m.subdomains⟩ := by
      simp [mainStep, h1, hdone, h2]
    have hsplit : mainExec m (finishMain (exec (initState searchers domain) sched).results.length)
        = mainExec (mainExec (mainStep m MainEvent.close)
            (List.replicate (exec (initState searchers domain) sched).results.length
              (MainEvent.run Event.recv)))
            [MainEvent.collectorExit, MainEvent.range] := by
      simp only [finishMain, mainExec, List.foldl_cons, List.foldl_append]
    rw [hsplit, hclose]
    rw [mainExec_drain (exec (initState searchers domain) sched).results
      ⟨m.run, m.sent, true, m.sentOnClosed, m.collected, m.subdomains⟩ (by rw [h1]) h3]
    simp only [mainExec, List.foldl_cons, List.foldl_nil, mainStep]
    simp only [h1, h3, h4, Bool.and_self, Bool.not_false, List.isEmpty_nil, Bool.and_true,
      if_true]
    have hsub : (mainInit searchers domain).subdomains = none := rfl
    simp only [hsub, Option.isSome_none, Option.isNone_none, Bool.and_self, if_true]
    rw [← h]
    rfl
  · simp at h

/-! ## Lemmas on the main goroutine of `BruteSubdomains` -/

theorem unblock_subset (w : Nat) (sub : String) :
    ∀ (l others : List (Nat × String)), unblock w l = some (sub, others) →
      ∀ p ∈ others, p ∈ l := by
  intro l
  induction l with
  | nil => intro others h; simp [unblock] at h
  | cons q qs ih =>
    intro others h p hp
    simp only [unblock] at h
    split at h
    · simp only [Option.some.injEq, Prod.mk.injEq] at h
      obtain ⟨_, rfl⟩ := h
      exact List.mem_cons_of_mem _ hp
    · cases hu : unblock w qs with
      | none => simp [hu] at h
      | some r =>
        simp only [hu, Option.map_some', Option.some.injEq, Prod.mk.injEq] at h
        obtain ⟨rfl, rfl⟩ := h
        rcases List.mem_cons.mp hp with rfl | hp
        · exact List.mem_cons_self _ _
        · exact List.mem_cons_of_mem _ (ih r.2 hu p hp)

theorem unblock_none_of_nil (w : Nat) : unblock w [] = none := rfl

theorem poolStep_work_props (domain : String) (resolver : Resolver) (st : PoolState)
    (w : Nat) :
    (poolStep domain resolver st (PoolEvent.work w)).toFeed = st.toFeed ∧
    (poolStep domain resolver st (PoolEvent.work w)).jobs.length ≤ st.jobs.length ∧
    (st.jobs = [] → poolStep domain resolver st (PoolEvent.work w) = st) ∧
    (¬ w < defaultWorkers → poolStep domain resolver st (PoolEvent.work w) = st) ∧
    (∀ p ∈ (poolStep domain resolver st (PoolEvent.work w)).blocked,
      p ∈ st.blocked ∨ (p.1 = w ∧ w < defaultWorkers)) := by
  simp only [poolStep]
  split
  · rename_i hg
    simp only [Bool.and_eq_true, decide_eq_true_eq] at hg
    split
    · rename_i word rest hj
      refine ⟨rfl, by simp [hj], fun h => by simp [hj] at h, fun h => absurd hg.1 h, ?_⟩
      intro p hp
      split at hp
      · rcases List.mem_append.mp hp with hp | hp
        · exact Or.inl hp
        · simp only [List.mem_singleton] at hp
          subst hp
          exact Or.inr ⟨rfl, hg.1⟩
      · exact Or.inl hp
    · exact ⟨rfl, Nat.le_refl _, fun _ => rfl, fun _ => rfl, fun p hp => Or.inl hp⟩
  · exact ⟨rfl, Nat.le_refl _, fun _ => rfl, fun _ => rfl, fun p hp => Or.inl hp⟩

theorem free_of_blocked (st st2 : PoolState) (v : Nat) (hv : st.free v = true)
    (h : ∀ p ∈ st2.blocked, p ∈ st.blocked ∨ p.1 ≠ v) : st2.free v = true := by
  simp only [PoolState.free, List.all_eq_true, bne_iff_ne, ne_eq] at hv ⊢
  intro p hp
  rcases h p hp with h | h
  · exact hv p h
  · exact h

theorem blocked_nil_of_allExited (st : BruteMain)
    (hfree : ∀ w ∈ st.exited, st.pool.free w = true)
    (hlt : ∀ p ∈ st.pool.blocked, p.1 < defaultWorkers)
    (hall : allExited st.exited = true) : st.pool.blocked = [] := by
  apply List.eq_nil_iff_forall_not_mem.mpr
  intro p hp
  have hmem : p.1 ∈ st.exited := by
    simp only [allExited, List.all_eq_true, List.mem_range, decide_eq_true_eq] at hall
    exact hall p.1 (hlt p hp)
  have := hfree p.1 hmem
  simp only [PoolState.free, List.all_eq_true, bne_iff_ne, ne_eq] at this
  exact this p hp rfl

theorem bruteStep_inv (domain : String) (resolver : Resolver) (st : BruteMain)
    (e : BruteEvent) (h : BruteInv st) :
    BruteInv (bruteStep domain resolver st e) ∧
    (bruteStep domain resolver st e).capacity = st.capacity ∧
    (bruteStep domain resolver st e).pool = (match e.toPool with
      | some e2 => poolStep domain resolver st.pool e2
      | none => st.pool) := by
  obtain ⟨k1, k2, k3, k4, k5, k6, k7, k8⟩ := h
  cases e with
  | pool ev =>
    cases ev with
    | feed =>
      simp only [bruteStep, BruteEvent.toPool]
      cases hf : st.pool.toFeed with
      | nil =>
        refine ⟨⟨k1, k2, k3, k4, k5, k6, k7, k8⟩, rfl, ?_⟩
        simp [poolStep, hf]
      | cons word rest =>
        simp only
        rcases k4 with ⟨hpc, hjc⟩ | ⟨_, _, hnil⟩
        · have hcap : st.pool.jobs.length < st.capacity := by
            rw [hf] at k3
            simp only [List.length_cons] at k3
            omega
          have hstep : poolStep domain resolver st.pool PoolEvent.feed
              = ⟨rest, st.pool.jobs ++ [word], st.pool.blocked, st.pool.subs,
                  st.pool.received, st.pool.lookups⟩ := by
            simp [poolStep, hf]
          have hex : st.exited = [] := by
            by_contra hne
            exact (k5 hne).2 hpc
          rw [if_pos hpc, if_neg (by omega), if_pos hcap]
          refine ⟨⟨k1, k2, ?_, Or.inl ⟨hpc, hjc⟩, ?_, ?_, ?_, ?_⟩, rfl, rfl⟩
          · show (poolStep domain resolver st.pool PoolEvent.feed).jobs.length
              + (poolStep domain resolver st.pool PoolEvent.feed).toFeed.length ≤ st.capacity
            rw [hstep]
            rw [hf] at k3
            simp only [List.length_append, List.length_singleton, List.length_cons, List.length_nil] at k3 ⊢
            omega
          · intro hne; exact absurd hex hne
          · intro w hw; rw [hex] at hw; cases hw
          · rcases k7 with k7 | ⟨hd, _⟩
            · exact Or.inl k7
            · rw [hpc] at hd
              rcases hd with hd | hd <;> cases hd
          · show ∀ p ∈ (poolStep domain resolver st.pool PoolEvent.feed).blocked, _
            rw [hstep]; exact k8
        · rw [hnil] at hf; cases hf
    | work w =>
      simp only [bruteStep, BruteEvent.toPool]
      obtain ⟨p1, p2, p3, p4, p5⟩ := poolStep_work_props domain resolver st.pool w
      by_cases hw : w ∈ st.exited
      · rw [if_pos hw]
        refine ⟨⟨k1, k2, k3, k4, k5, k6, k7, k8⟩, rfl, ?_⟩
        exact (p3 (k5 (List.ne_nil_of_mem hw)).1).symm
      · rw [if_neg hw]
        refine ⟨⟨k1, k2, ?_, ?_, ?_, ?_, ?_, ?_⟩, rfl, rfl⟩
        · show (poolStep domain resolver st.pool (PoolEvent.work w)).jobs.length
            + (poolStep domain resolver st.pool (PoolEvent.work w)).toFeed.length ≤ st.capacity
          rw [p1]; omega
        · show (st.pc = BrutePc.feeding ∧ st.jobsClosed = 0) ∨
            (st.pc ≠ BrutePc.feeding ∧ st.jobsClosed = 1 ∧
              (poolStep domain resolver st.pool (PoolEvent.work w)).toFeed = [])
          rw [p1]; exact k4
        · intro hne
          show (poolStep domain resolver st.pool (PoolEvent.work w)).jobs = [] ∧ _
          rw [p3 (k5 hne).1]
          exact k5 hne
        · intro v hv
          apply free_of_blocked st.pool _ v (k6 v hv)
          intro p hp
          rcases p5 p hp with hp | ⟨hp, _⟩
          · exact Or.inl hp
          · right
            rw [hp]
            intro heq
            exact hw (heq ▸ hv)
        · rcases k7 with k7 | ⟨hd, hrc, hall, hbl⟩
          · exact Or.inl k7
          · right
            refine ⟨hd, hrc, hall, ?_⟩
            show (poolStep domain resolver st.pool (PoolEvent.work w)).blocked = []
            by_cases hlt : w < defaultWorkers
            · have hmem : w ∈ st.exited := by
                simp only [allExited, List.all_eq_true, List.mem_range,
                  decide_eq_true_eq] at hall
                exact hall w hlt
              exact absurd hmem hw
            · rw [p4 hlt]; exact hbl
        · intro p hp
          rcases p5 p hp with hp | ⟨hp, hlt⟩
          · exact k8 p hp
          · rw [hp]; exact hlt
    | deliver w =>
      simp only [bruteStep, BruteEvent.toPool]
      cases hu : unblock w st.pool.blocked with
      | none =>
        refine ⟨⟨k1, k2, k3, k4, k5, k6, k7, k8⟩, rfl, ?_⟩
        simp [poolStep, hu]
      | some r =>
        obtain ⟨sub, others⟩ := r
        have hsubset := unblock_subset w sub st.pool.blocked others hu
        have hstep : poolStep domain resolver st.pool (PoolEvent.deliver w)
            = ⟨st.pool.toFeed, st.pool.jobs, others, st.pool.subs ++ [sub],
                st.pool.received, st.pool.lookups⟩ := by
          simp [poolStep, hu]
        simp only
        rcases k7 with ⟨hpc, hrc⟩ | ⟨_, _, _, hbl⟩
        · rw [if_neg (by omega)]
          refine ⟨⟨k1, k2, ?_, ?_, ?_, ?_, Or.inl ⟨hpc, hrc⟩, ?_⟩, rfl, rfl⟩
          · show (poolStep domain resolver st.pool (PoolEvent.deliver w)).jobs.length
              + (poolStep domain resolver st.pool (PoolEvent.deliver w)).toFeed.length
                ≤ st.capacity
            rw [hstep]; exact k3
          · show (st.pc = BrutePc.feeding ∧ st.jobsClosed = 0) ∨
              (st.pc ≠ BrutePc.feeding ∧ st.jobsClosed = 1 ∧
                (poolStep domain resolver st.pool (PoolEvent.deliver w)).toFeed = [])
            rw [hstep]; exact k4
          · show st.exited ≠ [] →
              (poolStep domain resolver st.pool (PoolEvent.deliver w)).jobs = [] ∧
                st.pc ≠ BrutePc.feeding
            rw [hstep]; exact k5
          · intro v hv
            apply free_of_blocked st.pool _ v (k6 v hv)
            intro p hp
            have hp2 : p ∈ (poolStep domain resolver st.pool (PoolEvent.deliver w)).blocked := hp
            rw [hstep] at hp2
            exact Or.inl (hsubset p hp2)
          · intro p hp
            have hp2 : p ∈ (poolStep domain resolver st.pool (PoolEvent.deliver w)).blocked := hp
            rw [hstep] at hp2
            exact k8 p (hsubset p hp2)
        · rw [hbl] at hu
          simp [unblock] at hu
  | closeJobs =>
    simp only [bruteStep, BruteEvent.toPool]
    split
    · rename_i hg
      refine ⟨⟨k1, k2, k3, ?_, ?_, k6, ?_, k8⟩, rfl, rfl⟩
      · right
        rcases k4 with ⟨_, hjc⟩ | ⟨hne, _, _⟩
        · exact ⟨by simp, by simp [hjc], hg.2⟩
        · exact absurd hg.1 hne
      · intro hne
        exact ⟨(k5 hne).1, by simp⟩
      · rcases k7 with ⟨_, hrc⟩ | ⟨hd, _⟩
        · exact Or.inl ⟨Or.inr rfl, hrc⟩
        · rw [hg.1] at hd
          rcases hd with hd | hd <;> cases hd
    · exact ⟨⟨k1, k2, k3, k4, k5, k6, k7, k8⟩, rfl, rfl⟩
  | exit w =>
    simp only [bruteStep, BruteEvent.toPool]
    split
    · rename_i hg
      obtain ⟨hlt, hnot, hfree, hjobs, hjc⟩ := hg
      have hpc : st.pc ≠ BrutePc.feeding := by
        rcases k4 with ⟨_, h0⟩ | ⟨hne, _, _⟩
        · omega
        · exact hne
      refine ⟨⟨k1, k2, k3, k4, fun _ => ⟨hjobs, hpc⟩, ?_, ?_, k8⟩, rfl, rfl⟩
      · intro v hv
        rcases List.mem_cons.mp hv with rfl | hv
        · exact hfree
        · exact k6 v hv
      · rcases k7 with k7 | ⟨hd, hrc, hall, hbl⟩
        · exact Or.inl k7
        · right
          refine ⟨hd, hrc, ?_, hbl⟩
          simp only [allExited, List.all_eq_true, List.mem_range, decide_eq_true_eq,
            List.mem_cons] at hall ⊢
          intro v hv
          exact Or.inr (hall v hv)
    · exact ⟨⟨k1, k2, k3, k4, k5, k6, k7, k8⟩, rfl, rfl⟩
  | closeResults =>
    simp only [bruteStep, BruteEvent.toPool]
    split
    · rename_i hg
      have hbl := blocked_nil_of_allExited st k6 k8 hg.2
      refine ⟨⟨k1, k2, k3, ?_, ?_, k6, ?_, k8⟩, rfl, rfl⟩
      · rcases k4 with ⟨hf, _⟩ | ⟨_, hjc, hnil⟩
        · rw [hg.1] at hf; cases hf
        · exact Or.inr ⟨by simp, hjc, hnil⟩
      · intro hne
        exact ⟨(k5 hne).1, by simp⟩
      · right
        rcases k7 with ⟨_, hrc⟩ | ⟨hd, _⟩
        · exact ⟨Or.inl rfl, by simp [hrc], hg.2, hbl⟩
        · rw [hg.1] at hd
          rcases hd with hd | hd <;> cases hd
    · exact ⟨⟨k1, k2, k3, k4, k5, k6, k7, k8⟩, rfl, rfl⟩
  | done =>
    simp only [bruteStep, BruteEvent.toPool]
    split
    · rename_i hg
      refine ⟨⟨k1, k2, k3, ?_, ?_, k6, ?_, k8⟩, rfl, rfl⟩
      · rcases k4 with ⟨hf, _⟩ | ⟨_, hjc, hnil⟩
        · rw [hg] at hf; cases hf
        · exact Or.inr ⟨by simp, hjc, hnil⟩
      · intro hne
        exact ⟨(k5 hne).1, by simp⟩
      · right
        rcases k7 with ⟨hd, _⟩ | ⟨_, hrc, hall, hbl⟩
        · rw [hg] at hd
          rcases hd with hd | hd <;> cases hd
        · exact ⟨Or.inr rfl, hrc, hall, hbl⟩
    · exact ⟨⟨k1, k2, k3, k4, k5, k6, k7, k8⟩, rfl, rfl⟩

theorem bruteExec_inv (domain : String) (resolver : Resolver) (sched : List BruteEvent) :
    ∀ st : BruteMain, BruteInv st →
      BruteInv (bruteExec domain resolver st sched) ∧
      (bruteExec domain resolver st sched).capacity = st.capacity ∧
      (bruteExec domain resolver st sched).pool
        = poolExec domain resolver st.pool (sched.filterMap BruteEvent.toPool) := by
  induction sched with
  | nil => intro st h; exact ⟨h, rfl, rfl⟩
  | cons e es ih =>
    intro st h
    obtain ⟨hinv, hcap, hpool⟩ := bruteStep_inv domain resolver st e h
    obtain ⟨h1, h2, h3⟩ := ih (bruteStep domain resolver st e) hinv
    refine ⟨h1, h2.trans hcap, ?_⟩
    simp only [bruteExec, List.foldl_cons] at h3 ⊢
    rw [h3, hpool]
    cases e <;> simp [BruteEvent.toPool, poolExec]

theorem bruteInit_inv (words : List String) : BruteInv (bruteInit words) := by
  refine ⟨rfl, rfl, ?_, Or.inl ⟨rfl, rfl⟩, ?_, ?_, Or.inl ⟨Or.inl rfl, rfl⟩, ?_⟩
  · simp [bruteInit, poolInit]
  · intro h; exact absurd rfl h
  · intro w hw; simp [bruteInit] at hw
  · intro p hp; simp [bruteInit, poolInit] at hp

theorem bruteExec_append (domain : String) (resolver : Resolver) (st : BruteMain)
    (a b : List BruteEvent) :
    bruteExec domain resolver st (a ++ b)
      = bruteExec domain resolver (bruteExec domain resolver st a) b := by
  simp [bruteExec, List.foldl_append]

theorem bruteStep_pool_fields (domain : String) (resolver : Resolver) (st : BruteMain)
    (e : PoolEvent) :
    (bruteStep domain resolver st (BruteEvent.pool e)).pc = st.pc ∧
    (bruteStep domain resolver st (BruteEvent.pool e)).jobsClosed = st.jobsClosed ∧
    (bruteStep domain resolver st (BruteEvent.pool e)).exited = st.exited ∧
    (bruteStep domain resolver st (BruteEvent.pool e)).resultsClosed = st.resultsClosed := by
  cases e with
  | feed =>
    simp only [bruteStep]
    split
    · exact ⟨rfl, rfl, rfl, rfl⟩
    · split <;> [(split <;> [skip; split]); skip] <;> exact ⟨rfl, rfl, rfl, rfl⟩
  | work w =>
    simp only [bruteStep]
    split <;> exact ⟨rfl, rfl, rfl, rfl⟩
  | deliver w =>
    simp only [bruteStep]
    split
    · split <;> exact ⟨rfl, rfl, rfl, rfl⟩
    · exact ⟨rfl, rfl, rfl, rfl⟩

theorem bruteExec_pool_fields (domain : String) (resolver : Resolver)
    (ps : List PoolEvent) :
    ∀ st : BruteMain,
      (bruteExec domain resolver st (ps.map BruteEvent.pool)).pc = st.pc ∧
      (bruteExec domain resolver st (ps.map BruteEvent.pool)).jobsClosed = st.jobsClosed ∧
      (bruteExec domain resolver st (ps.map BruteEvent.pool)).exited = st.exited ∧
      (bruteExec domain resolver st (ps.map BruteEvent.pool)).resultsClosed
        = st.resultsClosed := by
  induction ps with
  | nil => intro st; exact ⟨rfl, rfl, rfl, rfl⟩
  | cons e es ih =>
    intro st
    obtain ⟨h1, h2, h3, h4⟩ := ih (bruteStep domain resolver st (BruteEvent.pool e))
    obtain ⟨g1, g2, g3, g4⟩ := bruteStep_pool_fields domain resolver st e
    simp only [List.map_cons, bruteExec, List.foldl_cons] at h1 h2 h3 h4 ⊢
    exact ⟨h1.trans g1, h2.trans g2, h3.trans g3, h4.trans g4⟩

theorem bruteExec_exits (domain : String) (resolver : Resolver) (ws : List Nat) :
    ∀ st : BruteMain, (∀ w ∈ ws, w < defaultWorkers) → ws.Nodup →
      (∀ w ∈ ws, w ∉ st.exited) → st.pool.blocked = [] → st.pool.jobs = [] →
      0 < st.jobsClosed →
      bruteExec domain resolver st (ws.map BruteEvent.exit)
        = ⟨st.pool, st.capacity, st.pc, st.feedBlocked, st.jobsClosed,
            ws.reverse ++ st.exited, st.resultsClosed, st.sentOnClosed⟩ := by
  induction ws with
  | nil => intro st _ _ _ _ _ _; rfl
  | cons w ws ih =>
    intro st hlt hnd hnot hbl hjobs hjc
    have hstep : bruteStep domain resolver st (BruteEvent.exit w)
        = ⟨st.pool, st.capacity, st.pc, st.feedBlocked, st.jobsClosed, w :: st.exited,
            st.resultsClosed, st.sentOnClosed⟩ := by
      simp only [bruteStep]
      rw [if_pos]
      exact ⟨hlt w (List.mem_cons_self _ _), hnot w (List.mem_cons_self _ _),
        by simp [PoolState.free, hbl], hjobs, hjc⟩
    have hnd2 := List.nodup_cons.mp hnd
    have := ih (bruteStep domain resolver st (BruteEvent.exit w))
      (fun v hv => hlt v (List.mem_cons_of_mem _ hv)) hnd2.2
      (by
        intro v hv
        rw [hstep]
        simp only [List.mem_cons, not_or]
        refine ⟨?_, hnot v (List.mem_cons_of_mem _ hv)⟩
        rintro rfl
        exact hnd2.1 hv)
      (by rw [hstep]; exact hbl) (by rw [hstep]; exact hjobs) (by rw [hstep]; exact hjc)
    simp only [List.map_cons, bruteExec, List.foldl_cons] at this ⊢
    rw [this, hstep]
    simp

/-- Under `bruteSchedule` a call on loaded words returns. -/
theorem bruteSchedule_returns (domain : String) (resolver : Resolver) (words : List String) :
    (bruteExec domain resolver (bruteInit words) (bruteSchedule words.length)).pc
      = BrutePc.returned := by
  obtain ⟨hinv, hcap, hpool⟩ := bruteExec_inv domain resolver
    ((poolSchedule words.length).map BruteEvent.pool) (bruteInit words) (bruteInit_inv words)
  obtain ⟨f1, f2, f3, f4⟩ := bruteExec_pool_fields domain resolver
    (poolSchedule words.length) (bruteInit words)
  have hproj : ((poolSchedule words.length).map BruteEvent.pool).filterMap BruteEvent.toPool
      = poolSchedule words.length := by
    rw [List.filterMap_map]
    have : (BruteEvent.toPool ∘ BruteEvent.pool) = some := rfl
    rw [this, List.filterMap_some]
  rw [hproj] at hpool
  have hfin := poolSchedule_finished resolver domain words
  have hinitpool : (bruteInit words).pool = poolInit words := rfl
  rw [hinitpool] at hpool
  rw [← hpool] at hfin
  obtain ⟨hfeed, hjobs, hbl⟩ := (finished_iff _).mp hfin
  rw [bruteSchedule, bruteExec_append]
  generalize bruteExec domain resolver (bruteInit words)
    ((poolSchedule words.length).map BruteEvent.pool) = m at *
  have hm1 : m.pc = BrutePc.feeding := f1
  have hm2 : m.jobsClosed = 0 := f2
  have hm3 : m.exited = [] := f3
  have hclose : bruteStep domain resolver m BruteEvent.closeJobs
      = ⟨m.pool, m.capacity, BrutePc.waiting, m.feedBlocked, m.jobsClosed + 1, m.exited,
          m.resultsClosed, m.sentOnClosed⟩ := by
    simp only [bruteStep]
    rw [if_pos ⟨hm1, hfeed⟩]
  have hsplit : ∀ s : BruteMain, bruteExec domain resolver s
      (BruteEvent.closeJobs :: ((List.range defaultWorkers).map BruteEvent.exit ++
        [BruteEvent.closeResults, BruteEvent.done]))
      = bruteExec domain resolver (bruteExec domain resolver
          (bruteStep domain resolver s BruteEvent.closeJobs)
          ((List.range defaultWorkers).map BruteEvent.exit))
          [BruteEvent.closeResults, BruteEvent.done] := by
    intro s
    simp only [bruteExec, List.foldl_cons, List.foldl_append]
  rw [hsplit, hclose]
  rw [bruteExec_exits domain resolver (List.range defaultWorkers)
    ⟨m.pool, m.capacity, BrutePc.waiting, m.feedBlocked, m.jobsClosed + 1, m.exited,
      m.resultsClosed, m.sentOnClosed⟩
    (fun w hw => List.mem_range.mp hw) (List.nodup_range _)
    (by intro w _; rw [hm3]; simp) hbl hjobs (Nat.succ_pos _)]
  have hall : allExited ((List.range defaultWorkers).reverse ++ m.exited) = true := by
    simp only [allExited, List.all_eq_true, decide_eq_true_eq, List.mem_append,
      List.mem_reverse]
    intro w hw
    exact Or.inl hw
  simp [bruteExec, bruteStep, hall]

/-! ## Lemmas on `GetSubsFromFavicon` -/

theorem takeOut_mem {α : Type} (w : Nat) (a : α) :
    ∀ (l others : List (Nat × α)), takeOut w l = some (a, others) →
      (∃ p ∈ l, p.2 = a) ∧ ∀ p ∈ others, p ∈ l := by
  intro l
  induction l with
  | nil => intro others h; simp [takeOut] at h
  | cons q qs ih =>
    intro others h
    simp only [takeOut] at h
    split at h
    · simp only [Option.some.injEq, Prod.mk.injEq] at h
      obtain ⟨rfl, rfl⟩ := h
      exact ⟨⟨q, List.mem_cons_self _ _, rfl⟩, fun p hp => List.mem_cons_of_mem _ hp⟩
    · cases hu : takeOut w qs with
      | none => simp [hu] at h
      | some r =>
        simp only [hu, Option.map_some', Option.some.injEq, Prod.mk.injEq] at h
        obtain ⟨rfl, rfl⟩ := h
        obtain ⟨⟨p, hp, hpa⟩, hsub⟩ := ih r.2 hu
        refine ⟨⟨p, List.mem_cons_of_mem _ hp, hpa⟩, ?_⟩
        intro p2 hp2
        rcases List.mem_cons.mp hp2 with rfl | hp2
        · exact List.mem_cons_self _ _
        · exact List.mem_cons_of_mem _ (hsub p2 hp2)

theorem faviconStep_held (web : FaviconWeb) (resolver : Resolver) (targetHash : Nat)
    (st : FaviconState) (e : FaviconEvent) (x : String)
    (h : x ∈ faviconHeld (faviconStep web resolver targetHash st e)) :
    x ∈ faviconHeld st := by
  cases e with
  | timeout => exact h
  | feed =>
    simp only [faviconStep] at h
    split at h
    · rename_i sub rest hc
      simp only [faviconHeld, List.mem_append, hc, List.mem_cons] at h ⊢
      split at h
      · simp only [List.mem_append, List.mem_singleton] at h
        tauto
      · tauto
    · exact h
  | take w =>
    simp only [faviconStep] at h
    split at h
    · split at h
      · rename_i sub rest hj
        simp only [faviconHeld, List.mem_append, hj, List.mem_cons, List.map_append,
          List.map_cons, List.map_nil, List.mem_singleton] at h ⊢
        tauto
      · exact h
    · exact h
  | probe w =>
    simp only [faviconStep] at h
    split at h
    · rename_i sub urls others ht
      obtain ⟨⟨p, hp, hpa⟩, hsub⟩ := takeOut_mem w (sub, urls) st.busy others ht
      have hsubmem : sub ∈ st.busy.map (fun p => p.2.1) :=
        List.mem_map.mpr ⟨p, hp, by rw [hpa]⟩
      have hothers : ∀ y, y ∈ others.map (fun p => p.2.1) →
          y ∈ st.busy.map (fun p => p.2.1) := by
        intro y hy
        obtain ⟨q, hq, rfl⟩ := List.mem_map.mp hy
        exact List.mem_map.mpr ⟨q, hsub q hq, rfl⟩
      have key : ∀ (b : List (Nat × String × List String)) (r : List String),
          (∀ y, y ∈ b.map (fun p => p.2.1) → y ∈ st.busy.map (fun p => p.2.1)) →
          (∀ y, y ∈ r → y ∈ st.results ∨ y = sub) →
          x ∈ faviconHeld ⟨st.toCheck, st.jobs, b, r, st.ctxDone⟩ → x ∈ faviconHeld st := by
        intro b r hb hr hx
        simp only [faviconHeld, List.mem_append] at hx ⊢
        rcases hx with hx | hx | hx | hx
        · exact Or.inl hx
        · exact Or.inr (Or.inl hx)
        · exact Or.inr (Or.inr (Or.inl (hb x hx)))
        · rcases hr x hx with hx | rfl
          · exact Or.inr (Or.inr (Or.inr hx))
          · exact Or.inr (Or.inr (Or.inl hsubmem))
      split at h
      · exact key others st.results hothers (fun y hy => Or.inl hy) h
      · split at h
        · exact key others st.results hothers (fun y hy => Or.inl hy) h
        · split at h
          · refine key others (st.results ++ [sub]) hothers ?_ h
            intro y hy
            simpa using hy
          · refine key (others ++ [(w, sub, _)]) st.results ?_ (fun y hy => Or.inl hy) h
            intro y hy
            simp only [List.map_append, List.map_cons, List.map_nil, List.mem_append,
              List.mem_singleton] at hy
            rcases hy with hy | rfl
            · exact hothers y hy
            · exact hsubmem
    · exact h

theorem faviconExec_held (web : FaviconWeb) (resolver : Resolver) (targetHash : Nat)
    (sched : List FaviconEvent) :
    ∀ (st : FaviconState) (x : String),
      x ∈ faviconHeld (faviconExec web resolver targetHash st sched) → x ∈ faviconHeld st := by
  induction sched with
  | nil => intro st x h; exact h
  | cons e es ih =>
    intro st x h
    exact faviconStep_held web resolver targetHash st e x
      (ih (faviconStep web resolver targetHash st e) x h)

/-- What `findMatchingSubdomains` returns is among its candidates. -/
theorem findMatchingSubdomains_subset (web : FaviconWeb) (resolver : Resolver)
    (subdomains : List String) (targetHash : Nat) (sched : List FaviconEvent)
    (results : List String)
    (h : findMatchingSubdomains web resolver subdomains targetHash sched = some results) :
    ∀ x ∈ results, x ∈ subdomains := by
  unfold findMatchingSubdomains at h
  simp only at h
  split at h
  · simp only [Option.some.injEq] at h
    subst h
    intro x hx
    have := faviconExec_held web resolver targetHash sched ⟨subdomains, [], [], [], false⟩ x
      (by simp only [faviconHeld, List.mem_append]; exact Or.inr (Or.inr (Or.inr hx)))
    simpa [faviconHeld] using this
  · simp at h

/-! ## Lemmas on `CrawlDomain` -/

theorem Char_toLower_toLower (c : Char) : c.toLower.toLower = c.toLower := by
  by_cases h : 65 ≤ c.toNat ∧ c.toNat ≤ 90
  · have hc : c = Char.ofNat c.toNat := (Char.ofNat_toNat c).symm
    generalize c.toNat = n at h hc
    subst hc
    obtain ⟨h1, h2⟩ := h
    interval_cases n <;> rfl
  · have e1 : c.toLower = c := by
      unfold Char.toLower
      simp only [ge_iff_le]
      rw [if_neg h]
    rw [e1, e1]

theorem unicode_targetsFixed : unicode.targetsFixed = true := by
  decide!

theorem Char_toNat_ofNat (t : Nat) (h : t.isValidChar) : (Char.ofNat t).toNat = t := by
  simp [Char.ofNat, h, Char.ofNatAux, Char.toNat, UInt32.toNat]

theorem Char_toLower_toNat_le (c : Char) (h : c.toNat ≤ 0x7F) : c.toLower.toNat ≤ 0x7F := by
  by_cases hc : 65 ≤ c.toNat ∧ c.toNat ≤ 90
  · have e : c.toLower = Char.ofNat (c.toNat + 32) := by
      unfold Char.toLower
      simp only [ge_iff_le]
      rw [if_pos hc]
    rw [e, Char_toNat_ofNat _ (Or.inl (by omega))]
    omega
  · have e : c.toLower = c := by
      unfold Char.toLower
      simp only [ge_iff_le]
      rw [if_neg hc]
    rw [e]
    exact h

theorem inRange_target (r s : Nat × Nat × Nat × Nat) (n : Nat)
    (hfree : unicode.targetsFree r s = true) (hn : unicode.inRange n r = true) :
    unicode.inRange (r.2.2.2 + (n - r.1)) s = false := by
  obtain ⟨lo, hi, st, tgt⟩ := r
  obtain ⟨lo2, hi2, st2, to2⟩ := s
  simp only [unicode.inRange, Bool.and_eq_true, Nat.ble_eq, Nat.beq_eq] at hn
  obtain ⟨⟨h1, h2⟩, h3⟩ := hn
  simp only [unicode.targetsFree, Bool.or_eq_true, Bool.and_eq_true, Nat.blt_eq,
    Nat.beq_eq] at hfree
  rw [Bool.eq_false_iff]
  intro hin
  simp only [unicode.inRange, Bool.and_eq_true, Nat.ble_eq, Nat.beq_eq] at hin
  obtain ⟨⟨g1, g2⟩, g3⟩ := hin
  rcases hfree with (hf | hf) | ⟨⟨hs2, hs⟩, hpar⟩
  · omega
  · omega
  · subst hs2
    rcases hs with hs | hs
    · subst hs
      omega
    · omega

theorem target_fixed (r : Nat × Nat × Nat × Nat) (n : Nat) (hr : r ∈ unicode.lowerRanges)
    (hn : unicode.inRange n r = true) :
    unicode.ToLower (Char.ofNat (r.2.2.2 + (n - r.1))) = Char.ofNat (r.2.2.2 + (n - r.1)) := by
  have hall := unicode_targetsFixed
  simp only [unicode.targetsFixed, List.all_eq_true, Bool.and_eq_true] at hall
  obtain ⟨hvalid, hfree⟩ := hall r hr
  have hno : unicode.lowerRanges.find? (unicode.inRange (r.2.2.2 + (n - r.1))) = none := by
    rw [List.find?_eq_none]
    intro s hs
    rw [inRange_target r s n (hfree s hs) hn]
    exact Bool.false_ne_true
  obtain ⟨lo, hi, st, tgt⟩ := r
  simp only [unicode.inRange, Bool.and_eq_true, Nat.ble_eq, Nat.beq_eq] at hn
  simp only [unicode.targetsValid, Bool.and_eq_true, Bool.or_eq_true, Nat.ble_eq] at hvalid
  obtain ⟨hv, ha⟩ := hvalid
  have hval : (tgt + (n - lo)).isValidChar := by
    rcases hv with hv | hv
    · exact Or.inl (by omega)
    · exact Or.inr ⟨by omega, by omega⟩
  have htn : (Char.ofNat (tgt + (n - lo))).toNat = tgt + (n - lo) := Char_toNat_ofNat _ hval
  unfold unicode.ToLower
  rw [htn]
  by_cases hle : tgt + (n - lo) ≤ 0x7F
  · rw [if_pos hle]
    unfold Char.toLower
    simp only [ge_iff_le, htn]
    rw [if_neg (by omega)]
  · rw [if_neg hle]
    simp only [unicode.lowerNat, hno]

theorem unicode_ToLower_idem (c : Char) :
    unicode.ToLower (unicode.ToLower c) = unicode.ToLower c := by
  by_cases h : c.toNat ≤ 0x7F
  · have e : unicode.ToLower c = c.toLower := by
      unfold unicode.ToLower
      rw [if_pos h]
    rw [e]
    unfold unicode.ToLower
    rw [if_pos (Char_toLower_toNat_le c h)]
    exact Char_toLower_toLower c
  · cases hfind : unicode.lowerRanges.find? (unicode.inRange c.toNat) with
    | none =>
      have e : unicode.ToLower c = c := by
        unfold unicode.ToLower
        rw [if_neg h]
        simp only [unicode.lowerNat, hfind, Char.ofNat_toNat]
      rw [e, e]
    | some r =>
      have e : unicode.ToLower c = Char.ofNat (r.2.2.2 + (c.toNat - r.1)) := by
        unfold unicode.ToLower
        rw [if_neg h]
        simp only [unicode.lowerNat, hfind]
      rw [e]
      exact target_fixed r c.toNat (List.mem_of_find?_eq_some hfind)
        (List.find?_some hfind)

theorem ToLower_ToLower (s : String) :
    strings.ToLower (strings.ToLower s) = strings.ToLower s := by
  have hfun : (unicode.ToLower ∘ unicode.ToLower) = unicode.ToLower := by
    funext c
    exact unicode_ToLower_idem c
  simp [strings.ToLower, hfun]

/-- The lower-casing on three names that are not ASCII: the Kelvin sign
U+212A becomes `k`, `Ä` becomes `ä`, and the long s U+017F stays. -/
theorem ToLower_beyond_ascii :
    strings.ToLower "\u212A.example.com" = "k.example.com" ∧
    strings.ToLower "a.Ä.com" = "a.ä.com" ∧
    strings.ToLower "x.teſt.com" = "x.teſt.com" := by
  decide

theorem crawlStep_exited (lib : WebLib) (c : WebCrawler) (rootDomain : String)
    (st : CrawlState) (e : CrawlEvent) (he : e ≠ CrawlEvent.timeout)
    (h : st.ctxDone = false ∧ st.exited = []) :
    (crawlStep lib c rootDomain st e).ctxDone = false ∧
    (crawlStep lib c rootDomain st e).exited = [] := by
  cases e with
  | timeout => exact absurd rfl he
  | seedSend =>
    simp only [crawlStep]
    split
    · split <;> exact h
    · exact h
  | seedStore => simp only [crawlStep]; split <;> exact h
  | seedCancel =>
    simp only [crawlStep]
    split
    · split <;> exact h
    · exact h
  | quit w =>
    simp only [crawlStep]
    rw [h.1]
    simp only [Bool.and_false, Bool.false_eq_true, if_false]
    exact h
  | take w =>
    simp only [crawlStep]
    split
    · split
      · split <;> exact h
      · exact h
    · exact h
  | sendSub w =>
    simp only [crawlStep]
    split
    · split <;> exact h
    · exact h
  | loadOrStore w =>
    simp only [crawlStep]
    split
    · split <;> exact h
    · exact h
  | sendLink w =>
    simp only [crawlStep]
    split
    · split <;> exact h
    · exact h
  | cancel w =>
    simp only [crawlStep]
    split
    · split <;> exact h
    · exact h
  | collect => simp only [crawlStep]; split <;> exact h

theorem crawlExec_exited (lib : WebLib) (c : WebCrawler) (rootDomain : String)
    (sched : List CrawlEvent) :
    ∀ st : CrawlState, CrawlEvent.timeout ∉ sched → st.ctxDone = false ∧ st.exited = [] →
      (crawlExec lib c rootDomain st sched).exited = [] := by
  induction sched with
  | nil => intro st _ h; exact h.2
  | cons e es ih =>
    intro st hs h
    have he : e ≠ CrawlEvent.timeout := fun heq => hs (heq ▸ List.mem_cons_self _ _)
    exact ih (crawlStep lib c rootDomain st e)
      (fun hm => hs (List.mem_cons_of_mem _ hm))
      (crawlStep_exited lib c rootDomain st e he h)

/-- The workers of `CrawlDomain` return only through the deadline: without
the timeout event the call does not return. -/
theorem CrawlDomain_needs_timeout (lib : WebLib) (c : WebCrawler) (domain : String)
    (hc : 0 < c.MaxConcurrency) (sched : List CrawlEvent)
    (hs : CrawlEvent.timeout ∉ sched) : c.CrawlDomain lib domain sched = none := by
  unfold WebCrawler.CrawlDomain
  simp only
  rw [crawlExec_exited lib c _ sched (crawlInit domain) hs ⟨rfl, rfl⟩]
  rw [if_neg]
  intro hall
  rw [List.all_eq_true] at hall
  have := hall 0 (List.mem_range.mpr hc)
  simp at this


/-! ## Lemmas on `extractSubdomains` of the search-engine sources -/

theorem foldl_Store_firstOccurrences (l : List String) :
    ∀ acc : List String,
      l.foldl Store acc = acc ++ (firstOccurrences l).filter (fun y => decide (y ∉ acc)) := by
  induction l with
  | nil => intro acc; simp [firstOccurrences]
  | cons x xs ih =>
    intro acc
    rw [List.foldl_cons, ih]
    by_cases hx : x ∈ acc
    · have hst : Store acc x = acc := by simp [Store, hx]
      rw [hst]
      simp only [firstOccurrences, List.filter_cons, hx, not_true_eq_false, decide_False,
        Bool.false_eq_true, if_false, List.filter_filter]
      congr 1
      apply List.filter_congr
      intro y _
      by_cases hy : y ∈ acc
      · simp [hy]
      · have hne : y ≠ x := fun e => hy (e ▸ hx)
        simp [hy, hne]
    · have hst : Store acc x = acc ++ [x] := by simp [Store, hx]
      rw [hst]
      simp only [firstOccurrences, List.filter_cons, hx, not_false_eq_true, decide_True,
        if_true, List.filter_filter, List.append_assoc, List.singleton_append]
      congr 2
      apply List.filter_congr
      intro y _
      by_cases hy : y ∈ acc
      · simp [hy]
      · by_cases hyx : y = x
        · simp [hyx]
        · simp [hy, hyx]

theorem ToLower_TrimPrefix_ToLower (s start : String) :
    strings.ToLower (strings.TrimPrefix (strings.ToLower s) start)
      = strings.TrimPrefix (strings.ToLower s) start := by
  unfold strings.TrimPrefix
  split
  · have hfun : (unicode.ToLower ∘ unicode.ToLower) = unicode.ToLower := by
      funext c
      exact unicode_ToLower_idem c
    simp only [strings.ToLower, ← List.map_drop, List.map_map, hfun]
  · exact ToLower_ToLower s

theorem extractMatch_inv (domain : String) (st : List String × List String) (m : List String)
    (h : st.2.Nodup ∧ (∀ x ∈ st.2, x ∈ st.1) ∧
      ∀ x ∈ st.2, strings.HasSuffix x ("." ++ domain) = true ∧ strings.ToLower x = x) :
    (extractMatch domain st m).2.Nodup ∧
      (∀ x ∈ (extractMatch domain st m).2, x ∈ (extractMatch domain st m).1) ∧
      ∀ x ∈ (extractMatch domain st m).2,
        strings.HasSuffix x ("." ++ domain) = true ∧ strings.ToLower x = x := by
  obtain ⟨hnd, hsub, hp⟩ := h
  match m with
  | [] => exact ⟨hnd, hsub, hp⟩
  | [_] => exact ⟨hnd, hsub, hp⟩
  | _ :: m1 :: _ =>
    simp only [extractMatch]
    split
    · rename_i hc
      simp only [Bool.and_eq_true, Bool.not_eq_true', decide_eq_false_iff_not] at hc
      obtain ⟨hsuf, hnew⟩ := hc
      refine ⟨?_, ?_, ?_⟩
      · rw [List.nodup_append]
        refine ⟨hnd, List.nodup_singleton _, ?_⟩
        intro a ha hb
        rw [List.mem_singleton] at hb
        rw [hb] at ha
        exact hnew (hsub _ ha)
      · intro x hx
        rw [List.mem_append] at hx ⊢
        rcases hx with hx | hx
        · exact Or.inl (hsub x hx)
        · exact Or.inr hx
      · intro x hx
        rw [List.mem_append, List.mem_singleton] at hx
        rcases hx with hx | hx
        · exact hp x hx
        · subst hx
          exact ⟨hsuf, ToLower_TrimPrefix_ToLower m1 "www."⟩
    · exact ⟨hnd, hsub, hp⟩

theorem foldl_extractMatch_inv (domain : String) (ms : List (List String)) :
    ∀ st : List String × List String,
      (st.2.Nodup ∧ (∀ x ∈ st.2, x ∈ st.1) ∧
        ∀ x ∈ st.2, strings.HasSuffix x ("." ++ domain) = true ∧ strings.ToLower x = x) →
      (ms.foldl (extractMatch domain) st).2.Nodup ∧
        ∀ x ∈ (ms.foldl (extractMatch domain) st).2,
          strings.HasSuffix x ("." ++ domain) = true ∧ strings.ToLower x = x := by
  induction ms with
  | nil => intro st h; exact ⟨h.1, h.2.2⟩
  | cons m ms ih => intro st h; exact ih _ (extractMatch_inv domain st m h)

theorem extractMatch_eq (domain : String) (k : List String) (m : List String) :
    extractMatch domain (k, k) m =
      match matchedName domain m with
      | some sub => (Store k sub, Store k sub)
      | none => (k, k) := by
  match m with
  | [] => rfl
  | [_] => rfl
  | _ :: m1 :: _ =>
    simp only [extractMatch, matchedName]
    by_cases h1 : strings.HasSuffix (strings.TrimPrefix (strings.ToLower m1) "www.")
        ("." ++ domain) = true
    · by_cases h2 : strings.TrimPrefix (strings.ToLower m1) "www." ∈ k
      · simp [h1, h2, Store]
      · simp [h1, h2, Store]
    · simp [h1]

theorem foldl_extractMatch_eq (domain : String) (ms : List (List String)) :
    ∀ k : List String,
      ms.foldl (extractMatch domain) (k, k) =
        ((ms.filterMap (matchedName domain)).foldl Store k,
          (ms.filterMap (matchedName domain)).foldl Store k) := by
  induction ms with
  | nil => intro k; rfl
  | cons m rest ih =>
    intro k
    rw [List.foldl_cons, extractMatch_eq]
    cases hm : matchedName domain m with
    | none => simp only [ih, List.filterMap_cons, hm]
    | some sub => simp only [ih, List.filterMap_cons, hm, List.foldl_cons]

/-! ## Lemmas on the processing of the crt.sh entries -/

theorem crt_name_eq (domain : String) (k : List String) (raw : String) :
    GetSubsFromCRT.name domain (k, k) raw =
      if (strings.TrimSpace raw != "" && strings.Contains (strings.TrimSpace raw) domain) = true
      then (Store k (strings.TrimPrefix (strings.TrimSpace raw) "*."),
        Store k (strings.TrimPrefix (strings.TrimSpace raw) "*."))
      else (k, k) := by
  have hstrip : ∀ n : String,
      (if strings.HasPrefix n "*." = true then strings.TrimPrefix n "*." else n)
        = strings.TrimPrefix n "*." := by
    intro n
    unfold strings.TrimPrefix
    split <;> rfl
  simp only [GetSubsFromCRT.name, hstrip, Store]
  by_cases h1 : strings.TrimSpace raw = ""
  · simp [h1]
  · by_cases h2 : strings.Contains (strings.TrimSpace raw) domain = true
    · simp only [h1, h2, not_true_eq_false, or_self, if_false, bne_iff_ne, ne_eq,
        not_false_eq_true, Bool.and_true, decide_True, if_true]
      split <;> rfl
    · simp [h1, h2]

theorem crt_foldl_name (domain : String) (names : List String) :
    ∀ k : List String,
      names.foldl (GetSubsFromCRT.name domain) (k, k) =
        ((((names.map strings.TrimSpace).filter
            (fun n => n != "" && strings.Contains n domain)).map
            (fun n => strings.TrimPrefix n "*.")).foldl Store k,
         (((names.map strings.TrimSpace).filter
            (fun n => n != "" && strings.Contains n domain)).map
            (fun n => strings.TrimPrefix n "*.")).foldl Store k) := by
  induction names with
  | nil => intro k; rfl
  | cons raw rest ih =>
    intro k
    rw [List.foldl_cons, crt_name_eq]
    by_cases h : (strings.TrimSpace raw != "" &&
        strings.Contains (strings.TrimSpace raw) domain) = true
    · rw [if_pos h, ih]
      simp only [List.map_cons, List.filter_cons, h, if_true, List.foldl_cons]
    · rw [if_neg h, ih]
      simp only [List.map_cons, List.filter_cons, h, if_false, Bool.false_eq_true]

theorem crt_foldl_entry (domain : String) (data : CRTResponse) :
    ∀ k : List String,
      data.foldl (GetSubsFromCRT.entry domain) (k, k) =
        ((crtNames data domain).foldl Store k, (crtNames data domain).foldl Store k) := by
  induction data with
  | nil => intro k; rfl
  | cons e rest ih =>
    intro k
    rw [List.foldl_cons, GetSubsFromCRT.entry, crt_foldl_name, ih]
    simp only [crtNames, List.flatMap_cons, List.map_append, List.filter_append,
      List.foldl_append]

theorem results_eq_foldl_Store (data : CRTResponse) (domain : String) :
    GetSubsFromCRT.results data domain = (crtNames data domain).foldl Store [] := by
  unfold GetSubsFromCRT.results
  rw [crt_foldl_entry]

theorem Contains_drop_wildcard (rest : List Char) (domain : String)
    (hdom : ∃ c cs, domain.data = c :: cs ∧ c ≠ '*' ∧ c ≠ '.')
    (h : strings.Contains (String.mk ('*' :: '.' :: rest)) domain = true) :
    strings.Contains (String.mk rest) domain = true := by
  obtain ⟨c, cs, hd, h1, h2⟩ := hdom
  unfold strings.Contains at h ⊢
  simp only [hd, List.tails, List.any_cons, List.isPrefixOf, Bool.or_eq_true,
    Bool.and_eq_true, beq_iff_eq] at h
  rcases h with h | h | h
  · exact absurd h.1 h1
  · exact absurd h.1 h2
  · rw [hd]
    exact h

theorem crtNames_contain (data : CRTResponse) (domain : String)
    (hdom : ∃ c cs, domain.data = c :: cs ∧ c ≠ '*' ∧ c ≠ '.')
    (x : String) (hx : x ∈ crtNames data domain) :
    x ≠ "" ∧ strings.Contains x domain = true := by
  have hne : ∀ y : String, strings.Contains y domain = true → y ≠ "" := by
    intro y hy e
    obtain ⟨c, cs, hd, _, _⟩ := hdom
    subst e
    simp [strings.Contains, hd, List.tails, List.isPrefixOf] at hy
  have key : strings.Contains x domain = true := by
    simp only [crtNames, List.mem_map, List.mem_filter, Bool.and_eq_true] at hx
    obtain ⟨n, ⟨_, _, hc⟩, rfl⟩ := hx
    unfold strings.TrimPrefix
    split
    · rename_i hp
      have hdata : ∃ rest, n.data = '*' :: '.' :: rest := by
        simp only [strings.HasPrefix] at hp
        obtain ⟨t, ht⟩ := List.isPrefixOf_iff_prefix.mp hp
        exact ⟨t, ht.symm⟩
      obtain ⟨rest, hrest⟩ := hdata
      have hn : n = String.mk ('*' :: '.' :: rest) := by
        rw [← hrest]
      rw [hn] at hc
      rw [hrest]
      exact Contains_drop_wildcard rest domain hdom hc
    · exact hc
  exact ⟨hne x key, key⟩

/-! ## Lemmas on `SaveResults` -/

theorem saveIfSet_eq {σ : Type} (path : String) (save : σ → Option String × σ)
    (st : List String × σ) :
    saveIfSet path save st =
      (st.1 ++ (if path = "" then (none, st.2) else save st.2).1.toList,
        (if path = "" then (none, st.2) else save st.2).2) := by
  unfold saveIfSet
  by_cases hp : path = ""
  · simp [hp]
  · simp only [bne_iff_ne, ne_eq, hp, not_false_eq_true, if_true, if_false]
    rcases hsave : save st.2 with ⟨e, s1⟩
    cases e <;> simp

/-! ## Lemmas on the lines `bufio.Scanner` delivers -/

/-- C11: `checkSubdomain` and the first result of `dnsLookup` are true exactly
when the resolver returns no error; both are false for a timed-out lookup and
for a "no such host" answer; and each call makes exactly one lookup, whose
answer decides the result (no retry). -/
theorem C11_exists_iff_no_error (resolver : Resolver) (live : LiveResolver)
    (log : List String) (host : String) :
    (checkSubdomain resolver host = true ↔ ∃ addrs, resolver host = .ok addrs) ∧
    ((dnsLookup resolver host).1 = true ↔ ∃ addrs, resolver host = .ok addrs) ∧
    ((dnsLookup resolver host).2 = none ↔ ∃ addrs, resolver host = .ok addrs) ∧
    (resolver host = .error DNSError.timeout →
      checkSubdomain resolver host = false ∧ (dnsLookup resolver host).1 = false) ∧
    (resolver host = .error DNSError.noSuchHost →
      checkSubdomain resolver host = false ∧ (dnsLookup resolver host).1 = false) ∧
    (checkSubdomainLogged live log host).2 = log ++ [host] ∧
    (dnsLookupLogged live log host).2 = log ++ [host] ∧
    ((checkSubdomainLogged live log host).1 = true ↔ ∃ addrs, live log host = .ok addrs) ∧
    ((dnsLookupLogged live log host).1.1 = true ↔ ∃ addrs, live log host = .ok addrs) := by
  have hc : ∀ r : Resolver, checkSubdomain r host = true ↔ ∃ addrs, r host = .ok addrs := by
    intro r
    unfold checkSubdomain
    cases h : r host <;> simp
  have hd : ∀ r : Resolver, (dnsLookup r host).1 = true ↔ ∃ addrs, r host = .ok addrs := by
    intro r
    unfold dnsLookup
    cases h : r host <;> simp
  refine ⟨hc resolver, hd resolver, ?_, ?_, ?_, rfl, rfl, hc (live log), hd (live log)⟩
  · unfold dnsLookup
    cases h : resolver host <;> simp
  · intro h; simp [checkSubdomain, dnsLookup, h]
  · intro h; simp [checkSubdomain, dnsLookup, h]

/-- C11 at a resolver that knows `www.example.com` only, and at a resolver
that times out on the first lookup and would answer the second: the candidate
is reported as not existing after one lookup. -/
theorem C11_exists_iff_no_error_witness :
    sampleResolver "mail.example.com" = .error DNSError.noSuchHost ∧
    checkSubdomain sampleResolver "mail.example.com" = false ∧
    checkSubdomain sampleResolver "www.example.com" = true ∧
    dnsLookup sampleResolver "mail.example.com" = (false, some DNSError.noSuchHost) ∧
    checkSubdomainLogged slowStartResolver [] "www.example.com"
      = (false, ["www.example.com"]) ∧
    dnsLookupLogged slowStartResolver [] "www.example.com"
      = ((false, some DNSError.timeout), ["www.example.com"]) ∧
    (checkSubdomain sampleResolver "mail.example.com" = false ∧
      (dnsLookup sampleResolver "mail.example.com").1 = false) :=
  ⟨rfl, by decide, by decide, by decide, by decide, by decide,
    (C11_exists_iff_no_error sampleResolver slowStartResolver [] "mail.example.com").2.2.2.2.1
      rfl⟩

set_option maxRecDepth 100000 in
/-- C12: the seeding goroutine sends each seed without asking the map
`discovered`, and stores it only afterwards.  On a web whose page
`https://example.com` links to `http://example.com`, a worker enqueues that
link as newly inserted before the seeding goroutine sends it as its second
seed: the URL is sent on `queue` twice, the second time while `discovered`
already holds it, and the call returns with that log. -/
theorem C12_seed_enqueued_twice :
    (crawlExec linkedWeb NewWebCrawler (extractRootDomain "example.com")
      (crawlInit "example.com")
      [CrawlEvent.seedSend, CrawlEvent.seedStore, CrawlEvent.take 0, CrawlEvent.loadOrStore 0,
        CrawlEvent.sendLink 0]).discovered
      = ["https://example.com", "http://example.com"] ∧
    (crawlExec linkedWeb NewWebCrawler (extractRootDomain "example.com")
      (crawlInit "example.com")
      [CrawlEvent.seedSend, CrawlEvent.seedStore, CrawlEvent.take 0, CrawlEvent.loadOrStore 0,
        CrawlEvent.sendLink 0, CrawlEvent.seedSend]).enqueued
      = ["https://example.com", "http://example.com", "http://example.com"] ∧
    (NewWebCrawler.CrawlDomain linkedWeb "example.com"
      ([CrawlEvent.seedSend, CrawlEvent.seedStore, CrawlEvent.take 0, CrawlEvent.loadOrStore 0,
        CrawlEvent.sendLink 0, CrawlEvent.seedSend, CrawlEvent.seedStore, CrawlEvent.timeout]
        ++ quitAll 20)).map CrawlRun.enqueued
      = some ["https://example.com", "http://example.com", "http://example.com"] ∧
    ¬ ["https://example.com", "http://example.com", "http://example.com"].Nodup := by
  decide

/-- C13, as stated, fails: when the certificate search never returns, no
schedule lets `processDomain` return, the deadline having passed or not. -/
theorem C13_counterexample :
    ¬ ∃ sched out, Event.timeout ∈ sched ∧
        processDomain (searchers hangEnv) "example.com" sched = some out := by
  rintro ⟨sched, out, _, hrun⟩
  have hnot : ¬ AllReturn (searchers hangEnv) "example.com" := by
    intro hall
    exact hall ⟨"Certificate Transparency", some hangEnv.GetSubsFromCRT⟩
      (by simp [searchers]) hangEnv.GetSubsFromCRT rfl rfl
  rw [processDomain_hangs _ _ hnot sched] at hrun
  cases hrun

/-- C13, amended: `processDomain` waits for every source goroutine.  When one
search function never returns it never returns, whether the deadline has
passed or not; when every search function returns, its run can be continued
to the return from any point. -/
theorem C13_returns_iff_sources_return (searchers : List Searcher) (domain : String) :
    (¬ AllReturn searchers domain →
      ∀ sched, processDomain searchers domain sched = none) ∧
    (AllReturn searchers domain → ∀ pre, ∃ suf out,
      processDomain searchers domain (pre ++ suf) = some out) := by
  refine ⟨fun h sched => processDomain_hangs searchers domain h sched, ?_⟩
  intro h pre
  obtain ⟨suf, _, out, hout⟩ := processDomain_extends searchers domain h pre
  exact ⟨suf, out, hout⟩

/-- C13, amended, at a table with a hanging search and at a table without. -/
theorem C13_returns_iff_sources_return_witness :
    (∀ sched, processDomain (searchers hangEnv) "example.com" sched = none) ∧
    (∀ pre, ∃ suf out, processDomain twoSources "example.com" (pre ++ suf) = some out) :=
  ⟨(C13_returns_iff_sources_return (searchers hangEnv) "example.com").1 (by
      intro hall
      exact hall ⟨"Certificate Transparency", some hangEnv.GetSubsFromCRT⟩
        (by simp [searchers]) hangEnv.GetSubsFromCRT rfl rfl),
    (C13_returns_iff_sources_return twoSources "example.com").2 (by
      intro s hs f hf
      simp only [twoSources, List.mem_cons, List.mem_singleton, List.not_mem_nil,
        or_false] at hs
      rcases hs with rfl | rfl <;>
        (simp only [Option.some.injEq] at hf; subst hf; simp))⟩

/-- C14: under every schedule of the source goroutines, the collector and the
main goroutine, no send is executed on the closed `results` channel, the
channel is closed only when every source goroutine has returned, and when the
final list is built the collector has returned on the closed, drained channel,
every hostname that a source goroutine sent is in the list, and the list is
the one `processDomain` gives for the run; and every finished run can be
followed by the close, the drain and the snapshot. -/
theorem C14_close_after_tasks_snapshot_after_drain (searchers : List Searcher)
    (domain : String) (sched : List MainEvent) :
    (mainExec (mainInit searchers domain) sched).sentOnClosed = false ∧
    ((mainExec (mainInit searchers domain) sched).closed = true →
      (mainExec (mainInit searchers domain) sched).run.tasks.all Task.done = true) ∧
    (∀ out, (mainExec (mainInit searchers domain) sched).subdomains = some out →
      (mainExec (mainInit searchers domain) sched).closed = true ∧
      (mainExec (mainInit searchers domain) sched).collected = true ∧
      (mainExec (mainInit searchers domain) sched).run.results = [] ∧
      (∀ x ∈ (mainExec (mainInit searchers domain) sched).sent, x ∈ out) ∧
      processDomain searchers domain (sched.filterMap MainEvent.toRun) = some out) ∧
    (∀ rsched out, processDomain searchers domain rsched = some out →
      (mainExec (mainInit searchers domain)
        (rsched.map MainEvent.run ++
          finishMain (exec (initState searchers domain) rsched).results.length)).subdomains
        = some out) := by
  obtain ⟨⟨h1, h2, h3, h4, h5⟩, hrun⟩ :=
    mainExec_inv sched (mainInit searchers domain) (mainInit_inv searchers domain)
  refine ⟨h1, h2, ?_, fun rsched out h => mainExec_finish searchers domain rsched out h⟩
  intro out ho
  obtain ⟨hcol, hout⟩ := h4 out ho
  obtain ⟨hcl, hres⟩ := h3 hcol
  have hdone := h2 hcl
  refine ⟨hcl, hcol, hres, ?_, ?_⟩
  · intro x hx
    rcases h5 x hx with hx | hx
    · rw [hres] at hx; cases hx
    · rw [hout]; exact hx
  · have hinit : (mainInit searchers domain).run = initState searchers domain := rfl
    rw [hinit] at hrun
    unfold processDomain
    simp only
    rw [← hrun, if_pos hdone, snapshot, hres, hout]
    rfl

/-- C14 at the two sources of the example: a close attempted while goroutine 1
still has a hostname to send does nothing, and the list built at the end holds
what was sent. -/
theorem C14_close_after_tasks_snapshot_after_drain_witness :
    (mainExec (mainInit twoSources "example.com")
      [MainEvent.run (Event.ret 0), MainEvent.run (Event.ret 1), MainEvent.run (Event.send 0),
        MainEvent.run (Event.send 1), MainEvent.close]).closed = false ∧
    (mainExec (mainInit twoSources "example.com")
      [MainEvent.run (Event.ret 0), MainEvent.run (Event.ret 1), MainEvent.run (Event.send 0),
        MainEvent.run (Event.send 1), MainEvent.close, MainEvent.run (Event.send 1),
        MainEvent.close, MainEvent.run Event.recv, MainEvent.collectorExit,
        MainEvent.run Event.recv, MainEvent.run Event.recv, MainEvent.range,
        MainEvent.collectorExit, MainEvent.range]).subdomains
      = some ["a.example.com", "b.example.com"] ∧
    (mainExec (mainInit twoSources "example.com")
      [MainEvent.run (Event.ret 0), MainEvent.run (Event.ret 1), MainEvent.run (Event.send 0),
        MainEvent.run (Event.send 1), MainEvent.close, MainEvent.run (Event.send 1),
        MainEvent.close, MainEvent.run Event.recv, MainEvent.collectorExit,
        MainEvent.run Event.recv, MainEvent.run Event.recv, MainEvent.range,
        MainEvent.collectorExit, MainEvent.range]).closed = true ∧
    processDomain twoSources "example.com"
      [Event.ret 0, Event.ret 1, Event.send 0, Event.send 1, Event.send 1, Event.recv,
        Event.recv, Event.recv]
      = some ["a.example.com", "b.example.com"] :=
  ⟨by decide, by decide,
    ((C14_close_after_tasks_snapshot_after_drain twoSources "example.com"
      [MainEvent.run (Event.ret 0), MainEvent.run (Event.ret 1), MainEvent.run (Event.send 0),
        MainEvent.run (Event.send 1), MainEvent.close, MainEvent.run (Event.send 1),
        MainEvent.close, MainEvent.run Event.recv, MainEvent.collectorExit,
        MainEvent.run Event.recv, MainEvent.run Event.recv, MainEvent.range,
        MainEvent.collectorExit, MainEvent.range]).2.2.1
      ["a.example.com", "b.example.com"] (by decide)).1,
    ((C14_close_after_tasks_snapshot_after_drain twoSources "example.com"
      [MainEvent.run (Event.ret 0), MainEvent.run (Event.ret 1), MainEvent.run (Event.send 0),
        MainEvent.run (Event.send 1), MainEvent.close, MainEvent.run (Event.send 1),
        MainEvent.close, MainEvent.run Event.recv, MainEvent.collectorExit,
        MainEvent.run Event.recv, MainEvent.run Event.recv, MainEvent.range,
        MainEvent.collectorExit, MainEvent.range]).2.2.1
      ["a.example.com", "b.example.com"] (by decide)).2.2.2.2⟩

/-- C15, as stated, fails: in this run goroutine 0 sends `a.example.com` after
the deadline has passed, goroutine 1 abandons, and the hostname is in the
final list; in the second run even the search returns after the deadline. -/
theorem C15_counterexample :
    (exec (initState twoSources "example.com") [Event.ret 0, Event.timeout]).ctxDone = true ∧
    (exec (initState twoSources "example.com") [Event.ret 0, Event.timeout]).results = [] ∧
    (exec (initState twoSources "example.com")
      [Event.ret 0, Event.timeout, Event.send 0]).results = ["a.example.com"] ∧
    processDomain twoSources "example.com"
        [Event.ret 0, Event.timeout, Event.send 0, Event.ret 1, Event.abandon 1]
      = some ["a.example.com"] ∧
    processDomain twoSources "example.com"
        [Event.timeout, Event.ret 0, Event.send 0, Event.ret 1, Event.abandon 1]
      = some ["a.example.com"] := by
  decide

/-- C15, amended: the deadline is consulted only in the `select` of each send.
Before it has passed no send is abandoned; once it has passed, a goroutine
that has a hostname to send may take the case `<-ctx.Done()`, which makes it
return with nothing more sent; so, when the search functions return, the run
can be continued to its end by returns and abandoned sends alone, and the
final list is then what had been sent before. -/
theorem C15_deadline_abandons_sends (searchers : List Searcher) (domain : String)
    (st : RunState) (i : Nat) :
    (st.ctxDone = false → step st (Event.abandon i) = st) ∧
    (st.ctxDone = true → ∀ sub rest, st.tasks[i]? = some (Task.sending (sub :: rest)) →
      step st (Event.abandon i)
        = ⟨st.tasks.set i (Task.sending []), st.results, st.uniqueSubs, true⟩) ∧
    (AllReturn searchers domain → ∀ pre, Event.timeout ∈ pre →
      ∃ suf, (∀ e ∈ suf, ∃ j, e = Event.ret j ∨ e = Event.abandon j) ∧
        processDomain searchers domain (pre ++ suf)
          = some (snapshot (exec (initState searchers domain) pre))) := by
  refine ⟨?_, ?_, ?_⟩
  · intro hc
    simp only [step]
    split
    · simp [hc]
    · rfl
  · intro hc sub rest hi
    simp [step, hi, hc]
  · intro hret pre hpre
    have hts := exec_ne_hangs pre _ (launch_ne_hangs searchers domain hret)
    have hc : (exec (initState searchers domain) pre).ctxDone = true :=
      exec_ctxDone_true pre _ (Or.inr hpre)
    have key := exec_abandonAll (exec (initState searchers domain) pre).tasks []
      (exec (initState searchers domain) pre) rfl hts hc
    simp only [List.length_nil, List.nil_append] at key
    refine ⟨abandonAll 0 (exec (initState searchers domain) pre).tasks,
      abandonAll_events _ 0, ?_⟩
    unfold processDomain
    simp only [exec_append, key]
    rw [if_pos (by simp [Task.done])]
    rfl

/-- C15, amended, at the two sources of the example, after the run in which
goroutine 0 has sent its hostname and the deadline has passed. -/
theorem C15_deadline_abandons_sends_witness :
    (initState twoSources "example.com").ctxDone = false ∧
    step (initState twoSources "example.com") (Event.abandon 0)
      = initState twoSources "example.com" ∧
    step (exec (initState twoSources "example.com") [Event.ret 1, Event.timeout])
        (Event.abandon 1)
      = ⟨[Task.running (Call.returns ["a.example.com"] none), Task.sending []], [], [], true⟩ ∧
    (∃ suf, (∀ e ∈ suf, ∃ j, e = Event.ret j ∨ e = Event.abandon j) ∧
      processDomain twoSources "example.com"
          ([Event.ret 0, Event.send 0, Event.timeout] ++ suf)
        = some (snapshot (exec (initState twoSources "example.com")
            [Event.ret 0, Event.send 0, Event.timeout]))) :=
  ⟨rfl,
    (C15_deadline_abandons_sends twoSources "example.com"
      (initState twoSources "example.com") 0).1 rfl,
    (C15_deadline_abandons_sends twoSources "example.com"
      (exec (initState twoSources "example.com") [Event.ret 1, Event.timeout]) 1).2.1 rfl
      "a.example.com" ["b.example.com"] rfl,
    (C15_deadline_abandons_sends twoSources "example.com"
      (initState twoSources "example.com") 0).2.2 (by
        intro s hs f hf
        simp only [twoSources, List.mem_cons, List.mem_singleton, List.not_mem_nil,
          or_false] at hs
        rcases hs with rfl | rfl <;>
          (simp only [Option.some.injEq] at hf; subst hf; simp))
      [Event.ret 0, Event.send 0, Event.timeout] (by decide)⟩

set_option maxRecDepth 100000 in
/-- C16: `CrawlDomain` has no `close(queue)`; its workers return only through
the deadline.  In this run two seeds are sent, the deadline passes, the twenty
workers return and the call returns with both URLs still in `queue`; and
without the timeout event no schedule lets the call return. -/
theorem C16_returns_with_queue_open :
    NewWebCrawler.CrawlDomain linkedWeb "example.com"
      ([CrawlEvent.seedSend, CrawlEvent.seedStore, CrawlEvent.seedSend, CrawlEvent.seedStore,
        CrawlEvent.timeout] ++ quitAll 20)
      = some ⟨[], ["https://example.com", "http://example.com"],
          ["https://example.com", "http://example.com"]⟩ ∧
    (∀ sched, CrawlEvent.timeout ∉ sched →
      NewWebCrawler.CrawlDomain linkedWeb "example.com" sched = none) :=
  ⟨by decide,
    fun sched hs =>
      CrawlDomain_needs_timeout linkedWeb NewWebCrawler "example.com" (by decide) sched hs⟩

/-- C17: for every wordlist, the empty one included, and under every schedule
of `BruteSubdomains` on the loaded words: no send on `jobs` finds the buffer
full; `jobs` is closed at most once and only when every entry has been sent;
a worker returns only when `jobs` is closed and empty; `results` is closed at
most once and only when every worker has returned; no send is executed on a
closed channel; when the call returns each channel has been closed exactly
once; and the call does return under the schedule `bruteSchedule`. -/
theorem C17_channels_closed_once (domain : String) (resolver : Resolver)
    (words : List String) (sched : List BruteEvent) :
    (bruteExec domain resolver (bruteInit words) sched).feedBlocked = false ∧
    (bruteExec domain resolver (bruteInit words) sched).sentOnClosed = false ∧
    (bruteExec domain resolver (bruteInit words) sched).jobsClosed ≤ 1 ∧
    (bruteExec domain resolver (bruteInit words) sched).resultsClosed ≤ 1 ∧
    (bruteExec domain resolver (bruteInit words) sched).pool
      = poolExec domain resolver (poolInit words) (sched.filterMap BruteEvent.toPool) ∧
    (0 < (bruteExec domain resolver (bruteInit words) sched).jobsClosed →
      (bruteExec domain resolver (bruteInit words) sched).pool.toFeed = [] ∧
      (((bruteExec domain resolver (bruteInit words) sched).pool.received.map Prod.snd)
        ++ (bruteExec domain resolver (bruteInit words) sched).pool.jobs).Perm words) ∧
    (∀ w ∈ (bruteExec domain resolver (bruteInit words) sched).exited,
      (bruteExec domain resolver (bruteInit words) sched).jobsClosed = 1 ∧
      (bruteExec domain resolver (bruteInit words) sched).pool.jobs = []) ∧
    (0 < (bruteExec domain resolver (bruteInit words) sched).resultsClosed →
      (∀ w, w < defaultWorkers →
        w ∈ (bruteExec domain resolver (bruteInit words) sched).exited) ∧
      (bruteExec domain resolver (bruteInit words) sched).pool.blocked = []) ∧
    ((bruteExec domain resolver (bruteInit words) sched).pc = BrutePc.returned →
      (bruteExec domain resolver (bruteInit words) sched).jobsClosed = 1 ∧
      (bruteExec domain resolver (bruteInit words) sched).resultsClosed = 1 ∧
      (bruteExec domain resolver (bruteInit words) sched).pool.finished = true) ∧
    (bruteExec domain resolver (bruteInit words) (bruteSchedule words.length)).pc
      = BrutePc.returned := by
  obtain ⟨⟨k1, k2, _, k4, k5, _, k7, _⟩, _, hpool⟩ :=
    bruteExec_inv domain resolver sched (bruteInit words) (bruteInit_inv words)
  have hinit : (bruteInit words).pool = poolInit words := rfl
  rw [hinit] at hpool
  generalize bruteExec domain resolver (bruteInit words) sched = st at *
  have hjc : st.jobsClosed ≤ 1 := by
    rcases k4 with ⟨_, h⟩ | ⟨_, h, _⟩ <;> omega
  have hrc : st.resultsClosed ≤ 1 := by
    rcases k7 with ⟨_, h⟩ | ⟨_, h, _⟩ <;> omega
  have hclosed : 0 < st.jobsClosed → st.jobsClosed = 1 ∧ st.pool.toFeed = [] := by
    intro h
    rcases k4 with ⟨_, h0⟩ | ⟨_, h1, hnil⟩
    · omega
    · exact ⟨h1, hnil⟩
  have hexit : ∀ w ∈ st.exited, st.jobsClosed = 1 ∧ st.pool.jobs = [] := by
    intro w hw
    obtain ⟨hj, hne⟩ := k5 (List.ne_nil_of_mem hw)
    rcases k4 with ⟨hf, _⟩ | ⟨_, h1, _⟩
    · exact absurd hf hne
    · exact ⟨h1, hj⟩
  have hres : 0 < st.resultsClosed →
      (∀ w, w < defaultWorkers → w ∈ st.exited) ∧ st.pool.blocked = [] := by
    intro h
    rcases k7 with ⟨_, h0⟩ | ⟨_, _, hall, hbl⟩
    · omega
    · refine ⟨?_, hbl⟩
      simp only [allExited, List.all_eq_true, List.mem_range, decide_eq_true_eq] at hall
      exact hall
  refine ⟨k1, k2, hjc, hrc, hpool, ?_, hexit, hres, ?_,
    bruteSchedule_returns domain resolver words⟩
  · intro h
    obtain ⟨_, hnil⟩ := hclosed h
    refine ⟨hnil, ?_⟩
    have hw := (poolExec_invariants resolver domain
      (sched.filterMap BruteEvent.toPool) (poolInit words)).2.1
    rw [← hpool] at hw
    have e2 : wordAccount (poolInit words) = words := by simp [wordAccount, poolInit]
    rw [e2] at hw
    simpa [wordAccount, hnil] using hw
  · intro hret
    rcases k7 with ⟨hd, _⟩ | ⟨_, hr1, hall, hbl⟩
    · rw [hret] at hd
      rcases hd with hd | hd <;> cases hd
    · have hzero : 0 < defaultWorkers := by decide
      have h0 : (0 : Nat) ∈ st.exited := by
        simp only [allExited, List.all_eq_true, List.mem_range, decide_eq_true_eq] at hall
        exact hall 0 hzero
      obtain ⟨hj1, hjobs⟩ := hexit 0 h0
      obtain ⟨_, hnil⟩ := hclosed (by omega)
      exact ⟨hj1, hr1, (finished_iff _).mpr ⟨hnil, hjobs, hbl⟩⟩

/-- C17 at the words `www`, `mail` and at the empty wordlist: a close of
`jobs` attempted before the last word is sent, and an exit or a close of
`results` attempted too early, do nothing. -/
theorem C17_channels_closed_once_witness :
    (bruteExec "example.com" sampleResolver (bruteInit ["www", "mail"])
      [BruteEvent.pool PoolEvent.feed, BruteEvent.closeJobs, BruteEvent.exit 3,
        BruteEvent.pool PoolEvent.feed, BruteEvent.closeJobs, BruteEvent.closeJobs,
        BruteEvent.exit 3, BruteEvent.closeResults]).jobsClosed = 1 ∧
    (bruteExec "example.com" sampleResolver (bruteInit ["www", "mail"])
      [BruteEvent.pool PoolEvent.feed, BruteEvent.closeJobs, BruteEvent.exit 3,
        BruteEvent.pool PoolEvent.feed, BruteEvent.closeJobs, BruteEvent.closeJobs,
        BruteEvent.exit 3, BruteEvent.closeResults]).exited = [] ∧
    (bruteExec "example.com" sampleResolver (bruteInit []) (bruteSchedule 0)).pc
      = BrutePc.returned ∧
    ((bruteExec "example.com" sampleResolver (bruteInit ["www", "mail"])
      [BruteEvent.pool PoolEvent.feed, BruteEvent.closeJobs, BruteEvent.exit 3,
        BruteEvent.pool PoolEvent.feed, BruteEvent.closeJobs, BruteEvent.closeJobs,
        BruteEvent.exit 3, BruteEvent.closeResults]).pool.toFeed = [] ∧
      (((bruteExec "example.com" sampleResolver (bruteInit ["www", "mail"])
        [BruteEvent.pool PoolEvent.feed, BruteEvent.closeJobs, BruteEvent.exit 3,
          BruteEvent.pool PoolEvent.feed, BruteEvent.closeJobs, BruteEvent.closeJobs,
          BruteEvent.exit 3, BruteEvent.closeResults]).pool.received.map Prod.snd)
        ++ (bruteExec "example.com" sampleResolver (bruteInit ["www", "mail"])
          [BruteEvent.pool PoolEvent.feed, BruteEvent.closeJobs, BruteEvent.exit 3,
            BruteEvent.pool PoolEvent.feed, BruteEvent.closeJobs, BruteEvent.closeJobs,
            BruteEvent.exit 3, BruteEvent.closeResults]).pool.jobs).Perm ["www", "mail"]) :=
  ⟨by decide, by decide,
    (C17_channels_closed_once "example.com" sampleResolver [] []).2.2.2.2.2.2.2.2.2,
    (C17_channels_closed_once "example.com" sampleResolver ["www", "mail"]
      [BruteEvent.pool PoolEvent.feed, BruteEvent.closeJobs, BruteEvent.exit 3,
        BruteEvent.pool PoolEvent.feed, BruteEvent.closeJobs, BruteEvent.closeJobs,
        BruteEvent.exit 3, BruteEvent.closeResults]).2.2.2.2.2.1 (by decide)⟩

/-- C18: `processURL` tests `strings.HasSuffix(host, domain)` without the dot
and before decoding.  For the archive URL `http://evilexample.com/login` and
the domain `example.com` it returns `evilexample.com`, which is not empty, is
not `example.com` and does not end with `.example.com`; for
`x%2example.com/` it returns `x.xample.com`. -/
theorem C18_processURL_accepts_foreign_host :
    processURL "http://evilexample.com/login" "example.com" = "evilexample.com" ∧
    "evilexample.com" ≠ "" ∧
    "evilexample.com" ≠ "example.com" ∧
    strings.HasSuffix "evilexample.com" ("." ++ "example.com") = false ∧
    processURL "x%2example.com/" "example.com" = "x.xample.com" ∧
    strings.HasSuffix "x.xample.com" ("." ++ "example.com") = false ∧
    processURL "https://www.example.com/a/b" "example.com" = "www.example.com" := by
  decide

/-- C20, as stated, fails: `generateSubdomains("example.com")` holds
`aws-example.com`, which does not end with `.example.com`, and
`GetSubsFromFavicon` returns it when it resolves and serves the icon of the
target. -/
theorem C20_counterexample :
    "aws-example.com" ∈ generateSubdomains "example.com" ∧
    strings.HasSuffix "aws-example.com" ("." ++ "example.com") = false ∧
    GetSubsFromFavicon sampleFaviconWeb cloudResolver "example.com"
        (List.replicate 25 FaviconEvent.feed ++ [FaviconEvent.take 0, FaviconEvent.probe 0])
      = some (["aws-example.com"], none) := by
  decide

/-- C20, amended: every candidate of `generateSubdomains(domain)` is
`label + "." + domain` for one of the fifteen common labels or five cloud
prefixes, or `prefix + "-" + domain` for one of the five cloud prefixes; and
every hostname that `GetSubsFromFavicon` returns is one of these candidates. -/
theorem C20_favicon_candidates (web : FaviconWeb) (resolver : Resolver) (domain : String)
    (sched : List FaviconEvent) (subs : List String) (err : Option String) :
    (∀ h ∈ generateSubdomains domain,
      (∃ label ∈ commonSubdomains ++ cloudPrefixes, h = label ++ "." ++ domain) ∨
      (∃ start ∈ cloudPrefixes, h = start ++ "-" ++ domain)) ∧
    (GetSubsFromFavicon web resolver domain sched = some (subs, err) →
      ∀ h ∈ subs, h ∈ generateSubdomains domain ∧
        ((∃ label ∈ commonSubdomains ++ cloudPrefixes, h = label ++ "." ++ domain) ∨
          (∃ start ∈ cloudPrefixes, h = start ++ "-" ++ domain))) := by
  have hgen : ∀ h ∈ generateSubdomains domain,
      (∃ label ∈ commonSubdomains ++ cloudPrefixes, h = label ++ "." ++ domain) ∨
      (∃ start ∈ cloudPrefixes, h = start ++ "-" ++ domain) := by
    intro h hh
    simp only [generateSubdomains, List.mem_append, List.mem_map, List.mem_flatMap,
      List.mem_cons, List.mem_singleton, List.not_mem_nil, or_false] at hh
    rcases hh with ⟨sub, hsub, rfl⟩ | ⟨start, hstart, rfl | rfl⟩
    · exact Or.inl ⟨sub, List.mem_append_left _ hsub, rfl⟩
    · exact Or.inr ⟨start, hstart, rfl⟩
    · exact Or.inl ⟨start, List.mem_append_right _ hstart, rfl⟩
  refine ⟨hgen, ?_⟩
  intro hrun h hh
  unfold GetSubsFromFavicon at hrun
  split at hrun
  · simp only [Option.some.injEq, Prod.mk.injEq] at hrun
    rw [← hrun.1] at hh
    cases hh
  · rename_i targetHash _
    cases hf : findMatchingSubdomains web resolver (generateSubdomains domain) targetHash
        sched with
    | none => simp [hf] at hrun
    | some results =>
      simp only [hf, Option.map_some', Option.some.injEq, Prod.mk.injEq] at hrun
      rw [← hrun.1] at hh
      have hmem := findMatchingSubdomains_subset web resolver _ targetHash sched results hf h hh
      exact ⟨hmem, hgen h hmem⟩

/-- C20, amended, at the run in which `aws-example.com` is returned. -/
theorem C20_favicon_candidates_witness :
    GetSubsFromFavicon sampleFaviconWeb cloudResolver "example.com"
        (List.replicate 25 FaviconEvent.feed ++ [FaviconEvent.take 0, FaviconEvent.probe 0])
      = some (["aws-example.com"], none) ∧
    (∀ h ∈ ["aws-example.com"], h ∈ generateSubdomains "example.com" ∧
      ((∃ label ∈ commonSubdomains ++ cloudPrefixes, h = label ++ "." ++ "example.com") ∨
        (∃ start ∈ cloudPrefixes, h = start ++ "-" ++ "example.com"))) :=
  ⟨by decide,
    (C20_favicon_candidates sampleFaviconWeb cloudResolver "example.com"
      (List.replicate 25 FaviconEvent.feed ++ [FaviconEvent.take 0, FaviconEvent.probe 0])
      ["aws-example.com"] none).2 (by decide)⟩

/-! ## Claims on the search-engine extraction, the domain list, the exporter and crt.sh -/

/-- C21: for every regexp engine, every content and every domain, the list
that the `extractSubdomains` of the search-engine sources returns has no
string twice, and every element of it ends with `"." + domain` and is its own
lower-casing; the list holds, each at its first occurrence, the lower-cased
first submatches without a leading `www.` that pass the suffix test. -/
theorem C21_extractSubdomains_unique_lower_suffix (lib : WebLib) (content domain : String) :
    (extractSubdomains lib content domain).Nodup ∧
    (∀ x ∈ extractSubdomains lib content domain,
      strings.HasSuffix x ("." ++ domain) = true ∧ strings.ToLower x = x) ∧
    extractSubdomains lib content domain =
      firstOccurrences
        ((lib.FindAllStringSubmatch (searchPattern domain) content).filterMap
          (matchedName domain)) := by
  obtain ⟨h1, h2⟩ := foldl_extractMatch_inv domain
    (lib.FindAllStringSubmatch (searchPattern domain) content) ([], [])
    ⟨List.nodup_nil, fun _ h => absurd h (List.not_mem_nil _),
      fun _ h => absurd h (List.not_mem_nil _)⟩
  refine ⟨h1, h2, ?_⟩
  unfold extractSubdomains
  rw [foldl_extractMatch_eq, foldl_Store_firstOccurrences]
  simp

/-- C21 on three result pages: `WWW.API.example.com` and `api.example.com`
give the one entry `api.example.com`, and `www.example.com` is dropped; for
the domain `Ä.com` the match `a.Ä.com` is lower-cased to `a.ä.com` and
dropped; for the domain `ä.com` the match `A.ä.com` gives `a.ä.com`. -/
theorem C21_extractSubdomains_unique_lower_suffix_witness :
    extractSubdomains resultPage "page" "example.com"
      = ["api.example.com", "mail.example.com"] ∧
    extractSubdomains resultPage "page" "Ä.com" = [] ∧
    extractSubdomains resultPage "page" "ä.com" = ["a.ä.com"] ∧
    (extractSubdomains resultPage "page" "ä.com").Nodup ∧
    ∀ x ∈ extractSubdomains resultPage "page" "ä.com",
      strings.HasSuffix x ("." ++ "ä.com") = true ∧ strings.ToLower x = x :=
  ⟨by decide, by decide, by decide,
    (C21_extractSubdomains_unique_lower_suffix resultPage "page" "ä.com").1,
    (C21_extractSubdomains_unique_lower_suffix resultPage "page" "ä.com").2.1⟩

/-- C23: on an empty list `SaveResults` returns an error and leaves the file
system as it was, whatever the three paths are.  On a non-empty list it runs,
in the order text, JSON, XML, the save of every format whose path is not
empty, each on the file system the one before left, whether that one failed or
not; the file system it leaves is the one the last of them leaves, and it
returns an error exactly when one of the saves it ran returned one. -/
theorem C23_SaveResults_attempts_every_format {σ : Type} (disk : Disk σ) (domain : String)
    (subs : List String) (textPath jsonPath xmlPath : String) (s : σ) :
    (subs = [] →
      SaveResults disk domain subs textPath jsonPath xmlPath s
        = (some "no subdomains found to save", s)) ∧
    (subs ≠ [] →
      let t := if textPath = "" then (none, s) else saveText disk textPath subs s
      let j := if jsonPath = "" then (none, t.2) else saveJSON disk jsonPath domain subs t.2
      let x := if xmlPath = "" then (none, j.2) else saveXML disk xmlPath domain subs j.2
      (SaveResults disk domain subs textPath jsonPath xmlPath s).2 = x.2 ∧
      ((SaveResults disk domain subs textPath jsonPath xmlPath s).1 ≠ none ↔
        t.1 ≠ none ∨ j.1 ≠ none ∨ x.1 ≠ none)) := by
  constructor
  · intro h
    subst h
    rfl
  · intro h t j x
    have hlen : subs.length ≠ 0 := fun e => h (List.length_eq_zero.mp e)
    have hrun : SaveResults disk domain subs textPath jsonPath xmlPath s =
        if (t.1.toList ++ j.1.toList ++ x.1.toList).length > 0 then
          (some ("output errors: [" ++
            " ".intercalate (t.1.toList ++ j.1.toList ++ x.1.toList) ++ "]"), x.2)
        else (none, x.2) := by
      simp only [SaveResults, if_neg hlen, saveIfSet_eq, List.nil_append]
    rw [hrun]
    have hcount : (t.1.toList ++ j.1.toList ++ x.1.toList).length > 0 ↔
        t.1 ≠ none ∨ j.1 ≠ none ∨ x.1 ≠ none := by
      cases t.1 <;> cases j.1 <;> cases x.1 <;> simp
    by_cases hc : (t.1.toList ++ j.1.toList ++ x.1.toList).length > 0
    · rw [if_pos hc]
      exact ⟨rfl, fun _ => hcount.mp hc, fun _ => by simp⟩
    · rw [if_neg hc]
      refine ⟨rfl, fun hne => absurd rfl hne, fun hor => absurd (hcount.mpr hor) hc⟩

/-- C23 on a file system where `out.json` cannot be created: nothing is done
for an empty list; for `a.example.com` the text and XML files are written and
the error of the JSON save is returned. -/
theorem C23_SaveResults_attempts_every_format_witness :
    SaveResults sampleDisk "example.com" [] "out.txt" "out.json" "out.xml" ["old"]
      = (some "no subdomains found to save", ["old"]) ∧
    SaveResults sampleDisk "example.com" ["a.example.com"] "out.txt" "out.json" "out.xml" []
      = (some "output errors: [failed to create JSON file: open out.json: permission denied]",
          ["close out.xml", "xml out.xml", "write out.xml", "create out.xml", "mkdir .",
            "mkdir .", "close out.txt", "write out.txt", "create out.txt", "mkdir ."]) ∧
    (SaveResults sampleDisk "example.com" ["a.example.com"] "out.txt" "out.json" "out.xml"
      []).1 ≠ none :=
  ⟨(C23_SaveResults_attempts_every_format sampleDisk "example.com" [] "out.txt" "out.json"
      "out.xml" ["old"]).1 rfl,
    by decide,
    ((C23_SaveResults_attempts_every_format sampleDisk "example.com" ["a.example.com"]
      "out.txt" "out.json" "out.xml" []).2 (by decide)).2.mpr (Or.inr (Or.inl (by decide)))⟩

/-- C24: for every list of decoded entries and every domain, the list that
the processing in `GetSubsFromCRT` returns has no string twice; it is the list
`crtNames` (the pieces of the `name_value` fields between newlines, trimmed,
without the trimmed pieces that are empty or do not contain the domain, each
without one leading `*.`) with every name kept at its first occurrence only,
so `*.a.example.com` and `a.example.com` give the single entry
`a.example.com`.  When the domain starts with a character other than `*` and
`.`, every returned name is itself non-empty and contains the domain. -/
theorem C24_crt_results_first_occurrences (data : CRTResponse) (domain : String) :
    (GetSubsFromCRT.results data domain).Nodup ∧
    GetSubsFromCRT.results data domain = firstOccurrences (crtNames data domain) ∧
    (∀ x, x ∈ GetSubsFromCRT.results data domain ↔ x ∈ crtNames data domain) ∧
    GetSubsFromCRT.results [⟨"*.a.example.com"⟩, ⟨"a.example.com"⟩] "example.com"
      = ["a.example.com"] ∧
    ((∃ c cs, domain.data = c :: cs ∧ c ≠ '*' ∧ c ≠ '.') →
      ∀ x ∈ GetSubsFromCRT.results data domain,
        x ≠ "" ∧ strings.Contains x domain = true) := by
  have hmem : ∀ x, x ∈ GetSubsFromCRT.results data domain ↔ x ∈ crtNames data domain := by
    intro x
    rw [results_eq_foldl_Store, mem_foldl_Store]
    simp only [List.not_mem_nil, false_or]
  refine ⟨?_, ?_, hmem, by decide, ?_⟩
  · rw [results_eq_foldl_Store]
    exact foldl_Store_nodup _ [] List.nodup_nil
  · rw [results_eq_foldl_Store, foldl_Store_firstOccurrences]
    simp
  · intro hdom x hx
    exact crtNames_contain data domain hdom x ((hmem x).mp hx)

/-- C24 on two certificates for `example.com`: the wildcard name and the
plain name give one entry, and the name of another domain is dropped. -/
theorem C24_crt_results_first_occurrences_witness :
    GetSubsFromCRT.results sampleCerts "example.com" = ["a.example.com", "b.example.com"] ∧
    ∀ x ∈ GetSubsFromCRT.results sampleCerts "example.com",
      x ≠ "" ∧ strings.Contains x "example.com" = true :=
  ⟨by decide,
    (C24_crt_results_first_occurrences sampleCerts "example.com").2.2.2.2
      ⟨'e', "xample.com".data, rfl, by decide, by decide⟩⟩

end SubFors
